import Mathlib

/-!
The Array and the event source registry of daemonlib.

A shallow embedding of `array.c` and of the source registry of `event.c`.

Memory is modelled in cells: a scalar (a byte of an inline item, an `int`, a
pointer, a function pointer) occupies one cell holding an integer.  The buffer
`array->bytes` is the list of its cells, a pointer into it is the cell offset from
`array->bytes`.  The blocks handed out by `calloc` for the items of a
non-relocatable Array live in a `Heap`; a pointer to such a block is its
(non-zero) block number, and `0` is `NULL`.  C `int` arithmetic is modelled in
`Int`, in the regime where the signed arithmetic of the source does not overflow.
The outcome of every allocation and of every platform hook is an argument of the
operation that performs it.
-/

namespace Daemonlib

/-! ## utils.h -/

/-- The macro `GROW_ALLOCATION(size)`, `((((size) - 1) / 16 + 1) * 16)`; the
division of C truncates toward zero. -/
def GROW_ALLOCATION (size : Int) : Int := (Int.tdiv (size - 1) 16 + 1) * 16

/-! ## Memory -/

/-- The size of a pointer, `sizeof(void *)`, in cells. -/
def SIZEOF_PTR : Int := 1

/-- The blocks allocated for items.  Block numbers are handed out in increasing
order starting at `next`; `blocks p` is the content of the live block `p`. -/
structure Heap where
  next : Int
  blocks : Int → Option (List Int)

/-- The heap with no live block; block number `0` is reserved for `NULL`. -/
def Heap.empty : Heap := { next := 1, blocks := fun _ => none }

/-- The call `calloc(nmemb, size)` for an item block: `none` is `NULL`, otherwise a
fresh block of `nmemb * size` zero cells. -/
def calloc (heap : Heap) (nmemb size : Int) (ok : Bool) : Option (Int × Heap) :=
  if ok then
    some (heap.next,
      { next := heap.next + 1,
        blocks := Function.update heap.blocks heap.next
          (some (List.replicate (nmemb * size).toNat 0)) })
  else none

/-- The call `free(p)` of an item block. -/
def free (heap : Heap) (p : Int) : Heap :=
  { heap with blocks := Function.update heap.blocks p none }

/-- The call `calloc(nmemb, size)` for the buffer of an Array: `none` is `NULL`. -/
def calloc_bytes (nmemb size : Int) (ok : Bool) : Option (List Int) :=
  if ok then some (List.replicate (nmemb * size).toNat 0) else none

/-- The call `realloc(bytes, n)`: `none` is `NULL` (the old buffer stays as it is);
otherwise the first `min (old length) n` cells are kept and the cell at offset
`k` of the added part has the indeterminate value `fill k`. -/
def realloc (bytes : List Int) (n : Int) (env : Option (Nat → Int)) : Option (List Int) :=
  match env with
  | none => none
  | some fill =>
    some ((List.range n.toNat).map fun (k : Nat) => if k < bytes.length then bytes.getD k 0 else fill k)

/-- The call `memset(bytes + off, c, n)`. -/
def memset (bytes : List Int) (off c n : Int) : List Int :=
  (List.range bytes.length).map fun (k : Nat) =>
    if off ≤ (k : Int) ∧ (k : Int) < off + n then c else bytes.getD k 0

/-- The call `memmove(bytes + dst, bytes + src, n)`. -/
def memmove (bytes : List Int) (dst src n : Int) : List Int :=
  (List.range bytes.length).map fun (k : Nat) =>
    if dst ≤ (k : Int) ∧ (k : Int) < dst + n then bytes.getD ((k : Int) - dst + src).toNat 0
    else bytes.getD k 0

/-- The store `*(void **)(bytes + off) = p`. -/
def store_ptr (bytes : List Int) (off p : Int) : List Int :=
  (List.range bytes.length).map fun (k : Nat) => if (k : Int) = off then p else bytes.getD k 0

/-- The cells `bytes[off], ..., bytes[off + n - 1]`. -/
def load (bytes : List Int) (off n : Int) : List Int :=
  (List.range n.toNat).map fun (m : Nat) => bytes.getD (off + (m : Int)).toNat 0

/-! ## array.c -/

/-- The struct `Array`; `bytes` is the content of the buffer `array->bytes`, the
empty list when the pointer is `NULL`. -/
structure Array where
  allocated : Int
  count : Int
  size : Int
  relocatable : Bool
  bytes : List Int

/-- The function `array_get`; the result is the offset of the item from
`array->bytes` for a relocatable Array, and the pointer stored in slot `i`
otherwise. -/
def array_get (array : Array) (i : Int) : Int :=
  if array.relocatable then
    array.size * i
  else
    array.bytes.getD (SIZEOF_PTR * i).toNat 0

/-- The function `array_create`; `ok` tells whether `calloc` succeeds.  Returns the
result code and the Array. -/
def array_create (reserve size : Int) (relocatable : Bool) (ok : Bool) : Int × Array :=
  let reserve := GROW_ALLOCATION reserve
  let array : Array :=
    { allocated := 0, count := 0, size := size, relocatable := relocatable, bytes := [] }
  match calloc_bytes reserve (if relocatable then size else SIZEOF_PTR) ok with
  | none => (-1, array)
  | some bytes => (0, { array with bytes := bytes, allocated := reserve })

/-- The function `array_reserve`; `env` is the outcome of `realloc`. -/
def array_reserve (array : Array) (count : Int) (env : Option (Nat → Int)) : Int × Array :=
  let size := if array.relocatable then array.size else SIZEOF_PTR
  if array.allocated ≥ count then
    (0, array)
  else
    let count := GROW_ALLOCATION count
    match realloc array.bytes (count * size) env with
    | none => (-1, array)
    | some bytes => (0, { array with allocated := count, bytes := bytes })

/-- The function `array_append`; `env` is the outcome of the `realloc` of
`array_reserve`, `ok` that of the `calloc` of the item block.  Returns the item
(`none` is `NULL`), the Array and the heap. -/
def array_append (array : Array) (heap : Heap) (env : Option (Nat → Int)) (ok : Bool) :
    Option Int × Array × Heap :=
  let (rc, array) := array_reserve array (array.count + 1) env
  if rc < 0 then
    (none, array, heap)
  else
    let array := { array with count := array.count + 1 }
    if array.relocatable then
      let item := array_get array (array.count - 1)
      (some item, { array with bytes := memset array.bytes item 0 array.size }, heap)
    else
      match calloc heap 1 array.size ok with
      | none => (none, { array with count := array.count - 1 }, heap)
      | some (item, heap) =>
        (some item,
          { array with bytes := store_ptr array.bytes (SIZEOF_PTR * (array.count - 1)) item },
          heap)

/-- The function `array_remove`; `destroy` tells whether the destructor is not
`NULL`.  Returns the Array, the heap and the pointers the destructor was invoked
on, in order. -/
def array_remove (array : Array) (heap : Heap) (i : Int) (destroy : Bool) :
    Array × Heap × List Int :=
  let item := array_get array i
  let size := if array.relocatable then array.size else SIZEOF_PTR
  let calls := if destroy then [item] else []
  let heap := if !array.relocatable then free heap item else heap
  let tail := (array.count - i - 1) * size
  let bytes := if tail > 0 then memmove array.bytes (size * i) (size * (i + 1)) tail
    else array.bytes
  let bytes := memset bytes (size * (array.count - 1)) 0 size
  ({ array with bytes := bytes, count := array.count - 1 }, heap, calls)

/-- The loop `for (i = ...; i < array->count; ++i)` of `array_resize` for a
destructor that is not `NULL`, with `n` iterations left at most. -/
def array_resize_destroy (array : Array) : Nat → Int → Heap → List Int → Heap × List Int
  | 0, _, heap, calls => (heap, calls)
  | n + 1, i, heap, calls =>
    if i < array.count then
      let item := array_get array i
      array_resize_destroy array n (i + 1)
        (if !array.relocatable then free heap item else heap) (calls ++ [item])
    else (heap, calls)

/-- The loop `for (i = ...; i < array->count; ++i)` of `array_resize` without a
destructor, for a non-relocatable Array, with `n` iterations left at most. -/
def array_resize_free (array : Array) : Nat → Int → Heap → Heap
  | 0, _, heap => heap
  | n + 1, i, heap =>
    if i < array.count then
      array_resize_free array n (i + 1) (free heap (array_get array i))
    else heap

/-- The function `array_resize`.  Returns the result code, the Array, the heap and
the pointers the destructor was invoked on, in order. -/
def array_resize (array : Array) (heap : Heap) (count : Int) (destroy : Bool)
    (env : Option (Nat → Int)) : Int × Array × Heap × List Int :=
  if array.count < count then
    let (rc, array) := array_reserve array count env
    if rc < 0 then
      (rc, array, heap, [])
    else
      (0, { array with count := count }, heap, [])
  else if array.count > count then
    if destroy then
      let (heap, calls) :=
        array_resize_destroy array (array.count - count).toNat count heap []
      (0, { array with count := count }, heap, calls)
    else if !array.relocatable then
      (0, { array with count := count },
        array_resize_free array (array.count - count).toNat count heap, [])
    else
      (0, { array with count := count }, heap, [])
  else
    (0, { array with count := count }, heap, [])

/-- The content of the item a pointer returned by `array_get` or `array_append`
points to: `array->size` cells of the buffer for a relocatable Array, the block
otherwise (`none` when the block is not live). -/
def deref (array : Array) (heap : Heap) (p : Int) : Option (List Int) :=
  if array.relocatable then some (load array.bytes p array.size) else heap.blocks p

/-- The content of the item at index `i`. -/
def item (array : Array) (heap : Heap) (i : Int) : Option (List Int) :=
  deref array heap (array_get array i)

/-- The caller fills the item `p` points to with the first `array->size` cells of
`v`, as `memcpy(p, v, array->size)`. -/
def write_item (array : Array) (heap : Heap) (p : Int) (v : List Int) : Array × Heap :=
  if array.relocatable then
    ({ array with
        bytes := (List.range array.bytes.length).map fun (k : Nat) =>
          if p ≤ (k : Int) ∧ (k : Int) < p + array.size then v.getD ((k : Int) - p).toNat 0
          else array.bytes.getD k 0 },
      heap)
  else
    (array, { heap with blocks := Function.update heap.blocks p (some (load v 0 array.size)) })

/-- The items at the indices `0, ..., count - 1`, in index order. -/
def items (array : Array) (heap : Heap) : List (Option (List Int)) :=
  (List.range array.count.toNat).map fun (i : Nat) => item array heap i

/-- The pointers `array_get` returns for the indices `0, ..., count - 1`. -/
def pointers (array : Array) : List Int :=
  (List.range array.count.toNat).map fun (i : Nat) => array_get array i

/-- The size of a slot of the buffer, the local `size` of `array_reserve` and
`array_remove`. -/
def Array.slot (array : Array) : Int :=
  if array.relocatable then array.size else SIZEOF_PTR

/-- The predicate `0 <= count <= allocated`. -/
def count_in_bounds (array : Array) : Prop :=
  0 ≤ array.count ∧ array.count ≤ array.allocated

/-- The representation invariant of an Array: the count lies between zero and the
capacity, the item size is not negative, and the buffer has `allocated` slots. -/
structure Array.WF (array : Array) : Prop where
  count_nonneg : 0 ≤ array.count
  count_le : array.count ≤ array.allocated
  size_nonneg : 0 ≤ array.size
  length_eq : (array.bytes.length : Int) = array.allocated * array.slot

/-- An Array together with the heap of its item blocks: block numbers from `next`
on are not in use and, for a non-relocatable Array, the slots below `count` hold
pairwise different live blocks. -/
structure Valid (array : Array) (heap : Heap) : Prop where
  wf : array.WF
  fresh : ∀ p, heap.next ≤ p → heap.blocks p = none
  live : array.relocatable = false → ∀ i, 0 ≤ i → i < array.count →
    (heap.blocks (array_get array i)).isSome = true
  distinct : array.relocatable = false → ∀ i j, 0 ≤ i → i < j → j < array.count →
    array_get array i ≠ array_get array j

/-- The function `array_destroy`; `free(array->bytes)` leaves no buffer.  Returns
the Array, the heap and the pointers the destructor was invoked on, in order. -/
def array_destroy (array : Array) (heap : Heap) (destroy : Bool) : Array × Heap × List Int :=
  if destroy then
    let (heap, calls) := array_resize_destroy array array.count.toNat 0 heap []
    ({ array with bytes := [] }, heap, calls)
  else if !array.relocatable then
    ({ array with bytes := [] }, array_resize_free array array.count.toNat 0 heap, [])
  else
    ({ array with bytes := [] }, heap, [])

/-! ## Sequences of calls on an Array -/

/-- One call of the owner of an Array: `array_reserve`, `array_append` (after which
the owner fills the new item with `v`), or `array_remove`. -/
inductive ArrayOp where
  | reserve (count : Int) (env : Option (Nat → Int))
  | append (env : Option (Nat → Int)) (ok : Bool) (v : List Int)
  | remove (i : Int) (destroy : Bool)

/-- The Array and the heap after the call. -/
def ArrayOp.apply (s : Array × Heap) : ArrayOp → Array × Heap
  | .reserve count env => ((array_reserve s.1 count env).2, s.2)
  | .append env ok v =>
    match array_append s.1 s.2 env ok with
    | (some p, a, h) => write_item a h p v
    | (none, a, h) => (a, h)
  | .remove i destroy => ((array_remove s.1 s.2 i destroy).1, (array_remove s.1 s.2 i destroy).2.1)

/-- The call is an `array_append` that returns an item, an `array_remove` with an
index in `[0, count)`, or an `array_reserve`. -/
def ArrayOp.succeeds (s : Array × Heap) : ArrayOp → Bool
  | .reserve _ _ => true
  | .append env ok _ => (array_append s.1 s.2 env ok).1.isSome
  | .remove i _ => decide (0 ≤ i ∧ i < s.1.count)

/-- The state after a sequence of calls, `none` when one of them does not succeed. -/
def run_ops (s : Array × Heap) : List ArrayOp → Option (Array × Heap)
  | [] => some s
  | op :: ops => if op.succeeds s then run_ops (op.apply s) ops else none

/-- The surviving items in original insertion order, in the words of the
specification: an append adds the new item at the end, a remove takes the item at
the given index out, and the order of the others is kept. -/
def surviving (size : Int) : List (List Int) → List ArrayOp → List (List Int)
  | l, [] => l
  | l, .reserve _ _ :: ops => surviving size l ops
  | l, .append _ _ v :: ops => surviving size (l ++ [load v 0 size]) ops
  | l, .remove i _ :: ops => surviving size (l.eraseIdx i.toNat) ops

/-- The state after a sequence of calls on items other than the one at index `pos`,
with the index that item has then; `none` when a remove is out of range or removes
that item. -/
def track (s : Array × Heap) (pos : Int) : List ArrayOp → Option ((Array × Heap) × Int)
  | [] => some (s, pos)
  | .remove i destroy :: ops =>
    if 0 ≤ i ∧ i < s.1.count ∧ i ≠ pos then
      track (ArrayOp.apply s (.remove i destroy)) (if i < pos then pos - 1 else pos) ops
    else none
  | op :: ops => track (op.apply s) pos ops

/-! ## event.h -/

/-- Modelled from the spec: the header `event.h` is not among the sources.  The
lifecycle state `Normal` of an event source, a value of the enumeration
`EventSourceState`. -/
def EVENT_SOURCE_STATE_NORMAL : Int := 0

/-- Modelled from the spec: the header `event.h` is not among the sources.  The
lifecycle state `Added`. -/
def EVENT_SOURCE_STATE_ADDED : Int := 1

/-- Modelled from the spec: the header `event.h` is not among the sources.  The
lifecycle state `Removed`. -/
def EVENT_SOURCE_STATE_REMOVED : Int := 2

/-- Modelled from the spec: the header `event.h` is not among the sources.  The
lifecycle state `Readded`. -/
def EVENT_SOURCE_STATE_READDED : Int := 3

/-- Modelled from the spec: the header `event.h` is not among the sources.  The
lifecycle state `Modified`. -/
def EVENT_SOURCE_STATE_MODIFIED : Int := 4

/-- Modelled from the spec: the header `event.h` is not among the sources.  The
source type tag `generic`. -/
def EVENT_SOURCE_TYPE_GENERIC : Int := 0

/-- Modelled from the spec: the header `event.h` is not among the sources.  The
source type tag `USB`. -/
def EVENT_SOURCE_TYPE_USB : Int := 1

/-- Modelled from the spec: the header `event.h` is not among the sources.  The
interest bit `read`. -/
def EVENT_READ : Nat := 1

/-- Modelled from the spec: the header `event.h` is not among the sources.  The
interest bit `priority`. -/
def EVENT_PRIO : Nat := 2

/-- Modelled from the spec: the header `event.h` is not among the sources.  The
interest bit `write`. -/
def EVENT_WRITE : Nat := 4

/-- Modelled from the spec: the header `event.h` is not among the sources.  The
interest bit `error`. -/
def EVENT_ERROR : Nat := 8

/-- Modelled from the spec: the header `event.h` is not among the sources.  The
struct `EventSource`: OS handle, source type tag, interest bitmask (`uint32_t`),
lifecycle state, and four pairs of a callback and its opaque context, one per
interest bit; function pointers and context pointers are integers, `0` is `NULL`. -/
structure EventSource where
  handle : Int
  type : Int
  events : Nat
  state : Int
  read : Int
  read_opaque : Int
  write : Int
  write_opaque : Int
  prio : Int
  prio_opaque : Int
  error : Int
  error_opaque : Int
  deriving DecidableEq, Repr

/-- Modelled from the spec: the header `event.h` is not among the sources.  The
size of the struct `EventSource`, `sizeof(EventSource)`, in cells. -/
def SIZEOF_EVENT_SOURCE : Int := 12

/-- The cells of the block of an event source, one per field. -/
def EventSource.encode (s : EventSource) : List Int :=
  [s.handle, s.type, (s.events : Int), s.state, s.read, s.read_opaque, s.write, s.write_opaque,
    s.prio, s.prio_opaque, s.error, s.error_opaque]

/-- The event source a block holds. -/
def EventSource.decode (c : List Int) : EventSource :=
  { handle := c.getD 0 0, type := c.getD 1 0, events := (c.getD 2 0).toNat, state := c.getD 3 0,
    read := c.getD 4 0, read_opaque := c.getD 5 0, write := c.getD 6 0,
    write_opaque := c.getD 7 0, prio := c.getD 8 0, prio_opaque := c.getD 9 0,
    error := c.getD 10 0, error_opaque := c.getD 11 0 }

/-- The read of the struct `*event_source`. -/
def load_source (heap : Heap) (event_source : Int) : EventSource :=
  EventSource.decode ((heap.blocks event_source).getD [])

/-- The write of the fields of the struct `*event_source`. -/
def store_source (heap : Heap) (event_source : Int) (source : EventSource) : Heap :=
  { heap with blocks := Function.update heap.blocks event_source (some source.encode) }

/-- The complement `~x` of a `uint32_t`. -/
def uint32_not (x : Nat) : Nat := 4294967295 - x % 4294967296

/-! ## event.c -/

/-- One call of a hook of the platform backend: `event_source_added_platform`,
`event_source_modified_platform` or `event_source_removed_platform`, with the
pointer it was given and the event source pointed to at the time of the call, or
`event_run_platform` or `event_stop_platform`. -/
inductive PlatformCall where
  | added (event_source : Int) (source : EventSource)
  | modified (event_source : Int) (source : EventSource)
  | removed (event_source : Int) (source : EventSource)
  | run
  | stop
  deriving DecidableEq, Repr

/-- The static variables of `event.c`, with the heap of the item blocks and the
hook calls made so far. -/
structure Registry where
  event_sources : Array
  heap : Heap
  running : Bool
  stop_requested : Bool
  platform : List PlatformCall

/-- The static variables before `event_init`. -/
def Registry.initial : Registry :=
  { event_sources := { allocated := 0, count := 0, size := 0, relocatable := false, bytes := [] },
    heap := Heap.empty, running := false, stop_requested := false, platform := [] }

/-- A loop `for (i = ...; i < count; ++i)` whose body either returns from the
function (`some`) or goes on (`none`), with `n` iterations left at most. -/
def for_up {β : Type} (count : Int) (body : Int → Option β) : Nat → Int → Option β
  | 0, _ => none
  | n + 1, i =>
    if i < count then
      match body i with
      | some b => some b
      | none => for_up count body n (i + 1)
    else none

/-- A loop `for (i = ...; i >= 0; --i)` whose body either returns from the function
(`some`) or goes on (`none`), with `n` iterations left at most. -/
def for_down {β : Type} (body : Int → Option β) : Nat → Int → Option β
  | 0, _ => none
  | n + 1, i =>
    if i ≥ 0 then
      match body i with
      | some b => some b
      | none => for_down body n (i - 1)
    else none

/-- The four statements `if ((events & EVENT_...) != 0)` that set the function and
the opaque pointer of the bits in `events`. -/
def set_functions (source : EventSource) (events : Nat) (function opaque_ptr : Int) : EventSource :=
  let source := if events &&& EVENT_READ ≠ 0
    then { source with read := function, read_opaque := opaque_ptr } else source
  let source := if events &&& EVENT_WRITE ≠ 0
    then { source with write := function, write_opaque := opaque_ptr } else source
  let source := if events &&& EVENT_PRIO ≠ 0
    then { source with prio := function, prio_opaque := opaque_ptr } else source
  let source := if events &&& EVENT_ERROR ≠ 0
    then { source with error := function, error_opaque := opaque_ptr } else source
  source

/-- The four statements `if ((events_to_remove & EVENT_...) != 0)` that unset the
function and the opaque pointer of the bits in `events_to_remove`. -/
def unset_functions (source : EventSource) (events_to_remove : Nat) : EventSource :=
  let source := if events_to_remove &&& EVENT_READ ≠ 0
    then { source with read := 0, read_opaque := 0 } else source
  let source := if events_to_remove &&& EVENT_WRITE ≠ 0
    then { source with write := 0, write_opaque := 0 } else source
  let source := if events_to_remove &&& EVENT_PRIO ≠ 0
    then { source with prio := 0, prio_opaque := 0 } else source
  let source := if events_to_remove &&& EVENT_ERROR ≠ 0
    then { source with error := 0, error_opaque := 0 } else source
  source

/-- The function `event_init`; `ok` is the outcome of the `calloc` of
`array_create`, `init_platform` the result of `event_init_platform`. -/
def event_init (r : Registry) (ok : Bool) (init_platform : Int) : Int × Registry :=
  let (rc, array) := array_create 32 SIZEOF_EVENT_SOURCE false ok
  let r := { r with event_sources := array }
  if rc < 0 then
    (-1, r)
  else if init_platform < 0 then
    let (array, heap, _) := array_destroy r.event_sources r.heap false
    (-1, { r with event_sources := array, heap := heap })
  else
    (0, r)

/-- The body of `if (event_source->handle == handle && event_source->type == type)`
in the loop of `event_add_source`; `hook` is the result of
`event_source_added_platform`. -/
def event_add_source_found (r : Registry) (events : Nat) (function opaque_ptr : Int) (hook : Int)
    (event_source : Int) : Int × Registry :=
  let source := load_source r.heap event_source
  if source.state = EVENT_SOURCE_STATE_REMOVED then
    let backup := source
    let source := { source with events := events, state := EVENT_SOURCE_STATE_READDED }
    let source := set_functions source events function opaque_ptr
    let r := { r with
      heap := store_source r.heap event_source source,
      platform := r.platform ++ [.added event_source source] }
    if hook < 0 then
      (-1, { r with heap := store_source r.heap event_source backup })
    else
      (0, r)
  else
    (-1, r)

/-- The function `event_add_source`; `env` and `ok` are the outcomes of the
allocations of `array_append`, `hook` is the result of
`event_source_added_platform`. -/
def event_add_source (r : Registry) (handle type : Int) (events : Nat) (function opaque_ptr : Int)
    (env : Option (Nat → Int)) (ok : Bool) (hook : Int) : Int × Registry :=
  match for_up r.event_sources.count (fun i =>
      let event_source := array_get r.event_sources i
      if (load_source r.heap event_source).handle = handle ∧
          (load_source r.heap event_source).type = type then
        some (event_add_source_found r events function opaque_ptr hook event_source)
      else none) r.event_sources.count.toNat 0 with
  | some result => result
  | none =>
    match array_append r.event_sources r.heap env ok with
    | (none, array, heap) => (-1, { r with event_sources := array, heap := heap })
    | (some event_source, array, heap) =>
      let source := load_source heap event_source
      let source := { source with
        handle := handle, type := type, events := events, state := EVENT_SOURCE_STATE_ADDED }
      let source := set_functions source events function opaque_ptr
      let r := { r with
        event_sources := array,
        heap := store_source heap event_source source,
        platform := r.platform ++ [.added event_source source] }
      if hook < 0 then
        let removed := array_remove r.event_sources r.heap (r.event_sources.count - 1) false
        (-1, { r with event_sources := removed.1, heap := removed.2.1 })
      else
        (0, r)

/-- The body of `if (event_source->handle == handle && event_source->type == type)`
in the loop of `event_modify_source`; `hook` is the result of
`event_source_modified_platform`. -/
def event_modify_source_found (r : Registry) (events_to_remove events_to_add : Nat)
    (function opaque_ptr : Int) (hook : Int) (event_source : Int) : Int × Registry :=
  let source := load_source r.heap event_source
  if source.state = EVENT_SOURCE_STATE_REMOVED then
    (-1, r)
  else
    let backup := source
    let source := { source with events := source.events &&& uint32_not events_to_remove }
    let source := { source with events := source.events ||| events_to_add }
    let source := unset_functions source events_to_remove
    let source := set_functions source events_to_add function opaque_ptr
    let source := { source with state := EVENT_SOURCE_STATE_MODIFIED }
    let r := { r with
      heap := store_source r.heap event_source source,
      platform := r.platform ++ [.modified event_source source] }
    if hook < 0 then
      (-1, { r with heap := store_source r.heap event_source backup })
    else
      (0, r)

/-- The function `event_modify_source`; `hook` is the result of
`event_source_modified_platform`. -/
def event_modify_source (r : Registry) (handle type : Int) (events_to_remove events_to_add : Nat)
    (function opaque_ptr : Int) (hook : Int) : Int × Registry :=
  match for_up r.event_sources.count (fun i =>
      let event_source := array_get r.event_sources i
      if (load_source r.heap event_source).handle = handle ∧
          (load_source r.heap event_source).type = type then
        some (event_modify_source_found r events_to_remove events_to_add function opaque_ptr hook
          event_source)
      else none) r.event_sources.count.toNat 0 with
  | some result => result
  | none => (-1, r)

/-- The body of `if (event_source->handle == handle && event_source->type == type)`
in the loop of `event_remove_source`. -/
def event_remove_source_found (r : Registry) (event_source : Int) : Registry :=
  let source := load_source r.heap event_source
  if source.state = EVENT_SOURCE_STATE_REMOVED then
    r
  else
    let source := { source with state := EVENT_SOURCE_STATE_REMOVED }
    { r with
      heap := store_source r.heap event_source source,
      platform := r.platform ++ [.removed event_source source] }

/-- The function `event_remove_source`. -/
def event_remove_source (r : Registry) (handle type : Int) : Registry :=
  match for_down (fun i =>
      let event_source := array_get r.event_sources i
      if (load_source r.heap event_source).handle = handle ∧
          (load_source r.heap event_source).type = type then
        some (event_remove_source_found r event_source)
      else none) r.event_sources.count.toNat (r.event_sources.count - 1) with
  | some result => result
  | none => r

/-- The loop `for (i = ...; i >= 0; --i)` of `event_cleanup_sources`, with `n`
iterations left at most. -/
def event_cleanup_sources_loop : Nat → Int → Registry → Registry
  | 0, _, r => r
  | n + 1, i, r =>
    if i ≥ 0 then
      let event_source := array_get r.event_sources i
      let source := load_source r.heap event_source
      if source.state = EVENT_SOURCE_STATE_REMOVED then
        let removed := array_remove r.event_sources r.heap i false
        event_cleanup_sources_loop n (i - 1)
          { r with event_sources := removed.1, heap := removed.2.1 }
      else
        let source := { source with state := EVENT_SOURCE_STATE_NORMAL }
        event_cleanup_sources_loop n (i - 1)
          { r with heap := store_source r.heap event_source source }
    else r

/-- The function `event_cleanup_sources`. -/
def event_cleanup_sources (r : Registry) : Registry :=
  event_cleanup_sources_loop r.event_sources.count.toNat (r.event_sources.count - 1) r

/-- The event sources in a non-relocatable Array, in index order. -/
def source_list (array : Array) (heap : Heap) : List EventSource :=
  (List.range array.count.toNat).map fun (i : Nat) => load_source heap (array_get array i)

/-- The event sources in the array `_event_sources`, in index order. -/
def sources (r : Registry) : List EventSource :=
  source_list r.event_sources r.heap

/-- The identity of an event source: its handle and its type. -/
def EventSource.identity (s : EventSource) : Int × Int := (s.handle, s.type)

/-- One call of the registry: `event_add_source`, `event_modify_source`,
`event_remove_source` or `event_cleanup_sources`, with the outcomes of its
allocations and of its platform hook. -/
inductive RegistryCall where
  | add (handle type : Int) (events : Nat) (function opaque_ptr : Int)
      (env : Option (Nat → Int)) (ok : Bool) (hook : Int)
  | modify (handle type : Int) (events_to_remove events_to_add : Nat) (function opaque_ptr : Int)
      (hook : Int)
  | remove (handle type : Int)
  | cleanup

/-- The registry after the call. -/
def RegistryCall.apply (r : Registry) : RegistryCall → Registry
  | .add handle type events function opaque_ptr env ok hook =>
    (event_add_source r handle type events function opaque_ptr env ok hook).2
  | .modify handle type events_to_remove events_to_add function opaque_ptr hook =>
    (event_modify_source r handle type events_to_remove events_to_add function opaque_ptr hook).2
  | .remove handle type => event_remove_source r handle type
  | .cleanup => event_cleanup_sources r

/-- The registry after a sequence of calls. -/
def run_calls (r : Registry) : List RegistryCall → Registry
  | [] => r
  | call :: calls => run_calls (call.apply r) calls

/-- The registry invariant: the array of event sources is a valid non-relocatable
Array of items of the size of an event source. -/
structure Registry.Valid (r : Registry) : Prop where
  valid : Daemonlib.Valid r.event_sources r.heap
  nonrelocatable : r.event_sources.relocatable = false
  size_eq : r.event_sources.size = SIZEOF_EVENT_SOURCE

/-- The list `event_cleanup_sources` leaves, in the words of the specification: the
sources that are not in state `Removed`, in their original relative order, each
with state `Normal` and all other fields unchanged. -/
def cleaned (l : List EventSource) : List EventSource :=
  (l.filter fun s => decide (s.state ≠ EVENT_SOURCE_STATE_REMOVED)).map
    fun s => { s with state := EVENT_SOURCE_STATE_NORMAL }

/-- The call `function(opaque)` of a callback through its function pointer.  The
callback may call the functions of `event.c`: `callbacks function opaque_ptr` is
what it does to the registry.  The call is recorded at the end of the list of the
callbacks invoked so far. -/
def invoke (callbacks : Int → Int → Registry → Registry) (function opaque_ptr : Int)
    (s : Registry × List (Int × Int)) : Registry × List (Int × Int) :=
  (callbacks function opaque_ptr s.1, s.2 ++ [(function, opaque_ptr)])

/-- The rest of `event_handle_source` from the statement
`if ((received_events & EVENT_ERROR) != 0 && event_source->error != NULL)` on. -/
def event_handle_source_error (callbacks : Int → Int → Registry → Registry)
    (event_source : Int) (received_events : Nat) (s : Registry × List (Int × Int)) :
    Registry × List (Int × Int) :=
  let source := load_source s.1.heap event_source
  if received_events &&& EVENT_ERROR ≠ 0 ∧ source.error ≠ 0 then
    if source.state = EVENT_SOURCE_STATE_REMOVED then
      s
    else
      invoke callbacks source.error source.error_opaque s
  else
    s

/-- The rest of `event_handle_source` from the statement
`if ((received_events & EVENT_PRIO) != 0 && event_source->prio != NULL)` on. -/
def event_handle_source_prio (callbacks : Int → Int → Registry → Registry)
    (event_source : Int) (received_events : Nat) (s : Registry × List (Int × Int)) :
    Registry × List (Int × Int) :=
  let source := load_source s.1.heap event_source
  if received_events &&& EVENT_PRIO ≠ 0 ∧ source.prio ≠ 0 then
    if source.state = EVENT_SOURCE_STATE_REMOVED then
      s
    else
      event_handle_source_error callbacks event_source received_events
        (invoke callbacks source.prio source.prio_opaque s)
  else
    event_handle_source_error callbacks event_source received_events s

/-- The rest of `event_handle_source` from the statement
`if ((received_events & EVENT_WRITE) != 0 && event_source->write != NULL)` on. -/
def event_handle_source_write (callbacks : Int → Int → Registry → Registry)
    (event_source : Int) (received_events : Nat) (s : Registry × List (Int × Int)) :
    Registry × List (Int × Int) :=
  let source := load_source s.1.heap event_source
  if received_events &&& EVENT_WRITE ≠ 0 ∧ source.write ≠ 0 then
    if source.state = EVENT_SOURCE_STATE_REMOVED then
      s
    else
      event_handle_source_prio callbacks event_source received_events
        (invoke callbacks source.write source.write_opaque s)
  else
    event_handle_source_prio callbacks event_source received_events s

/-- The function `event_handle_source`.  Returns the registry and the callbacks
invoked, as pairs of function and opaque pointer, in order. -/
def event_handle_source (callbacks : Int → Int → Registry → Registry) (r : Registry)
    (event_source : Int) (received_events : Nat) : Registry × List (Int × Int) :=
  let source := load_source r.heap event_source
  if source.state ≠ EVENT_SOURCE_STATE_NORMAL then
    (r, [])
  else if source.prio ≠ 0 ∧ source.prio = source.error ∧
      source.prio_opaque = source.error_opaque then
    if received_events &&& ( EVENT_PRIO ||| EVENT_ERROR) ≠ 0 then
      invoke callbacks source.prio source.prio_opaque (r, [])
    else
      (r, [])
  else if source.read ≠ 0 ∧ source.read = source.write ∧
      source.read_opaque = source.write_opaque then
    if received_events &&& (EVENT_READ ||| EVENT_WRITE) ≠ 0 then
      invoke callbacks source.read source.read_opaque (r, [])
    else
      (r, [])
  else
    let s := if received_events &&& EVENT_READ ≠ 0 ∧ source.read ≠ 0
      then invoke callbacks source.read source.read_opaque (r, []) else (r, [])
    event_handle_source_write callbacks event_source received_events s

/-- The registry after the callbacks `calls` ran, in order, from the registry `r`. -/
def run_callbacks (callbacks : Int → Int → Registry → Registry) (r : Registry)
    (calls : List (Int × Int)) : Registry :=
  calls.foldl (fun x c => callbacks c.1 c.2 x) r

/-- The function `event_run`; `run_platform` is what `event_run_platform` does: its
result and the registry when it returns. -/
def event_run (r : Registry) (run_platform : Registry → Int × Registry) : Int × Registry :=
  if r.running then
    (0, r)
  else if r.stop_requested then
    (0, r)
  else
    let rc := run_platform { r with platform := r.platform ++ [.run] }
    (rc.1, rc.2)

/-- The function `event_stop`. -/
def event_stop (r : Registry) : Registry :=
  let r := { r with stop_requested := true }
  if !r.running then
    r
  else
    { r with running := false, platform := r.platform ++ [.stop] }

/-! ## socket_winapi.c -/

/-- The constant `ERRNO_WINAPI_OFFSET` of `utils.h`. -/
def ERRNO_WINAPI_OFFSET : Int := 71000000

/-- The constant `ERRNO_ADDRINFO_OFFSET` of `utils.h`. -/
def ERRNO_ADDRINFO_OFFSET : Int := 72000000

/-- The constant `SOCKET_ERROR` of the Windows headers. -/
def SOCKET_ERROR : Int := -1

/-- The constant `INVALID_SOCKET` of the Windows headers, `(SOCKET)(~0)` of a 64-bit
build. -/
def INVALID_SOCKET : Int := 18446744073709551615

/-- The constant `AF_INET` of the Windows headers. -/
def AF_INET : Int := 2

/-- The constant `AF_INET6` of the Windows headers. -/
def AF_INET6 : Int := 23

/-- The constant `WSAENOPROTOOPT` of the Windows headers. -/
def WSAENOPROTOOPT : Int := 10042

/-- The outcome of one call of the Windows API: the value it returns and the code
`WSAGetLastError()` reports after it. -/
structure Native where
  result : Int
  last_error : Int

/-- The function `socket_prepare`; `setsockopt` and `ioctlsocket` are the outcomes of
the two API calls, `errno` the value of `errno` before the call.  Returns the result
and the value of `errno`. -/
def socket_prepare (family : Int) (setsockopt ioctlsocket : Native) (errno : Int) : Int × Int :=
  if (family = AF_INET ∨ family = AF_INET6) ∧ setsockopt.result = SOCKET_ERROR then
    (-1, ERRNO_WINAPI_OFFSET + setsockopt.last_error)
  else if ioctlsocket.result = SOCKET_ERROR then
    (-1, ERRNO_WINAPI_OFFSET + ioctlsocket.last_error)
  else
    (0, errno)

/-- The function `socket_open`; `socket` is the outcome of the API call `socket`, whose
result is the handle.  Returns the result, the handle and the value of `errno`. -/
def socket_open (family : Int) (socket setsockopt ioctlsocket : Native) (errno : Int) :
    Int × Int × Int :=
  if socket.result = INVALID_SOCKET then
    (-1, socket.result, ERRNO_WINAPI_OFFSET + socket.last_error)
  else
    let prepared := socket_prepare family setsockopt ioctlsocket errno
    if prepared.1 < 0 then
      (-1, socket.result, prepared.2)
    else
      (0, socket.result, prepared.2)

/-- The function `socket_accept_platform`; `accept` is the outcome of the API call
`accept`, whose result is the handle, `family` is `address->sa_family`.  Returns the
result, the handle and the value of `errno`. -/
def socket_accept_platform (family : Int) (accept setsockopt ioctlsocket : Native)
    (errno : Int) : Int × Int × Int :=
  if accept.result = INVALID_SOCKET then
    (-1, accept.result, ERRNO_WINAPI_OFFSET + accept.last_error)
  else
    let prepared := socket_prepare family setsockopt ioctlsocket errno
    if prepared.1 < 0 then
      (-1, accept.result, prepared.2)
    else
      (0, accept.result, prepared.2)

/-- The body shared by `socket_bind`, `socket_listen_platform`, `socket_connect`,
`socket_receive_platform`, `socket_send_platform` and `socket_set_address_reuse`: one
API call, whose result is returned unless it is `SOCKET_ERROR`. -/
def socket_call (call : Native) (errno : Int) : Int × Int :=
  if call.result = SOCKET_ERROR then
    (-1, ERRNO_WINAPI_OFFSET + call.last_error)
  else
    (call.result, errno)

/-- The function `socket_bind`; `bind` is the outcome of the API call. -/
def socket_bind (bind : Native) (errno : Int) : Int × Int := socket_call bind errno

/-- The function `socket_listen_platform`; `listen` is the outcome of the API call. -/
def socket_listen_platform (listen : Native) (errno : Int) : Int × Int :=
  socket_call listen errno

/-- The function `socket_connect`; `connect` is the outcome of the API call. -/
def socket_connect (connect : Native) (errno : Int) : Int × Int := socket_call connect errno

/-- The function `socket_receive_platform`; `recv` is the outcome of the API call. -/
def socket_receive_platform (recv : Native) (errno : Int) : Int × Int :=
  socket_call recv errno

/-- The function `socket_send_platform`; `send` is the outcome of the API call. -/
def socket_send_platform (send : Native) (errno : Int) : Int × Int := socket_call send errno

/-- The function `socket_set_address_reuse`; `setsockopt` is the outcome of the API
call. -/
def socket_set_address_reuse (setsockopt : Native) (errno : Int) : Int × Int :=
  socket_call setsockopt errno

/-- The function `socket_set_dual_stack` of a build that is not a UWP build;
`version` is `(DWORD)(LOBYTE(LOWORD(GetVersion())))`, `setsockopt` the outcome of the
API call. -/
def socket_set_dual_stack (dual_stack : Bool) (version : Int) (setsockopt : Native)
    (errno : Int) : Int × Int :=
  if version < 6 then
    if dual_stack then
      (-1, ERRNO_WINAPI_OFFSET + WSAENOPROTOOPT)
    else
      (0, errno)
  else if setsockopt.result = SOCKET_ERROR then
    (-1, ERRNO_WINAPI_OFFSET + setsockopt.last_error)
  else
    (setsockopt.result, errno)

/-- The function `socket_hostname_to_address`; `getaddrinfo` is the outcome of the API
call, `resolved` the list it stores.  Returns the pointer (`0` is `NULL`) and the
value of `errno`. -/
def socket_hostname_to_address (getaddrinfo : Native) (resolved : Int) (errno : Int) :
    Int × Int :=
  if getaddrinfo.result ≠ 0 then
    (0, ERRNO_WINAPI_OFFSET + getaddrinfo.last_error)
  else
    (resolved, errno)

/-- The function `socket_address_to_hostname`; `getnameinfo` is the outcome of the API
call. -/
def socket_address_to_hostname (getnameinfo : Native) (errno : Int) : Int × Int :=
  if getnameinfo.result ≠ 0 then
    (-1, ERRNO_WINAPI_OFFSET + getnameinfo.last_error)
  else
    (0, errno)

/-! ## Cells -/

theorem getD_map_range (f : Nat → Int) (n k : Nat) :
    ((List.range n).map f).getD k 0 = if k < n then f k else 0 := by
  rw [List.getD_eq_getElem?_getD, List.getElem?_map]
  by_cases h : k < n
  · simp [List.getElem?_range h, h]
  · have : (List.range n)[k]? = none := List.getElem?_eq_none (by simpa using h)
    simp [this, h]

theorem getD_of_length_le (l : List Int) (k : Nat) (h : l.length ≤ k) : l.getD k 0 = 0 := by
  rw [List.getD_eq_getElem?_getD, List.getElem?_eq_none h]; rfl

theorem length_memset (bytes : List Int) (off c n : Int) :
    (memset bytes off c n).length = bytes.length := by simp [memset]

theorem length_memmove (bytes : List Int) (dst src n : Int) :
    (memmove bytes dst src n).length = bytes.length := by simp [memmove]

theorem length_store_ptr (bytes : List Int) (off p : Int) :
    (store_ptr bytes off p).length = bytes.length := by simp [store_ptr]

theorem length_load (bytes : List Int) (off n : Int) :
    (load bytes off n).length = n.toNat := by simp [load]

theorem getD_memset (bytes : List Int) (off c n : Int) (k : Nat) :
    (memset bytes off c n).getD k 0 =
      if k < bytes.length ∧ off ≤ (k : Int) ∧ (k : Int) < off + n then c else bytes.getD k 0 := by
  unfold memset
  rw [getD_map_range]
  by_cases h : k < bytes.length
  · simp [h]
  · rw [if_neg h, if_neg (fun hh => h hh.1)]
    exact (getD_of_length_le _ _ (by omega)).symm

theorem getD_memmove (bytes : List Int) (dst src n : Int) (k : Nat) :
    (memmove bytes dst src n).getD k 0 =
      if k < bytes.length ∧ dst ≤ (k : Int) ∧ (k : Int) < dst + n
      then bytes.getD ((k : Int) - dst + src).toNat 0 else bytes.getD k 0 := by
  unfold memmove
  rw [getD_map_range]
  by_cases h : k < bytes.length
  · simp [h]
  · rw [if_neg h, if_neg (fun hh => h hh.1)]
    exact (getD_of_length_le _ _ (by omega)).symm

theorem getD_store_ptr (bytes : List Int) (off p : Int) (k : Nat) :
    (store_ptr bytes off p).getD k 0 =
      if k < bytes.length ∧ (k : Int) = off then p else bytes.getD k 0 := by
  unfold store_ptr
  rw [getD_map_range]
  by_cases h : k < bytes.length
  · simp [h]
  · rw [if_neg h, if_neg (fun hh => h hh.1)]
    exact (getD_of_length_le _ _ (by omega)).symm

/-! ## GROW_ALLOCATION -/

theorem GROW_ALLOCATION_zero : GROW_ALLOCATION 0 = 16 := by decide

theorem GROW_ALLOCATION_pos (n : Int) (h : 1 ≤ n) :
    16 ∣ GROW_ALLOCATION n ∧ n ≤ GROW_ALLOCATION n ∧ GROW_ALLOCATION n < n + 16 := by
  unfold GROW_ALLOCATION
  rw [Int.tdiv_eq_ediv (by omega) (by norm_num)]
  refine ⟨Dvd.intro_left _ rfl, ?_, ?_⟩ <;> omega

theorem GROW_ALLOCATION_nonneg (n : Int) (h : 0 ≤ n) :
    16 ∣ GROW_ALLOCATION n ∧ n ≤ GROW_ALLOCATION n ∧ 0 < GROW_ALLOCATION n ∧
      GROW_ALLOCATION n < n + 17 := by
  rcases lt_or_ge n 1 with h0 | h1
  · have : n = 0 := by omega
    subst this
    rw [GROW_ALLOCATION_zero]; decide
  · have := GROW_ALLOCATION_pos n h1
    refine ⟨this.1, this.2.1, ?_, ?_⟩ <;> omega

theorem multiple_of_16_ge (g m n : Int) (hg : 16 ∣ g) (hm : 16 ∣ m) (hlt : g < n + 16)
    (hn : n ≤ m) : g ≤ m := by
  omega

/-! ## Slots -/

theorem slot_nonneg (a : Array) (h : 0 ≤ a.size) : 0 ≤ a.slot := by
  unfold Array.slot SIZEOF_PTR; split <;> omega

theorem mul_succ_le (s i c : Int) (hs : 0 ≤ s) (hic : i + 1 ≤ c) : s * i + s ≤ s * c := by
  have := Int.mul_le_mul_of_nonneg_left hic hs
  linarith

theorem mul_mono (s i c : Int) (hs : 0 ≤ s) (hic : i ≤ c) : s * i ≤ s * c :=
  Int.mul_le_mul_of_nonneg_left hic hs

theorem load_congr (b b' : List Int) (off off' n : Int)
    (hc : ∀ m : Nat, (m : Int) < n →
      b'.getD (off' + (m : Int)).toNat 0 = b.getD (off + (m : Int)).toNat 0) :
    load b' off' n = load b off n := by
  unfold load
  apply List.map_congr_left
  intro m hm
  have : m < n.toNat := by simpa using hm
  exact hc m (by omega)

/-- Slot `i` of `a'` holds what slot `j` of `a` holds: the inline items agree, and
so do the stored pointers. -/
theorem slot_congr (a a' : Array) (i j : Int) (hrel : a'.relocatable = a.relocatable)
    (hsize : a'.size = a.size)
    (hc : ∀ m : Nat, (m : Int) < a.slot →
      a'.bytes.getD (a.slot * i + (m : Int)).toNat 0 =
        a.bytes.getD (a.slot * j + (m : Int)).toNat 0) :
    (a.relocatable = true →
      load a'.bytes (array_get a' i) a'.size = load a.bytes (array_get a j) a.size) ∧
    (a.relocatable = false → array_get a' i = array_get a j) := by
  constructor
  · intro hr
    simp only [array_get, hrel, hr, hsize, if_true]
    apply load_congr
    intro m hm
    have := hc m (by simpa [Array.slot, hr] using hm)
    simpa [Array.slot, hr] using this
  · intro hr
    have := hc 0 (by simp [Array.slot, hr, SIZEOF_PTR])
    simpa [array_get, hrel, hr, Array.slot, SIZEOF_PTR] using this

theorem item_congr (a a' : Array) (h h' : Heap) (i j : Int)
    (hrel : a'.relocatable = a.relocatable) (hsize : a'.size = a.size)
    (hc : ∀ m : Nat, (m : Int) < a.slot →
      a'.bytes.getD (a.slot * i + (m : Int)).toNat 0 =
        a.bytes.getD (a.slot * j + (m : Int)).toNat 0)
    (hh : a.relocatable = false → h'.blocks (array_get a j) = h.blocks (array_get a j)) :
    item a' h' i = item a h j := by
  have hs := slot_congr a a' i j hrel hsize hc
  unfold item deref
  rw [hrel]
  cases hr : a.relocatable
  · simp only [Bool.false_eq_true, if_false]
    rw [hs.2 hr]; exact hh hr
  · simp only [if_true]
    rw [hs.1 hr]

/-! ## array_reserve -/

theorem array_reserve_cases (a : Array) (n : Int) (env : Option (Nat → Int)) :
    (a.allocated ≥ n ∧ array_reserve a n env = (0, a)) ∨
    (a.allocated < n ∧ env = none ∧ array_reserve a n env = (-1, a)) ∨
    (a.allocated < n ∧ ∃ fill, env = some fill ∧
      array_reserve a n env = (0, { a with
        allocated := GROW_ALLOCATION n,
        bytes := (List.range (GROW_ALLOCATION n * a.slot).toNat).map fun (k : Nat) =>
          if k < a.bytes.length then a.bytes.getD k 0 else fill k })) := by
  unfold array_reserve
  by_cases h : a.allocated ≥ n
  · left; simp [h]
  · right
    cases env with
    | none => left; simp [h, realloc]; omega
    | some fill => right; simp [h, realloc, Array.slot]; omega

theorem array_reserve_rc (a : Array) (n : Int) (env : Option (Nat → Int)) :
    (array_reserve a n env).1 = 0 ∨
      ((array_reserve a n env).1 = -1 ∧ (array_reserve a n env).2 = a) := by
  rcases array_reserve_cases a n env with h | h | h
  · left; rw [h.2]
  · right; rw [h.2.2]; simp
  · left; obtain ⟨_, fill, _, h⟩ := h; rw [h]

theorem array_reserve_fields (a : Array) (n : Int) (env : Option (Nat → Int)) :
    (array_reserve a n env).2.count = a.count ∧ (array_reserve a n env).2.size = a.size ∧
      (array_reserve a n env).2.relocatable = a.relocatable := by
  rcases array_reserve_cases a n env with h | h | h
  · rw [h.2]; simp
  · rw [h.2.2]; simp
  · obtain ⟨_, fill, _, h⟩ := h; rw [h]; simp

theorem array_reserve_slot (a : Array) (n : Int) (env : Option (Nat → Int)) :
    (array_reserve a n env).2.slot = a.slot := by
  have := array_reserve_fields a n env
  unfold Array.slot; rw [this.2.1, this.2.2]

theorem array_reserve_allocated (a : Array) (n : Int) (env : Option (Nat → Int))
    (hw : count_in_bounds a) :
    a.allocated ≤ (array_reserve a n env).2.allocated ∧
      ((array_reserve a n env).1 = 0 → n ≤ (array_reserve a n env).2.allocated) := by
  rcases array_reserve_cases a n env with h | h | h
  · rw [h.2]; simp; exact h.1
  · rw [h.2.2]; simp
  · obtain ⟨hlt, fill, _, h⟩ := h; rw [h]
    have := GROW_ALLOCATION_pos n (by unfold count_in_bounds at hw; omega)
    simp; omega

theorem array_reserve_getD (a : Array) (n : Int) (env : Option (Nat → Int)) (hw : a.WF)
    (k : Nat) (hk : k < a.bytes.length) :
    (array_reserve a n env).2.bytes.getD k 0 = a.bytes.getD k 0 := by
  rcases array_reserve_cases a n env with h | h | h
  · rw [h.2]
  · rw [h.2.2]
  · obtain ⟨hlt, fill, _, h⟩ := h; rw [h]
    simp only
    rw [getD_map_range]
    have hg := GROW_ALLOCATION_pos n (by have := hw.count_nonneg; have := hw.count_le; omega)
    have hs := slot_nonneg a hw.size_nonneg
    have h1 : a.allocated * a.slot ≤ GROW_ALLOCATION n * a.slot :=
      Int.mul_le_mul_of_nonneg_right (by omega) hs
    have h2 := hw.length_eq
    have : k < (GROW_ALLOCATION n * a.slot).toNat := by omega
    simp [this, hk]

theorem array_reserve_wf (a : Array) (n : Int) (env : Option (Nat → Int)) (hw : a.WF) :
    (array_reserve a n env).2.WF := by
  rcases array_reserve_cases a n env with h | h | h
  · rw [h.2]; exact hw
  · rw [h.2.2]; exact hw
  · obtain ⟨hlt, fill, _, h⟩ := h; rw [h]
    have hg := GROW_ALLOCATION_pos n (by have := hw.count_nonneg; have := hw.count_le; omega)
    have hs := slot_nonneg a hw.size_nonneg
    have hc0 := hw.count_nonneg
    have hc1 := hw.count_le
    have h0 : 0 ≤ GROW_ALLOCATION n * a.slot := Int.mul_nonneg (by omega) hs
    refine ⟨hw.count_nonneg, ?_, hw.size_nonneg, ?_⟩
    · simp only; omega
    · simp [Array.slot] at h0 ⊢; omega

theorem cell_lt_length (a : Array) (hw : a.WF) (i : Int) (m : Nat) (hi0 : 0 ≤ i)
    (hi : i < a.allocated) (hm : (m : Int) < a.slot) :
    (a.slot * i + (m : Int)).toNat < a.bytes.length := by
  have hs := slot_nonneg a hw.size_nonneg
  have h1 := mul_succ_le a.slot i a.allocated hs (by omega)
  have h2 := hw.length_eq
  have h3 : 0 ≤ a.slot * i := Int.mul_nonneg hs hi0
  have h4 : a.allocated * a.slot = a.slot * a.allocated := Int.mul_comm _ _
  omega

theorem array_reserve_item (a : Array) (n : Int) (env : Option (Nat → Int)) (hw : a.WF)
    (heap : Heap) (i : Int) (hi0 : 0 ≤ i) (hi : i < a.count) :
    item (array_reserve a n env).2 heap i = item a heap i ∧
      array_get (array_reserve a n env).2 i = array_get a i := by
  have hf := array_reserve_fields a n env
  have hc : ∀ m : Nat, (m : Int) < a.slot →
      (array_reserve a n env).2.bytes.getD (a.slot * i + (m : Int)).toNat 0 =
        a.bytes.getD (a.slot * i + (m : Int)).toNat 0 := fun m hm =>
    array_reserve_getD a n env hw _
      (cell_lt_length a hw i m hi0 (by have := hw.count_le; omega) hm)
  refine ⟨item_congr a _ heap heap i i hf.2.2 hf.2.1 hc (fun _ => rfl), ?_⟩
  have hs := slot_congr a _ i i hf.2.2 hf.2.1 hc
  cases hr : a.relocatable
  · exact hs.2 hr
  · simp [array_get, hf.2.2, hf.2.1, hr]

/-! ## array_append -/

theorem array_append_cases (a : Array) (h : Heap) (env : Option (Nat → Int)) (ok : Bool) :
    ((array_reserve a (a.count + 1) env).1 = -1 ∧ array_append a h env ok = (none, a, h)) ∨
    ((array_reserve a (a.count + 1) env).1 = 0 ∧ a.relocatable = true ∧
      array_append a h env ok = (some (a.size * a.count),
        { (array_reserve a (a.count + 1) env).2 with
          count := a.count + 1,
          bytes := memset (array_reserve a (a.count + 1) env).2.bytes
            (a.size * a.count) 0 a.size }, h)) ∨
    ((array_reserve a (a.count + 1) env).1 = 0 ∧ a.relocatable = false ∧ ok = false ∧
      array_append a h env ok =
        (none, { (array_reserve a (a.count + 1) env).2 with count := a.count }, h)) ∨
    ((array_reserve a (a.count + 1) env).1 = 0 ∧ a.relocatable = false ∧ ok = true ∧
      array_append a h env ok = (some h.next,
        { (array_reserve a (a.count + 1) env).2 with
          count := a.count + 1,
          bytes := store_ptr (array_reserve a (a.count + 1) env).2.bytes a.count h.next },
        { next := h.next + 1,
          blocks := Function.update h.blocks h.next
            (some (List.replicate a.size.toNat 0)) })) := by
  have hf := array_reserve_fields a (a.count + 1) env
  have hrc := array_reserve_rc a (a.count + 1) env
  unfold array_append
  generalize array_reserve a (a.count + 1) env = r at hf hrc ⊢
  obtain ⟨rc, a1⟩ := r
  simp only at hf hrc ⊢
  obtain ⟨hcnt, hsz, hrel⟩ := hf
  rcases hrc with hrc | ⟨hrc, ha⟩
  · right
    subst hrc
    cases hr : a.relocatable
    · right
      cases ok
      · left
        simp [hrel, hr, calloc, hcnt]
      · right
        simp [hrel, hr, calloc, hcnt, hsz, SIZEOF_PTR]
    · left
      simp [hrel, hr, array_get, hcnt, hsz]
  · left
    subst hrc ha
    simp

theorem load_eq_replicate (b : List Int) (off n : Int)
    (hc : ∀ m : Nat, (m : Int) < n → b.getD (off + (m : Int)).toNat 0 = 0) :
    load b off n = List.replicate n.toNat 0 := by
  rw [List.eq_replicate_iff]
  refine ⟨length_load b off n, ?_⟩
  intro c hc'
  unfold load at hc'
  rw [List.mem_map] at hc'
  obtain ⟨m, hm, rfl⟩ := hc'
  have : m < n.toNat := by simpa using hm
  exact hc m (by omega)

theorem array_get_nonreloc (a : Array) (i : Int) (hr : a.relocatable = false) :
    array_get a i = a.bytes.getD i.toNat 0 := by
  simp [array_get, hr, SIZEOF_PTR]

theorem array_get_reloc (a : Array) (i : Int) (hr : a.relocatable = true) :
    array_get a i = a.size * i := by
  simp [array_get, hr]

theorem slot_nonreloc (a : Array) (hr : a.relocatable = false) : a.slot = 1 := by
  simp [Array.slot, hr, SIZEOF_PTR]

theorem slot_reloc (a : Array) (hr : a.relocatable = true) : a.slot = a.size := by
  simp [Array.slot, hr]

/-- What a successful `array_append` does to a valid Array. -/
theorem array_append_some (a : Array) (h : Heap) (env : Option (Nat → Int)) (ok : Bool)
    (p : Int) (a' : Array) (h' : Heap) (hv : Valid a h)
    (hr : array_append a h env ok = (some p, a', h')) :
    a'.count = a.count + 1 ∧ a'.size = a.size ∧ a'.relocatable = a.relocatable ∧
    a'.allocated = (array_reserve a (a.count + 1) env).2.allocated ∧
    array_get a' a.count = p ∧
    deref a' h' p = some (List.replicate a.size.toNat 0) ∧
    (∀ i, 0 ≤ i → i < a.count →
      item a' h' i = item a h i ∧ array_get a' i = array_get a i) ∧
    (a.relocatable = false → p = h.next) ∧
    (∀ q, q ≠ h.next → h'.blocks q = h.blocks q) ∧
    Valid a' h' := by
  have hw := hv.wf
  have hw1 := array_reserve_wf a (a.count + 1) env hw
  have hf := array_reserve_fields a (a.count + 1) env
  have hs1 := array_reserve_slot a (a.count + 1) env
  have hal := array_reserve_allocated a (a.count + 1) env ⟨hw.count_nonneg, hw.count_le⟩
  have hc0 := hw.count_nonneg
  have hsz := hw.size_nonneg
  have hslot := slot_nonneg a hsz
  rcases array_append_cases a h env ok with hc | hc | hc | hc
  · rw [hc.2] at hr; simp at hr
  · -- relocatable
    obtain ⟨hrc, hrel, hc⟩ := hc
    rw [hc] at hr
    simp only [Prod.mk.injEq, Option.some.injEq] at hr
    obtain ⟨hp, ha', hh'⟩ := hr
    subst hp ha' hh'
    have hal2 := hal.2 hrc
    have hcell : ∀ (i : Int) (m : Nat), 0 ≤ i → i < a.count → (m : Int) < a.slot →
        (memset (array_reserve a (a.count + 1) env).2.bytes (a.size * a.count) 0 a.size).getD
          (a.slot * i + (m : Int)).toNat 0 = a.bytes.getD (a.slot * i + (m : Int)).toNat 0 := by
      intro i m hi0 hi hm
      rw [getD_memset]
      have h1 := mul_succ_le a.slot i a.count hslot (by omega)
      have h3 : 0 ≤ a.slot * i := Int.mul_nonneg hslot hi0
      rw [slot_reloc a hrel] at h1 h3 hm ⊢
      rw [if_neg (by omega)]
      have := cell_lt_length a hw i m hi0 (by have := hw.count_le; omega)
        (by rw [slot_reloc a hrel]; exact hm)
      rw [slot_reloc a hrel] at this
      exact array_reserve_getD a _ env hw _ this
    refine ⟨rfl, hf.2.1, hf.2.2, rfl, ?_, ?_, ?_, ?_, fun _ _ => rfl, ?_⟩
    · simp [array_get, hf.2.2, hf.2.1, hrel]
    · simp only [deref, hf.2.2, hrel, if_true, hf.2.1, Option.some.injEq]
      apply load_eq_replicate
      intro m hm
      rw [getD_memset]
      have := cell_lt_length _ hw1 a.count m hc0 (by omega) (by rw [hs1, slot_reloc a hrel]; exact hm)
      rw [hs1, slot_reloc a hrel] at this
      have h3 : 0 ≤ a.size * a.count := Int.mul_nonneg hsz hc0
      rw [if_pos ⟨this, by omega, by omega⟩]
    · intro i hi0 hi
      have hcc := hcell i
      constructor
      · exact item_congr a _ h h i i hf.2.2 hf.2.1 (fun m hm => hcc m hi0 hi hm) (fun _ => rfl)
      · simp [array_get, hf.2.2, hf.2.1, hrel]
    · intro hr; rw [hrel] at hr; cases hr
    · refine ⟨⟨by simp only; omega, by simp only; omega, by simpa using hf.2.1 ▸ hsz, ?_⟩,
        hv.fresh, ?_, ?_⟩
      · have := hw1.length_eq
        simpa [length_memset, Array.slot] using this
      · intro hr; simp only [hf.2.2] at hr; rw [hrel] at hr; cases hr
      · intro hr; simp only [hf.2.2] at hr; rw [hrel] at hr; cases hr
  · rw [hc.2.2.2] at hr; simp at hr
  · -- non-relocatable
    obtain ⟨hrc, hrel, hok, hc⟩ := hc
    rw [hc] at hr
    simp only [Prod.mk.injEq, Option.some.injEq] at hr
    obtain ⟨hp, ha', hh'⟩ := hr
    subst hp hh'
    have hcnt' : a'.count = a.count + 1 := by rw [← ha']
    have hsize' : a'.size = a.size := by rw [← ha']; exact hf.2.1
    have hrel' : a'.relocatable = false := by rw [← ha']; simp only [hf.2.2, hrel]
    have halloc' : a'.allocated = (array_reserve a (a.count + 1) env).2.allocated := by
      rw [← ha']
    have hbytes' : a'.bytes =
        store_ptr (array_reserve a (a.count + 1) env).2.bytes a.count h.next := by rw [← ha']
    clear ha' hc
    have hal2 := hal.2 hrc
    have hlen1 : ((array_reserve a (a.count + 1) env).2.bytes.length : Int) =
        (array_reserve a (a.count + 1) env).2.allocated := by
      have := hw1.length_eq
      rw [hs1, slot_nonreloc a hrel] at this
      omega
    have hlen : (a.bytes.length : Int) = a.allocated := by
      have := hw.length_eq
      rw [slot_nonreloc a hrel] at this
      omega
    have hcl := hw.count_le
    have hget : ∀ i : Int, 0 ≤ i → i < a.count → array_get a' i = array_get a i := by
      intro i hi0 hi
      rw [array_get_nonreloc _ _ hrel', array_get_nonreloc _ _ hrel, hbytes',
        getD_store_ptr, if_neg (by omega)]
      exact array_reserve_getD a _ env hw _ (by omega)
    have hgetn : array_get a' a.count = h.next := by
      rw [array_get_nonreloc _ _ hrel', hbytes', getD_store_ptr, if_pos ⟨by omega, by omega⟩]
    have hne : ∀ i : Int, 0 ≤ i → i < a.count → array_get a i ≠ h.next := by
      intro i hi0 hi he
      have h1 := hv.live hrel i hi0 hi
      rw [he, hv.fresh _ (le_refl _)] at h1
      simp at h1
    refine ⟨hcnt', hsize', by rw [hrel', hrel], halloc', hgetn, ?_, ?_, fun _ => rfl, ?_, ?_⟩
    · simp [deref, hrel', SIZEOF_PTR]
    · intro i hi0 hi
      refine ⟨?_, hget i hi0 hi⟩
      simp only [item, deref, hrel', hrel, Bool.false_eq_true, if_false]
      rw [hget i hi0 hi, Function.update_noteq (hne i hi0 hi)]
    · intro q hq
      simp only
      rw [Function.update_noteq hq]
    · refine ⟨⟨by omega, by omega, by omega, ?_⟩, ?_, ?_, ?_⟩
      · rw [slot_nonreloc _ hrel', hbytes', length_store_ptr]; omega
      · intro p hp
        simp only at hp ⊢
        rw [Function.update_noteq (by omega)]
        exact hv.fresh p (by omega)
      · intro _ i hi0 hi
        simp only
        rcases lt_or_ge i a.count with hlt | hge
        · rw [hget i hi0 hlt, Function.update_noteq (hne i hi0 hlt)]
          exact hv.live hrel i hi0 hlt
        · have : i = a.count := by omega
          subst this
          rw [hgetn]; simp
      · intro _ i j hi0 hij hj
        rcases lt_or_ge j a.count with hlt | hge
        · rw [hget i hi0 (by omega), hget j (by omega) hlt]
          exact hv.distinct hrel i j hi0 hij hlt
        · have : j = a.count := by omega
          subst this
          rw [hgetn, hget i hi0 (by omega)]
          exact hne i hi0 (by omega)

/-- What a failed `array_append` leaves behind. -/
theorem array_append_none (a : Array) (h : Heap) (env : Option (Nat → Int)) (ok : Bool)
    (a' : Array) (h' : Heap) (hv : Valid a h)
    (hr : array_append a h env ok = (none, a', h')) :
    a'.count = a.count ∧ a'.size = a.size ∧ a'.relocatable = a.relocatable ∧
    a.allocated ≤ a'.allocated ∧ h' = h ∧
    (∀ i, 0 ≤ i → i < a.count →
      item a' h' i = item a h i ∧ array_get a' i = array_get a i) ∧
    Valid a' h' := by
  have hw := hv.wf
  have hw1 := array_reserve_wf a (a.count + 1) env hw
  have hf := array_reserve_fields a (a.count + 1) env
  have hal := array_reserve_allocated a (a.count + 1) env ⟨hw.count_nonneg, hw.count_le⟩
  have key : a' = (array_reserve a (a.count + 1) env).2 ∧ h' = h := by
    rcases array_append_cases a h env ok with hc | hc | hc | hc
    · rw [hc.2] at hr
      simp only [Prod.mk.injEq, true_and] at hr
      rcases array_reserve_rc a (a.count + 1) env with h0 | h1
      · rw [h0] at hc; simp at hc
      · rw [h1.2]; exact ⟨hr.1.symm, hr.2.symm⟩
    · rw [hc.2.2] at hr; simp at hr
    · rw [hc.2.2.2] at hr
      simp only [Prod.mk.injEq, true_and] at hr
      refine ⟨?_, hr.2.symm⟩
      rw [← hr.1]
      generalize (array_reserve a (a.count + 1) env).2 = a1 at hf
      obtain ⟨x1, x2, x3, x4, x5⟩ := a1
      simp only at hf
      simp [hf.1]
    · rw [hc.2.2.2] at hr; simp at hr
  obtain ⟨ha', hh'⟩ := key
  subst ha' hh'
  refine ⟨hf.1, hf.2.1, hf.2.2, hal.1, rfl, fun i hi0 hi => array_reserve_item a _ env hw h' i hi0 hi,
    ⟨hw1, hv.fresh, ?_, ?_⟩⟩
  · intro hr i hi0 hi
    rw [hf.1] at hi
    rw [(array_reserve_item a _ env hw h' i hi0 hi).2]
    exact hv.live (by rw [← hf.2.2]; exact hr) i hi0 hi
  · intro hr i j hi0 hij hj
    rw [hf.1] at hj
    rw [(array_reserve_item a _ env hw h' i hi0 (by omega)).2,
      (array_reserve_item a _ env hw h' j (by omega) hj).2]
    exact hv.distinct (by rw [← hf.2.2]; exact hr) i j hi0 hij hj

/-! ## array_remove -/

theorem array_remove_eq (a : Array) (h : Heap) (i : Int) (destroy : Bool) :
    array_remove a h i destroy =
      ({ a with
          bytes := memset (if (a.count - i - 1) * a.slot > 0
              then memmove a.bytes (a.slot * i) (a.slot * (i + 1)) ((a.count - i - 1) * a.slot)
              else a.bytes) (a.slot * (a.count - 1)) 0 a.slot,
          count := a.count - 1 },
        if a.relocatable then h else free h (array_get a i),
        if destroy then [array_get a i] else []) := by
  unfold array_remove Array.slot
  cases a.relocatable <;> simp

theorem array_remove_fields (a : Array) (h : Heap) (i : Int) (destroy : Bool) :
    (array_remove a h i destroy).1.count = a.count - 1 ∧
    (array_remove a h i destroy).1.allocated = a.allocated ∧
    (array_remove a h i destroy).1.size = a.size ∧
    (array_remove a h i destroy).1.relocatable = a.relocatable ∧
    (array_remove a h i destroy).1.bytes.length = a.bytes.length ∧
    (array_remove a h i destroy).2.2 = (if destroy then [array_get a i] else []) := by
  rw [array_remove_eq]
  simp only [length_memset, true_and]
  split <;> simp [length_memmove]

/-- The slots below the last one after `array_remove`: slot `j` holds what slot `j`
held when `j < i`, and what slot `j + 1` held otherwise. -/
theorem array_remove_cell (a : Array) (h : Heap) (i : Int) (destroy : Bool) (hw : a.WF)
    (j : Int) (hj0 : 0 ≤ j) (hj : j < a.count - 1)
    (m : Nat) (hm : (m : Int) < a.slot) :
    (array_remove a h i destroy).1.bytes.getD (a.slot * j + (m : Int)).toNat 0 =
      a.bytes.getD (a.slot * (if j < i then j else j + 1) + (m : Int)).toNat 0 := by
  rw [array_remove_eq]
  simp only
  have hs := slot_nonneg a hw.size_nonneg
  have h1 := mul_succ_le a.slot j (a.count - 1) hs (by omega)
  have h3 : 0 ≤ a.slot * j := Int.mul_nonneg hs hj0
  have hlt := cell_lt_length a hw j m hj0 (by have := hw.count_le; omega) hm
  rw [getD_memset, if_neg (by omega)]
  have htail : (a.count - i - 1) * a.slot = a.slot * (a.count - 1) - a.slot * i := by ring
  by_cases hji : j < i
  · rw [if_pos hji]
    have h2 := mul_succ_le a.slot j i hs (by omega)
    split
    · rw [getD_memmove, if_neg (by omega)]
    · rfl
  · rw [if_neg hji]
    have h2 := mul_mono a.slot i j hs (by omega)
    rw [if_pos (by omega), getD_memmove, if_pos ⟨hlt, by omega, by omega⟩]
    congr 1
    have : a.slot * (i + 1) = a.slot * i + a.slot := by ring
    have : a.slot * (j + 1) = a.slot * j + a.slot := by ring
    omega

/-- The vacated final slot after `array_remove` holds zeros. -/
theorem array_remove_last (a : Array) (h : Heap) (i : Int) (destroy : Bool) (hw : a.WF)
    (hc : 0 < a.count) (m : Nat) (hm : (m : Int) < a.slot) :
    (array_remove a h i destroy).1.bytes.getD (a.slot * (a.count - 1) + (m : Int)).toNat 0 = 0 := by
  rw [array_remove_eq]
  simp only
  have hs := slot_nonneg a hw.size_nonneg
  have h3 : 0 ≤ a.slot * (a.count - 1) := Int.mul_nonneg hs (by omega)
  have hlt := cell_lt_length a hw (a.count - 1) m (by omega) (by have := hw.count_le; omega) hm
  have hlen : (if (a.count - i - 1) * a.slot > 0
      then memmove a.bytes (a.slot * i) (a.slot * (i + 1)) ((a.count - i - 1) * a.slot)
      else a.bytes).length = a.bytes.length := by
    split
    · rw [length_memmove]
    · rfl
  rw [getD_memset, if_pos ⟨by rw [hlen]; exact hlt, by omega, by omega⟩]

/-- What `array_remove` does to a valid Array, for an index in range. -/
theorem array_remove_valid (a : Array) (h : Heap) (i : Int) (destroy : Bool) (hv : Valid a h)
    (hi0 : 0 ≤ i) (hi : i < a.count) :
    (∀ j, 0 ≤ j → j < a.count - 1 →
      item (array_remove a h i destroy).1 (array_remove a h i destroy).2.1 j =
        item a h (if j < i then j else j + 1) ∧
      (a.relocatable = false → array_get (array_remove a h i destroy).1 j =
        array_get a (if j < i then j else j + 1))) ∧
    (a.relocatable = false → ∀ q, q ≠ array_get a i →
      (array_remove a h i destroy).2.1.blocks q = h.blocks q) ∧
    (array_remove a h i destroy).2.1.next = h.next ∧
    Valid (array_remove a h i destroy).1 (array_remove a h i destroy).2.1 := by
  have hw := hv.wf
  have hf := array_remove_fields a h i destroy
  have hcell := array_remove_cell a h i destroy hw
  have hheap : (array_remove a h i destroy).2.1 =
      if a.relocatable then h else free h (array_get a i) := by rw [array_remove_eq]
  have hget : a.relocatable = false → ∀ j, 0 ≤ j → j < a.count - 1 →
      array_get (array_remove a h i destroy).1 j = array_get a (if j < i then j else j + 1) :=
    fun hr j hj0 hj =>
      (slot_congr a _ j _ hf.2.2.2.1 hf.2.2.1 (fun m hm => hcell j hj0 hj m hm)).2 hr
  have hne : a.relocatable = false → ∀ j, 0 ≤ j → j < a.count - 1 →
      array_get a (if j < i then j else j + 1) ≠ array_get a i := by
    intro hr j hj0 hj
    by_cases hji : j < i
    · rw [if_pos hji]; exact hv.distinct hr j i hj0 hji hi
    · rw [if_neg hji]; exact (hv.distinct hr i (j + 1) hi0 (by omega) (by omega)).symm
  have hblocks : a.relocatable = false → ∀ q, q ≠ array_get a i →
      (array_remove a h i destroy).2.1.blocks q = h.blocks q := by
    intro hr q hq
    rw [hheap, hr]
    simp only [Bool.false_eq_true, if_false, free]
    rw [Function.update_noteq hq]
  refine ⟨?_, hblocks, ?_, ⟨⟨?_, ?_, ?_, ?_⟩, ?_, ?_, ?_⟩⟩
  · intro j hj0 hj
    refine ⟨?_, fun hr => hget hr j hj0 hj⟩
    apply item_congr a _ h _ j _ hf.2.2.2.1 hf.2.2.1 (fun m hm => hcell j hj0 hj m hm)
    intro hr
    exact hblocks hr _ (hne hr j hj0 hj)
  · rw [hheap]; split <;> simp [free]
  · rw [hf.1]; omega
  · rw [hf.1, hf.2.1]; have := hw.count_le; omega
  · rw [hf.2.2.1]; exact hw.size_nonneg
  · have hsl : (array_remove a h i destroy).1.slot = a.slot := by
      unfold Array.slot; rw [hf.2.2.1, hf.2.2.2.1]
    rw [hf.2.2.2.2.1, hf.2.1, hsl]; exact hw.length_eq
  · intro p hp
    rw [hheap] at hp ⊢
    split
    · rename_i hr; rw [if_pos hr] at hp; exact hv.fresh p hp
    · rename_i hr; rw [if_neg hr] at hp
      simp only [free] at hp ⊢
      by_cases hq : p = array_get a i
      · rw [hq, Function.update_same]
      · rw [Function.update_noteq hq]; exact hv.fresh p hp
  · intro hr j hj0 hj
    rw [hf.2.2.2.1] at hr
    rw [hf.1] at hj
    rw [hget hr j hj0 hj, hblocks hr _ (hne hr j hj0 hj)]
    exact hv.live hr _ (by split <;> omega) (by split <;> omega)
  · intro hr j k hj0 hjk hk
    rw [hf.2.2.2.1] at hr
    rw [hf.1] at hk
    rw [hget hr j hj0 (by omega), hget hr k (by omega) hk]
    exact hv.distinct hr _ _ (by split <;> omega) (by split <;> split <;> omega)
      (by split <;> omega)

/-! ## The owner writes an item -/

theorem write_item_valid (a : Array) (h : Heap) (hv : Valid a h) (c : Int) (hc0 : 0 ≤ c)
    (hc : c < a.count) (v : List Int) :
    (write_item a h (array_get a c) v).1.count = a.count ∧
    (write_item a h (array_get a c) v).1.size = a.size ∧
    (write_item a h (array_get a c) v).1.relocatable = a.relocatable ∧
    (write_item a h (array_get a c) v).1.allocated = a.allocated ∧
    item (write_item a h (array_get a c) v).1 (write_item a h (array_get a c) v).2 c =
      some (load v 0 a.size) ∧
    (∀ j, 0 ≤ j → j < a.count → j ≠ c →
      item (write_item a h (array_get a c) v).1 (write_item a h (array_get a c) v).2 j =
        item a h j) ∧
    (∀ j, array_get (write_item a h (array_get a c) v).1 j = array_get a j) ∧
    (a.relocatable = false → ∀ q, q ≠ array_get a c →
      (write_item a h (array_get a c) v).2.blocks q = h.blocks q) ∧
    (write_item a h (array_get a c) v).2.next = h.next ∧
    Valid (write_item a h (array_get a c) v).1 (write_item a h (array_get a c) v).2 := by
  have hw := hv.wf
  have hs := hw.size_nonneg
  have hcl := hw.count_le
  cases hr : a.relocatable
  · -- non-relocatable: the block is replaced
    have hne : ∀ j, 0 ≤ j → j < a.count → j ≠ c → array_get a j ≠ array_get a c := by
      intro j hj0 hj hjc
      rcases lt_or_gt_of_ne hjc with hlt | hgt
      · exact hv.distinct hr j c hj0 hlt hc
      · exact (hv.distinct hr c j hc0 hgt hj).symm
    have hfr : array_get a c < h.next := by
      by_contra hx
      have h1 := hv.live hr c hc0 hc
      rw [hv.fresh _ (by omega)] at h1
      simp at h1
    have hwi : write_item a h (array_get a c) v = (a, { h with
        blocks := Function.update h.blocks (array_get a c) (some (load v 0 a.size)) }) := by
      simp [write_item, hr]
    rw [hwi]
    refine ⟨rfl, rfl, hr, rfl, ?_, ?_, fun _ => rfl, ?_, rfl, ⟨hw, ?_, ?_, ?_⟩⟩
    · simp [item, deref, hr]
    · intro j hj0 hj hjc
      simp only [item, deref, hr, Bool.false_eq_true, if_false]
      rw [Function.update_noteq (hne j hj0 hj hjc)]
    · intro _ q hq
      simp only
      rw [Function.update_noteq hq]
    · intro p hp
      simp only at hp ⊢
      rw [Function.update_noteq (by omega)]
      exact hv.fresh p hp
    · intro _ j hj0 hj
      simp only
      by_cases hjc : j = c
      · rw [hjc, Function.update_same]; rfl
      · rw [Function.update_noteq (hne j hj0 hj hjc)]; exact hv.live hr j hj0 hj
    · intro _ i j hi0 hij hj
      exact hv.distinct hr i j hi0 hij hj
  · -- relocatable: the cells of slot `c` are overwritten
    have hsl := slot_reloc a hr
    have hcell : ∀ k : Nat,
        (write_item a h (array_get a c) v).1.bytes.getD k 0 =
          if k < a.bytes.length ∧ a.size * c ≤ (k : Int) ∧ (k : Int) < a.size * c + a.size
          then v.getD ((k : Int) - a.size * c).toNat 0 else a.bytes.getD k 0 := by
      intro k
      simp only [write_item, hr, if_true, array_get]
      rw [getD_map_range]
      by_cases hk : k < a.bytes.length
      · simp [hk]
      · rw [if_neg hk, if_neg (fun hh => hk hh.1)]
        exact (getD_of_length_le _ _ (by omega)).symm
    have hf : (write_item a h (array_get a c) v).1.size = a.size ∧
        (write_item a h (array_get a c) v).1.relocatable = a.relocatable ∧
        (write_item a h (array_get a c) v).1.count = a.count ∧
        (write_item a h (array_get a c) v).1.allocated = a.allocated ∧
        (write_item a h (array_get a c) v).1.bytes.length = a.bytes.length ∧
        (write_item a h (array_get a c) v).2 = h := by
      simp [write_item, hr]
    have hc3 : 0 ≤ a.size * c := Int.mul_nonneg hs hc0
    generalize write_item a h (array_get a c) v = W at hcell hf ⊢
    refine ⟨hf.2.2.1, hf.1, hf.2.1.trans hr, hf.2.2.2.1, ?_, ?_, ?_, ?_, by rw [hf.2.2.2.2.2],
      ⟨⟨?_, ?_, ?_, ?_⟩, ?_, ?_, ?_⟩⟩
    · unfold item deref
      rw [hf.2.1, hr, array_get_reloc W.1 c (hf.2.1.trans hr), hf.1]
      simp only [if_true, Option.some.injEq]
      apply load_congr
      intro m hm
      rw [hcell]
      have := cell_lt_length a hw c m hc0 (by omega) (by rw [hsl]; exact hm)
      rw [hsl] at this
      rw [if_pos ⟨this, by omega, by omega⟩]
      congr 1
      omega
    · intro j hj0 hj hjc
      apply item_congr a _ h _ j j hf.2.1 hf.1 _ (fun hx => by rw [hr] at hx; cases hx)
      intro m hm
      rw [hcell, hsl]
      rw [hsl] at hm
      have h3 : 0 ≤ a.size * j := Int.mul_nonneg hs hj0
      rcases lt_or_gt_of_ne hjc with hlt | hgt
      · have := mul_succ_le a.size j c hs (by omega)
        rw [if_neg (by omega)]
      · have := mul_succ_le a.size c j hs (by omega)
        rw [if_neg (by omega)]
    · intro j
      simp [array_get, hf.2.1, hf.1, hr]
    · intro hx; cases hx
    · rw [hf.2.2.1]; exact hw.count_nonneg
    · rw [hf.2.2.1, hf.2.2.2.1]; exact hcl
    · rw [hf.1]; exact hs
    · have hsl' : W.1.slot = a.slot := by
        unfold Array.slot; rw [hf.1, hf.2.1]
      rw [hf.2.2.2.2.1, hf.2.2.2.1, hsl']; exact hw.length_eq
    · rw [hf.2.2.2.2.2]; exact hv.fresh
    · intro hx; rw [hf.2.1, hr] at hx; cases hx
    · intro hx; rw [hf.2.1, hr] at hx; cases hx

/-! ## The list of items -/

theorem eraseIdx_map_range {α : Type} (g : Nat → α) (n i : Nat) (hi : i < n) :
    ((List.range n).map g).eraseIdx i =
      (List.range (n - 1)).map (fun j => if j < i then g j else g (j + 1)) := by
  apply List.ext_getElem
  · rw [List.length_eraseIdx]; simp [hi]
  · intro k h1 h2
    rw [List.getElem_eraseIdx]
    simp only [List.getElem_map, List.getElem_range]
    split <;> rfl

theorem map_range_succ {α : Type} (g : Nat → α) (n : Nat) :
    (List.range (n + 1)).map g = (List.range n).map g ++ [g n] := by
  rw [List.range_succ, List.map_append]; rfl

theorem map_range_congr {α : Type} (f g : Nat → α) (n : Nat) (hfg : ∀ k, k < n → f k = g k) :
    (List.range n).map f = (List.range n).map g :=
  List.map_congr_left (fun k hk => hfg k (by simpa using hk))

theorem length_items (a : Array) (h : Heap) : (items a h).length = a.count.toNat := by
  simp [items]

theorem items_append (a : Array) (h : Heap) (a' : Array) (h' : Heap) (x : Option (List Int))
    (hc0 : 0 ≤ a.count) (hcnt : a'.count = a.count + 1)
    (hold : ∀ i, 0 ≤ i → i < a.count → item a' h' i = item a h i)
    (hnew : item a' h' a.count = x) :
    items a' h' = items a h ++ [x] := by
  unfold items
  have : a'.count.toNat = a.count.toNat + 1 := by omega
  rw [this, map_range_succ]
  congr 1
  · apply map_range_congr
    intro k hk
    exact hold k (by omega) (by omega)
  · rw [← hnew]
    congr 2
    omega

theorem items_remove (a : Array) (h : Heap) (a' : Array) (h' : Heap) (i : Int)
    (hi0 : 0 ≤ i) (hi : i < a.count) (hcnt : a'.count = a.count - 1)
    (hold : ∀ j, 0 ≤ j → j < a.count - 1 →
      item a' h' j = item a h (if j < i then j else j + 1)) :
    items a' h' = (items a h).eraseIdx i.toNat := by
  unfold items
  rw [eraseIdx_map_range _ _ _ (by omega)]
  have : a'.count.toNat = a.count.toNat - 1 := by omega
  rw [this]
  apply map_range_congr
  intro k hk
  rw [hold k (by omega) (by omega)]
  by_cases hki : (k : Int) < i
  · rw [if_pos hki, if_pos (by omega)]
  · rw [if_neg hki, if_neg (by omega)]
    congr 1

theorem items_congr (a : Array) (h : Heap) (a' : Array) (h' : Heap)
    (hcnt : a'.count = a.count)
    (hold : ∀ i, 0 ≤ i → i < a.count → item a' h' i = item a h i) :
    items a' h' = items a h := by
  unfold items
  rw [hcnt]
  apply map_range_congr
  intro k hk
  exact hold k (by omega) (by omega)

theorem getElem?_items (a : Array) (h : Heap) (i : Int) (hi0 : 0 ≤ i) (hi : i < a.count) :
    (items a h)[i.toNat]? = some (item a h i) := by
  unfold items
  rw [List.getElem?_map, List.getElem?_range (by omega)]
  simp [Int.toNat_of_nonneg hi0]

/-! ## array_create -/

theorem array_create_eq (reserve size : Int) (relocatable ok : Bool) :
    array_create reserve size relocatable ok =
      if ok then
        (0, { allocated := GROW_ALLOCATION reserve, count := 0, size := size,
              relocatable := relocatable,
              bytes := List.replicate
                (GROW_ALLOCATION reserve * (if relocatable then size else SIZEOF_PTR)).toNat 0 })
      else
        (-1, { allocated := 0, count := 0, size := size, relocatable := relocatable,
               bytes := [] }) := by
  unfold array_create calloc_bytes
  cases ok <;> simp

theorem array_create_wf (reserve size : Int) (relocatable ok : Bool) (h0 : 0 ≤ reserve)
    (hs : 0 ≤ size) : (array_create reserve size relocatable ok).2.WF := by
  rw [array_create_eq]
  have hg := GROW_ALLOCATION_nonneg reserve h0
  cases ok
  · exact ⟨le_refl _, le_refl _, hs, by simp⟩
  · refine ⟨le_refl _, by simp only [if_true]; omega, hs, ?_⟩
    have h1 : 0 ≤ GROW_ALLOCATION reserve * (if relocatable then size else SIZEOF_PTR) := by
      apply Int.mul_nonneg (by omega)
      split
      · exact hs
      · decide
    simp only [if_true, List.length_replicate, Array.slot]
    omega

theorem array_create_valid (reserve size : Int) (relocatable ok : Bool) (h0 : 0 ≤ reserve)
    (hs : 0 ≤ size) (heap : Heap) (hfresh : ∀ p, heap.next ≤ p → heap.blocks p = none) :
    Valid (array_create reserve size relocatable ok).2 heap := by
  refine ⟨array_create_wf reserve size relocatable ok h0 hs, hfresh, ?_, ?_⟩
  · intro _ i hi0 hi
    rw [array_create_eq] at hi
    cases ok <;> simp at hi <;> omega
  · intro _ i j hi0 hij hj
    rw [array_create_eq] at hj
    cases ok <;> simp at hj <;> omega

theorem heap_empty_fresh : ∀ p, Heap.empty.next ≤ p → Heap.empty.blocks p = none :=
  fun _ _ => rfl

/-! ## array_resize -/

theorem array_resize_destroy_calls (a : Array) :
    ∀ (n : Nat) (i : Int) (h : Heap) (calls : List Int), n = (a.count - i).toNat →
      (array_resize_destroy a n i h calls).2 =
        calls ++ (List.range n).map (fun (k : Nat) => array_get a (i + (k : Int))) := by
  intro n
  induction n with
  | zero => intro i h calls _; simp [array_resize_destroy]
  | succ n ih =>
    intro i h calls hn
    unfold array_resize_destroy
    rw [if_pos (by omega)]
    simp only
    rw [ih (i + 1) _ _ (by omega)]
    rw [List.range_succ_eq_map, List.map_cons, List.map_map, List.append_assoc]
    simp only [List.singleton_append, Nat.cast_zero, add_zero]
    congr 2
    apply List.map_congr_left
    intro k _
    simp only [Function.comp, Nat.cast_succ]
    congr 1
    ring

theorem array_resize_destroy_blocks (a : Array) :
    ∀ (n : Nat) (i : Int) (h : Heap) (calls : List Int) (q : Int),
      (∀ k, i ≤ k → k < a.count → array_get a k ≠ q) →
      (array_resize_destroy a n i h calls).1.blocks q = h.blocks q ∧
      (array_resize_destroy a n i h calls).1.next = h.next := by
  intro n
  induction n with
  | zero => intro i h calls q _; simp [array_resize_destroy]
  | succ n ih =>
    intro i h calls q hq
    unfold array_resize_destroy
    split
    · rename_i hi
      simp only
      have := ih (i + 1) (if !a.relocatable then free h (array_get a i) else h)
        (calls ++ [array_get a i]) q (fun k hk1 hk2 => hq k (by omega) hk2)
      rw [this.1, this.2]
      split
      · exact ⟨Function.update_noteq (hq i (le_refl _) hi).symm _ _, rfl⟩
      · exact ⟨rfl, rfl⟩
    · exact ⟨rfl, rfl⟩

theorem array_resize_destroy_reloc (a : Array) (hr : a.relocatable = true) :
    ∀ (n : Nat) (i : Int) (h : Heap) (calls : List Int),
      (array_resize_destroy a n i h calls).1 = h := by
  intro n
  induction n with
  | zero => intro i h calls; simp [array_resize_destroy]
  | succ n ih =>
    intro i h calls
    unfold array_resize_destroy
    split
    · simp only [hr, Bool.not_true, Bool.false_eq_true, if_false]
      exact ih _ _ _
    · rfl

theorem array_resize_free_blocks (a : Array) :
    ∀ (n : Nat) (i : Int) (h : Heap) (q : Int),
      (∀ k, i ≤ k → k < a.count → array_get a k ≠ q) →
      (array_resize_free a n i h).blocks q = h.blocks q ∧
      (array_resize_free a n i h).next = h.next := by
  intro n
  induction n with
  | zero => intro i h q _; simp [array_resize_free]
  | succ n ih =>
    intro i h q hq
    unfold array_resize_free
    split
    · rename_i hi
      have := ih (i + 1) (free h (array_get a i)) q (fun k hk1 hk2 => hq k (by omega) hk2)
      rw [this.1, this.2]
      exact ⟨Function.update_noteq (hq i (le_refl _) hi).symm _ _, rfl⟩
    · exact ⟨rfl, rfl⟩

theorem array_resize_cases (a : Array) (h : Heap) (n : Int) (destroy : Bool)
    (env : Option (Nat → Int)) :
    (a.count < n ∧ (array_reserve a n env).1 = -1 ∧
      array_resize a h n destroy env = (-1, a, h, [])) ∨
    (a.count < n ∧ (array_reserve a n env).1 = 0 ∧
      array_resize a h n destroy env =
        (0, { (array_reserve a n env).2 with count := n }, h, [])) ∨
    (n < a.count ∧ destroy = true ∧
      array_resize a h n destroy env =
        (0, { a with count := n },
          (array_resize_destroy a (a.count - n).toNat n h []).1,
          (array_resize_destroy a (a.count - n).toNat n h []).2)) ∨
    (n < a.count ∧ destroy = false ∧
      array_resize a h n destroy env =
        (0, { a with count := n },
          if a.relocatable then h else array_resize_free a (a.count - n).toNat n h, [])) ∨
    (n = a.count ∧ array_resize a h n destroy env = (0, { a with count := n }, h, [])) := by
  unfold array_resize
  rcases lt_trichotomy a.count n with hlt | heq | hgt
  · rw [if_pos hlt]
    rcases array_reserve_rc a n env with h0 | h1
    · right; left
      refine ⟨hlt, h0, ?_⟩
      generalize array_reserve a n env = r at h0
      obtain ⟨rc, a1⟩ := r
      simp only at h0
      subst h0
      simp
    · left
      refine ⟨hlt, h1.1, ?_⟩
      generalize array_reserve a n env = r at h1
      obtain ⟨rc, a1⟩ := r
      simp only at h1
      obtain ⟨h1, h2⟩ := h1
      subst h1 h2
      simp
  · right; right; right; right
    refine ⟨heq.symm, ?_⟩
    rw [if_neg (by omega), if_neg (by omega)]
  · right; right
    rw [if_neg (by omega), if_pos (by omega)]
    cases destroy
    · right; left
      refine ⟨hgt, rfl, ?_⟩
      cases a.relocatable <;> simp
    · left
      exact ⟨hgt, rfl, by simp⟩

theorem item_heap_congr (a : Array) (h h' : Heap) (i : Int)
    (hh : a.relocatable = false → h'.blocks (array_get a i) = h.blocks (array_get a i)) :
    item a h' i = item a h i := by
  unfold item deref
  cases hr : a.relocatable
  · simpa using hh hr
  · rfl

theorem item_set_count (a : Array) (h : Heap) (n i : Int) :
    item { a with count := n } h i = item a h i := rfl

theorem array_get_set_count (a : Array) (n i : Int) :
    array_get { a with count := n } i = array_get a i := rfl

theorem eraseIdx_map_some {α : Type} (l : List α) (i : Nat) :
    (l.map some).eraseIdx i = (l.eraseIdx i).map some := by
  rw [List.eraseIdx_eq_take_drop_succ, List.eraseIdx_eq_take_drop_succ, List.map_append,
    List.map_take, List.map_drop]

theorem array_reserve_valid (a : Array) (h : Heap) (n : Int) (env : Option (Nat → Int))
    (hv : Valid a h) : Valid (array_reserve a n env).2 h := by
  have hw := hv.wf
  have hf := array_reserve_fields a n env
  refine ⟨array_reserve_wf a n env hw, hv.fresh, ?_, ?_⟩
  · intro hr i hi0 hi
    rw [hf.1] at hi
    rw [(array_reserve_item a _ env hw h i hi0 hi).2]
    exact hv.live (by rw [← hf.2.2]; exact hr) i hi0 hi
  · intro hr i j hi0 hij hj
    rw [hf.1] at hj
    rw [(array_reserve_item a _ env hw h i hi0 (by omega)).2,
      (array_reserve_item a _ env hw h j (by omega) hj).2]
    exact hv.distinct (by rw [← hf.2.2]; exact hr) i j hi0 hij hj

/-! ## Sequences of calls -/

/-- A successful `array_append` followed by the owner's write of the new item. -/
theorem append_write (a : Array) (h : Heap) (env : Option (Nat → Int)) (ok : Bool)
    (p : Int) (a1 : Array) (h1 : Heap) (v : List Int) (hv : Valid a h)
    (hr : array_append a h env ok = (some p, a1, h1)) :
    (write_item a1 h1 p v).1.count = a.count + 1 ∧
    (write_item a1 h1 p v).1.size = a.size ∧
    (write_item a1 h1 p v).1.relocatable = a.relocatable ∧
    items (write_item a1 h1 p v).1 (write_item a1 h1 p v).2 =
      items a h ++ [some (load v 0 a.size)] ∧
    (∀ i, 0 ≤ i → i < a.count → array_get (write_item a1 h1 p v).1 i = array_get a i) ∧
    (a.relocatable = false → ∀ q, q ≠ h.next →
      (write_item a1 h1 p v).2.blocks q = h.blocks q) ∧
    Valid (write_item a1 h1 p v).1 (write_item a1 h1 p v).2 := by
  have hs := array_append_some a h env ok p a1 h1 hv hr
  obtain ⟨hcnt, hsize, hrel, _, hget, _, hold, hp, hblk, hv1⟩ := hs
  have hc0 := hv.wf.count_nonneg
  rw [← hget]
  have hwv := write_item_valid a1 h1 hv1 a.count hc0 (by omega) v
  obtain ⟨wcnt, wsize, wrel, _, wnew, wold, wget, wblk, _, wv⟩ := hwv
  refine ⟨by rw [wcnt, hcnt], by rw [wsize, hsize], by rw [wrel, hrel], ?_, ?_, ?_, wv⟩
  · apply items_append a h _ _ _ hc0 (by rw [wcnt, hcnt])
    · intro i hi0 hi
      rw [wold i hi0 (by omega) (by omega)]
      exact (hold i hi0 hi).1
    · rw [wnew, hsize]
  · intro i hi0 hi
    rw [wget]; exact (hold i hi0 hi).2
  · intro hnr q hq
    rw [wblk (by rw [hrel]; exact hnr) q (by rw [hget, hp hnr]; exact hq)]
    exact hblk q hq

theorem apply_succeeds (s : Array × Heap) (op : ArrayOp) (size : Int) (l : List (List Int))
    (hv : Valid s.1 s.2) (hsize : s.1.size = size) (hitems : items s.1 s.2 = l.map some)
    (hok : op.succeeds s = true) :
    Valid (op.apply s).1 (op.apply s).2 ∧ (op.apply s).1.size = size ∧
    (op.apply s).1.relocatable = s.1.relocatable ∧
    items (op.apply s).1 (op.apply s).2 = (surviving size l [op]).map some := by
  obtain ⟨a, h⟩ := s
  simp only at hv hsize hitems
  cases op with
  | reserve n env =>
    have hf := array_reserve_fields a n env
    refine ⟨array_reserve_valid a h n env hv, by simp only [ArrayOp.apply]; rw [hf.2.1, hsize],
      hf.2.2, ?_⟩
    simp only [ArrayOp.apply, surviving]
    rw [← hitems]
    exact items_congr a h _ h hf.1 (fun i hi0 hi => (array_reserve_item a n env hv.wf h i hi0 hi).1)
  | append env ok v =>
    simp only [ArrayOp.succeeds] at hok
    simp only [ArrayOp.apply, surviving]
    generalize hr : array_append a h env ok = r at hok
    obtain ⟨x, a1, h1⟩ := r
    cases x with
    | none => simp at hok
    | some p =>
      simp only
      have := append_write a h env ok p a1 h1 v hv hr
      refine ⟨this.2.2.2.2.2.2, by rw [this.2.1, hsize], this.2.2.1, ?_⟩
      rw [this.2.2.2.1, hitems, hsize]
      simp
  | remove i destroy =>
    simp only [ArrayOp.succeeds, decide_eq_true_eq] at hok
    have hf := array_remove_fields a h i destroy
    have hrv := array_remove_valid a h i destroy hv hok.1 hok.2
    simp only [ArrayOp.apply, surviving]
    refine ⟨hrv.2.2.2, by rw [hf.2.2.1, hsize], hf.2.2.2.1, ?_⟩
    rw [items_remove a h _ _ i hok.1 hok.2 hf.1 (fun j hj0 hj => (hrv.1 j hj0 hj).1), hitems,
      eraseIdx_map_some]

theorem surviving_cons (size : Int) (l : List (List Int)) (op : ArrayOp) (ops : List ArrayOp) :
    surviving size l (op :: ops) = surviving size (surviving size l [op]) ops := by
  cases op <;> rfl

theorem run_ops_spec (size : Int) (ops : List ArrayOp) :
    ∀ (s s' : Array × Heap) (l : List (List Int)), Valid s.1 s.2 → s.1.size = size →
      items s.1 s.2 = l.map some → run_ops s ops = some s' →
      Valid s'.1 s'.2 ∧ s'.1.size = size ∧ s'.1.relocatable = s.1.relocatable ∧
      items s'.1 s'.2 = (surviving size l ops).map some := by
  induction ops with
  | nil =>
    intro s s' l hv hsize hitems hrun
    simp only [run_ops, Option.some.injEq] at hrun
    subst hrun
    exact ⟨hv, hsize, rfl, hitems⟩
  | cons op ops ih =>
    intro s s' l hv hsize hitems hrun
    simp only [run_ops] at hrun
    split at hrun
    · rename_i hok
      have h1 := apply_succeeds s op size l hv hsize hitems hok
      have h2 := ih (op.apply s) s' _ h1.1 h1.2.1 h1.2.2.2 hrun
      rw [surviving_cons]
      exact ⟨h2.1, h2.2.1, h2.2.2.1.trans h1.2.2.1, h2.2.2.2⟩
    · cases hrun

theorem run_ops_take (ops : List ArrayOp) :
    ∀ (s s' : Array × Heap) (k : Nat), run_ops s ops = some s' →
      ∃ sk, run_ops s (ops.take k) = some sk := by
  induction ops with
  | nil => intro s s' k _; exact ⟨s, by simp [run_ops]⟩
  | cons op ops ih =>
    intro s s' k hrun
    cases k with
    | zero => exact ⟨s, by simp [run_ops]⟩
    | succ k =>
      simp only [run_ops] at hrun
      split at hrun
      · rename_i hok
        obtain ⟨sk, hsk⟩ := ih (op.apply s) s' k hrun
        exact ⟨sk, by simp only [List.take_succ_cons, run_ops, hok, if_true]; exact hsk⟩
      · cases hrun

theorem track_step (s : Array × Heap) (pos : Int) (op : ArrayOp) (hv : Valid s.1 s.2)
    (hnr : s.1.relocatable = false) (hp0 : 0 ≤ pos) (hp : pos < s.1.count)
    (hop : ∀ i d, op = .remove i d → 0 ≤ i ∧ i < s.1.count ∧ i ≠ pos) :
    Valid (op.apply s).1 (op.apply s).2 ∧ (op.apply s).1.relocatable = false ∧
    (∀ pos', pos' = (match op with
        | .remove i _ => if i < pos then pos - 1 else pos
        | _ => pos) →
      0 ≤ pos' ∧ pos' < (op.apply s).1.count ∧
      array_get (op.apply s).1 pos' = array_get s.1 pos) ∧
    (op.apply s).2.blocks (array_get s.1 pos) = s.2.blocks (array_get s.1 pos) := by
  obtain ⟨a, h⟩ := s
  simp only at hv hnr hp hop
  have hlive := hv.live hnr pos hp0 hp
  have hpn : array_get a pos ≠ h.next := by
    intro he
    rw [he, hv.fresh _ (le_refl _)] at hlive
    simp at hlive
  cases op with
  | reserve n env =>
    have hf := array_reserve_fields a n env
    refine ⟨array_reserve_valid a h n env hv, by simp only [ArrayOp.apply]; rw [hf.2.2, hnr],
      ?_, rfl⟩
    intro pos' hpos'
    subst pos'
    simp only [ArrayOp.apply]
    exact ⟨hp0, by rw [hf.1]; exact hp, (array_reserve_item a n env hv.wf h pos hp0 hp).2⟩
  | append env ok v =>
    simp only [ArrayOp.apply]
    generalize hr : array_append a h env ok = r
    obtain ⟨x, a1, h1⟩ := r
    cases x with
    | none =>
      simp only
      have := array_append_none a h env ok a1 h1 hv hr
      refine ⟨this.2.2.2.2.2.2, by rw [this.2.2.1, hnr], ?_, by rw [this.2.2.2.2.1]⟩
      intro pos' hpos'
      subst pos'
      exact ⟨hp0, by rw [this.1]; exact hp, (this.2.2.2.2.2.1 pos hp0 hp).2⟩
    | some p =>
      simp only
      have := append_write a h env ok p a1 h1 v hv hr
      refine ⟨this.2.2.2.2.2.2, by rw [this.2.2.1, hnr], ?_, this.2.2.2.2.2.1 hnr _ hpn⟩
      intro pos' hpos'
      subst pos'
      exact ⟨hp0, by rw [this.1]; omega, this.2.2.2.2.1 pos hp0 hp⟩
  | remove i destroy =>
    obtain ⟨hi0, hi, hip⟩ := hop i destroy rfl
    have hf := array_remove_fields a h i destroy
    have hrv := array_remove_valid a h i destroy hv hi0 hi
    simp only [ArrayOp.apply]
    refine ⟨hrv.2.2.2, by rw [hf.2.2.2.1, hnr], ?_, ?_⟩
    · intro pos' hpos'
      have h0 : 0 ≤ pos' := by subst hpos'; split <;> omega
      have h1 : pos' < a.count - 1 := by subst hpos'; split <;> omega
      refine ⟨h0, by rw [hf.1]; exact h1, ?_⟩
      rw [(hrv.1 pos' h0 h1).2 hnr]
      congr 1
      subst hpos'
      split <;> split <;> omega
    · apply hrv.2.1 hnr
      rcases lt_or_gt_of_ne hip with hlt | hgt
      · exact (hv.distinct hnr i pos hi0 hlt hp).symm
      · exact hv.distinct hnr pos i hp0 hgt hi

theorem track_spec (ops : List ArrayOp) :
    ∀ (s s' : Array × Heap) (pos pos' : Int), Valid s.1 s.2 → s.1.relocatable = false →
      0 ≤ pos → pos < s.1.count → track s pos ops = some (s', pos') →
      0 ≤ pos' ∧ pos' < s'.1.count ∧ array_get s'.1 pos' = array_get s.1 pos ∧
      s'.2.blocks (array_get s.1 pos) = s.2.blocks (array_get s.1 pos) := by
  induction ops with
  | nil =>
    intro s s' pos pos' hv hnr hp0 hp ht
    simp only [track, Option.some.injEq, Prod.mk.injEq] at ht
    obtain ⟨h1, h2⟩ := ht
    subst h1 h2
    exact ⟨hp0, hp, rfl, rfl⟩
  | cons op ops ih =>
    intro s s' pos pos' hv hnr hp0 hp ht
    cases op with
    | reserve n env =>
      have h1 := track_step s pos (.reserve n env) hv hnr hp0 hp (fun _ _ hx => by cases hx)
      have h2 := h1.2.2.1 pos rfl
      simp only [track] at ht
      have h3 := ih _ s' pos pos' h1.1 h1.2.1 h2.1 h2.2.1 ht
      rw [h2.2.2] at h3
      exact ⟨h3.1, h3.2.1, h3.2.2.1, h3.2.2.2.trans h1.2.2.2⟩
    | append env ok v =>
      have h1 := track_step s pos (.append env ok v) hv hnr hp0 hp (fun _ _ hx => by cases hx)
      have h2 := h1.2.2.1 pos rfl
      simp only [track] at ht
      have h3 := ih _ s' pos pos' h1.1 h1.2.1 h2.1 h2.2.1 ht
      rw [h2.2.2] at h3
      exact ⟨h3.1, h3.2.1, h3.2.2.1, h3.2.2.2.trans h1.2.2.2⟩
    | remove i destroy =>
      simp only [track] at ht
      split at ht
      · rename_i hok
        have h1 := track_step s pos (.remove i destroy) hv hnr hp0 hp
          (fun i' d' hx => by cases hx; exact hok)
        have h2 := h1.2.2.1 _ rfl
        have h3 := ih _ s' _ pos' h1.1 h1.2.1 h2.1 h2.2.1 ht
        rw [h2.2.2] at h3
        exact ⟨h3.1, h3.2.1, h3.2.2.1, h3.2.2.2.trans h1.2.2.2⟩
      · cases ht

/-! ## Event sources in memory -/

theorem decode_encode (s : EventSource) : EventSource.decode s.encode = s := by
  cases s
  simp [EventSource.decode, EventSource.encode]

theorem load_store_same (h : Heap) (p : Int) (s : EventSource) :
    load_source (store_source h p s) p = s := by
  simp [load_source, store_source, decode_encode]

theorem load_store_other (h : Heap) (p q : Int) (s : EventSource) (hq : q ≠ p) :
    load_source (store_source h p s) q = load_source h q := by
  simp [load_source, store_source, Function.update_noteq hq]

theorem store_store (h : Heap) (p : Int) (s t : EventSource) :
    store_source (store_source h p s) p t = store_source h p t := by
  simp [store_source]

theorem store_source_valid (a : Array) (h : Heap) (p : Int) (s : EventSource) (hv : Valid a h)
    (hp : (h.blocks p).isSome = true) : Valid a (store_source h p s) := by
  have hlt : p < h.next := by
    by_contra hx
    rw [hv.fresh _ (by omega)] at hp
    simp at hp
  refine ⟨hv.wf, ?_, ?_, hv.distinct⟩
  · intro q hq
    simp only [store_source] at hq ⊢
    rw [Function.update_noteq (by omega)]
    exact hv.fresh q hq
  · intro hr i hi0 hi
    simp only [store_source]
    by_cases hq : array_get a i = p
    · rw [hq, Function.update_same]; rfl
    · rw [Function.update_noteq hq]; exact hv.live hr i hi0 hi

theorem set_map_range {α : Type} (f : Nat → α) (n i : Nat) (x : α) :
    ((List.range n).map f).set i x = (List.range n).map (fun k => if k = i then x else f k) := by
  apply List.ext_getElem
  · simp
  · intro k h1 h2
    rw [List.getElem_set]
    simp only [List.getElem_map, List.getElem_range]
    by_cases hk : i = k
    · simp [hk]
    · rw [if_neg hk, if_neg (fun hh => hk hh.symm)]

theorem length_source_list (a : Array) (h : Heap) :
    (source_list a h).length = a.count.toNat := by
  simp [source_list]

theorem getElem?_source_list (a : Array) (h : Heap) (i : Int) (hi0 : 0 ≤ i) (hi : i < a.count) :
    (source_list a h)[i.toNat]? = some (load_source h (array_get a i)) := by
  unfold source_list
  rw [List.getElem?_map, List.getElem?_range (by omega)]
  simp [Int.toNat_of_nonneg hi0]

/-- Writing the event source at index `i` replaces entry `i` of the list. -/
theorem source_list_store (a : Array) (h : Heap) (hv : Valid a h)
    (hnr : a.relocatable = false) (i : Int) (hi0 : 0 ≤ i) (hi : i < a.count)
    (s : EventSource) :
    source_list a (store_source h (array_get a i) s) = (source_list a h).set i.toNat s ∧
    Valid a (store_source h (array_get a i) s) := by
  refine ⟨?_, store_source_valid a h _ s hv (hv.live hnr i hi0 hi)⟩
  unfold source_list
  rw [set_map_range]
  apply map_range_congr
  intro k hk
  by_cases hki : k = i.toNat
  · rw [if_pos hki]
    have : (k : Int) = i := by omega
    rw [this, load_store_same]
  · rw [if_neg hki]
    apply load_store_other
    rcases lt_or_gt_of_ne (show (k : Int) ≠ i by omega) with hlt | hgt
    · exact hv.distinct hnr k i (by omega) hlt hi
    · exact (hv.distinct hnr i k hi0 hgt (by omega)).symm

/-- A successful `array_append` followed by the write of the new event source adds
it at the end of the list. -/
theorem source_list_append (a : Array) (h : Heap) (env : Option (Nat → Int)) (ok : Bool)
    (p : Int) (a' : Array) (h' : Heap) (s : EventSource) (hv : Valid a h)
    (hnr : a.relocatable = false) (hr : array_append a h env ok = (some p, a', h')) :
    source_list a' (store_source h' p s) = source_list a h ++ [s] ∧
    Valid a' (store_source h' p s) ∧ a'.relocatable = false ∧ a'.size = a.size ∧
    a'.count = a.count + 1 ∧ p = array_get a' a.count ∧
    load_source h' p = EventSource.decode (List.replicate a.size.toNat 0) := by
  have hs := array_append_some a h env ok p a' h' hv hr
  obtain ⟨hcnt, hsize, hrel, _, hget, hderef, hold, hp, hblk, hv1⟩ := hs
  have hc0 := hv.wf.count_nonneg
  have hnr' : a'.relocatable = false := by rw [hrel, hnr]
  have hpn := hp hnr
  have hlive : (h'.blocks p).isSome = true := by
    have := hv1.live hnr' a.count hc0 (by omega)
    rw [hget] at this; exact this
  refine ⟨?_, store_source_valid a' h' p s hv1 hlive, hnr', hsize, hcnt, hget.symm, ?_⟩
  · unfold source_list
    have : a'.count.toNat = a.count.toNat + 1 := by omega
    rw [this, map_range_succ]
    congr 1
    · apply map_range_congr
      intro k hk
      have hk1 := hold k (by omega) (by omega)
      have hne : array_get a k ≠ h.next := by
        intro he
        have := hv.live hnr k (by omega) (by omega)
        rw [he, hv.fresh _ (le_refl _)] at this
        simp at this
      rw [hk1.2, load_store_other _ _ _ _ (by rw [hpn]; exact hne)]
      simp only [load_source]
      rw [hblk _ hne]
    · have : ((a.count.toNat : Nat) : Int) = a.count := by omega
      rw [this, hget, load_store_same]
  · simp only [deref, hnr', Bool.false_eq_true, if_false] at hderef
    simp [load_source, hderef]

/-- An `array_remove` with an index in range takes entry `i` out of the list. -/
theorem source_list_remove (a : Array) (h : Heap) (i : Int) (destroy : Bool) (hv : Valid a h)
    (hnr : a.relocatable = false) (hi0 : 0 ≤ i) (hi : i < a.count) :
    source_list (array_remove a h i destroy).1 (array_remove a h i destroy).2.1 =
      (source_list a h).eraseIdx i.toNat ∧
    Valid (array_remove a h i destroy).1 (array_remove a h i destroy).2.1 ∧
    (array_remove a h i destroy).1.relocatable = false ∧
    (array_remove a h i destroy).1.size = a.size ∧
    (array_remove a h i destroy).1.count = a.count - 1 := by
  have hf := array_remove_fields a h i destroy
  have hrv := array_remove_valid a h i destroy hv hi0 hi
  refine ⟨?_, hrv.2.2.2, by rw [hf.2.2.2.1, hnr], hf.2.2.1, hf.1⟩
  unfold source_list
  rw [eraseIdx_map_range _ _ _ (by omega)]
  have : (array_remove a h i destroy).1.count.toNat = a.count.toNat - 1 := by
    rw [hf.1]; omega
  rw [this]
  apply map_range_congr
  intro k hk
  have hg := (hrv.1 k (by omega) (by omega)).2 hnr
  have hne : array_get a (if (k : Int) < i then (k : Int) else (k : Int) + 1) ≠ array_get a i := by
    split
    · rename_i hlt; exact hv.distinct hnr k i (by omega) hlt hi
    · exact (hv.distinct hnr i (k + 1) hi0 (by omega) (by omega)).symm
  rw [hg]
  simp only [load_source]
  rw [hrv.2.1 hnr _ hne]
  by_cases hki : (k : Int) < i
  · rw [if_pos hki, if_pos (by omega)]
  · rw [if_neg hki, if_neg (by omega)]
    rfl

/-! ## Loops with an early return -/

theorem for_up_some {β : Type} (count : Int) (body : Int → Option β) (b : β) :
    ∀ (n : Nat) (i : Int), for_up count body n i = some b →
      ∃ j, i ≤ j ∧ j < count ∧ body j = some b ∧ ∀ k, i ≤ k → k < j → body k = none := by
  intro n
  induction n with
  | zero => intro i h; simp [for_up] at h
  | succ n ih =>
    intro i h
    unfold for_up at h
    split at h
    · rename_i hi
      cases hb : body i with
      | some b' =>
        rw [hb] at h
        simp only [Option.some.injEq] at h
        subst h
        exact ⟨i, le_refl _, hi, hb, fun k hk1 hk2 => by omega⟩
      | none =>
        rw [hb] at h
        obtain ⟨j, hj1, hj2, hj3, hj4⟩ := ih (i + 1) h
        refine ⟨j, by omega, hj2, hj3, ?_⟩
        intro k hk1 hk2
        rcases eq_or_lt_of_le hk1 with he | hlt
        · rw [← he]; exact hb
        · exact hj4 k (by omega) hk2
    · cases h

theorem for_up_none {β : Type} (count : Int) (body : Int → Option β) :
    ∀ (n : Nat) (i : Int), n = (count - i).toNat → for_up count body n i = none →
      ∀ j, i ≤ j → j < count → body j = none := by
  intro n
  induction n with
  | zero => intro i hn _ j hj1 hj2; omega
  | succ n ih =>
    intro i hn h j hj1 hj2
    unfold for_up at h
    rw [if_pos (by omega)] at h
    cases hb : body i with
    | some b' => rw [hb] at h; cases h
    | none =>
      rw [hb] at h
      rcases eq_or_lt_of_le hj1 with he | hlt
      · rw [← he]; exact hb
      · exact ih (i + 1) (by omega) h j (by omega) hj2

theorem for_down_some {β : Type} (body : Int → Option β) (b : β) :
    ∀ (n : Nat) (i : Int), for_down body n i = some b →
      ∃ j, 0 ≤ j ∧ j ≤ i ∧ body j = some b ∧ ∀ k, j < k → k ≤ i → body k = none := by
  intro n
  induction n with
  | zero => intro i h; simp [for_down] at h
  | succ n ih =>
    intro i h
    unfold for_down at h
    split at h
    · rename_i hi
      cases hb : body i with
      | some b' =>
        rw [hb] at h
        simp only [Option.some.injEq] at h
        subst h
        exact ⟨i, hi, le_refl _, hb, fun k hk1 hk2 => by omega⟩
      | none =>
        rw [hb] at h
        obtain ⟨j, hj1, hj2, hj3, hj4⟩ := ih (i - 1) h
        refine ⟨j, hj1, by omega, hj3, ?_⟩
        intro k hk1 hk2
        rcases eq_or_lt_of_le hk2 with he | hlt
        · rw [he]; exact hb
        · exact hj4 k hk1 (by omega)
    · cases h

theorem for_down_none {β : Type} (body : Int → Option β) :
    ∀ (n : Nat) (i : Int), n = (i + 1).toNat → for_down body n i = none →
      ∀ j, 0 ≤ j → j ≤ i → body j = none := by
  intro n
  induction n with
  | zero => intro i hn _ j hj1 hj2; omega
  | succ n ih =>
    intro i hn h j hj1 hj2
    unfold for_down at h
    rw [if_pos (by omega)] at h
    cases hb : body i with
    | some b' => rw [hb] at h; cases h
    | none =>
      rw [hb] at h
      rcases eq_or_lt_of_le hj2 with he | hlt
      · rw [he]; exact hb
      · exact ih (i - 1) (by omega) h j hj1 (by omega)

/-! ## event_add_source -/

theorem set_functions_identity (s : EventSource) (events : Nat) (function opaque_ptr : Int) :
    (set_functions s events function opaque_ptr).handle = s.handle ∧
    (set_functions s events function opaque_ptr).type = s.type ∧
    (set_functions s events function opaque_ptr).events = s.events ∧
    (set_functions s events function opaque_ptr).state = s.state := by
  unfold set_functions
  simp only
  split_ifs <;> exact ⟨rfl, rfl, rfl, rfl⟩

theorem unset_functions_identity (s : EventSource) (events_to_remove : Nat) :
    (unset_functions s events_to_remove).handle = s.handle ∧
    (unset_functions s events_to_remove).type = s.type ∧
    (unset_functions s events_to_remove).events = s.events ∧
    (unset_functions s events_to_remove).state = s.state := by
  unfold unset_functions
  simp only
  split_ifs <;> exact ⟨rfl, rfl, rfl, rfl⟩

theorem sources_eq (r : Registry) : sources r = source_list r.event_sources r.heap := rfl

theorem getElem?_sources (r : Registry) (i : Int) (hi0 : 0 ≤ i) (hi : i < r.event_sources.count) :
    (sources r)[i.toNat]? = some (load_source r.heap (array_get r.event_sources i)) :=
  getElem?_source_list _ _ i hi0 hi

theorem mem_sources (r : Registry) (s : EventSource) (hs : s ∈ sources r) :
    ∃ i, 0 ≤ i ∧ i < r.event_sources.count ∧
      s = load_source r.heap (array_get r.event_sources i) := by
  unfold sources source_list at hs
  rw [List.mem_map] at hs
  obtain ⟨k, hk, rfl⟩ := hs
  have : k < r.event_sources.count.toNat := by simpa using hk
  exact ⟨k, by omega, by omega, rfl⟩

theorem set_getElem?_self {α : Type} (l : List α) (i : Nat) (x : α) (h : l[i]? = some x) :
    l.set i x = l := by
  apply List.ext_getElem?
  intro k
  rw [List.getElem?_set]
  split
  · rename_i hik
    subst hik
    split
    · exact h.symm
    · rename_i hlt
      rw [List.getElem?_eq_none (by omega)]
  · rfl

/-- The registry after a write of the event source at index `j`. -/
theorem registry_store (r : Registry) (hv : r.Valid) (j : Int) (hj0 : 0 ≤ j)
    (hj : j < r.event_sources.count) (s : EventSource) (calls : List PlatformCall) :
    sources { r with
      heap := store_source r.heap (array_get r.event_sources j) s, platform := calls } =
      (sources r).set j.toNat s ∧
    Registry.Valid { r with
      heap := store_source r.heap (array_get r.event_sources j) s, platform := calls } := by
  have := source_list_store r.event_sources r.heap hv.valid hv.nonrelocatable j hj0 hj s
  exact ⟨this.1, ⟨this.2, hv.nonrelocatable, hv.size_eq⟩⟩

/-- The matched branch of the loop of `event_add_source`, for the source at index
`j`. -/
theorem event_add_source_found_spec (r : Registry) (hv : r.Valid) (events : Nat)
    (function opaque_ptr hook : Int) (j : Int) (hj0 : 0 ≤ j) (hj : j < r.event_sources.count) :
    (event_add_source_found r events function opaque_ptr hook
      (array_get r.event_sources j)).2.Valid ∧
    (((load_source r.heap (array_get r.event_sources j)).state = EVENT_SOURCE_STATE_REMOVED ∧
        0 ≤ hook ∧
        (event_add_source_found r events function opaque_ptr hook
          (array_get r.event_sources j)).1 = 0 ∧
        sources (event_add_source_found r events function opaque_ptr hook
          (array_get r.event_sources j)).2 =
          (sources r).set j.toNat
            (set_functions { load_source r.heap (array_get r.event_sources j) with
              events := events, state := EVENT_SOURCE_STATE_READDED }
              events function opaque_ptr)) ∨
      ((load_source r.heap (array_get r.event_sources j)).state = EVENT_SOURCE_STATE_REMOVED ∧
        hook < 0 ∧
        (event_add_source_found r events function opaque_ptr hook
          (array_get r.event_sources j)).1 = -1 ∧
        sources (event_add_source_found r events function opaque_ptr hook
          (array_get r.event_sources j)).2 = sources r) ∨
      ((load_source r.heap (array_get r.event_sources j)).state ≠ EVENT_SOURCE_STATE_REMOVED ∧
        event_add_source_found r events function opaque_ptr hook
          (array_get r.event_sources j) = (-1, r))) := by
  unfold event_add_source_found
  simp only
  by_cases hst : (load_source r.heap (array_get r.event_sources j)).state =
      EVENT_SOURCE_STATE_REMOVED
  · rw [if_pos hst]
    by_cases hh : hook < 0
    · rw [if_pos hh]
      simp only [store_store]
      have := registry_store r hv j hj0 hj (load_source r.heap (array_get r.event_sources j))
        (r.platform ++ [.added (array_get r.event_sources j)
          (set_functions { load_source r.heap (array_get r.event_sources j) with
              events := events, state := EVENT_SOURCE_STATE_READDED }
              events function opaque_ptr)])
      refine ⟨this.2, Or.inr (Or.inl ⟨hst, hh, trivial, ?_⟩)⟩
      rw [this.1]
      exact set_getElem?_self _ _ _ (getElem?_sources r j hj0 hj)
    · rw [if_neg hh]
      have := registry_store r hv j hj0 hj
        (set_functions { load_source r.heap (array_get r.event_sources j) with
              events := events, state := EVENT_SOURCE_STATE_READDED }
              events function opaque_ptr)
        (r.platform ++ [.added (array_get r.event_sources j)
          (set_functions { load_source r.heap (array_get r.event_sources j) with
              events := events, state := EVENT_SOURCE_STATE_READDED }
              events function opaque_ptr)])
      exact ⟨this.2, Or.inl ⟨hst, by omega, rfl, this.1⟩⟩
  · rw [if_neg hst]
    exact ⟨hv, Or.inr (Or.inr ⟨hst, rfl⟩)⟩
theorem decode_zero :
    EventSource.decode (List.replicate SIZEOF_EVENT_SOURCE.toNat 0) =
      { handle := 0, type := 0, events := 0, state := 0, read := 0, read_opaque := 0,
        write := 0, write_opaque := 0, prio := 0, prio_opaque := 0, error := 0,
        error_opaque := 0 } := by
  decide

theorem source_list_congr (a a' : Array) (h : Heap) (hcnt : a'.count = a.count)
    (hget : ∀ i, 0 ≤ i → i < a.count → array_get a' i = array_get a i) :
    source_list a' h = source_list a h := by
  unfold source_list
  rw [hcnt]
  apply map_range_congr
  intro k hk
  rw [hget k (by omega) (by omega)]

/-- What `event_add_source` does to the list of event sources of a valid registry. -/
theorem event_add_source_spec (r : Registry) (hv : r.Valid) (handle type : Int) (events : Nat)
    (function opaque_ptr : Int) (env : Option (Nat → Int)) (ok : Bool) (hook : Int) :
    (event_add_source r handle type events function opaque_ptr env ok hook).2.Valid ∧
    ((∃ (j : Nat) (s : EventSource), (sources r)[j]? = some s ∧ s.handle = handle ∧
        s.type = type ∧
        (∀ (k : Nat) (t : EventSource), k < j → (sources r)[k]? = some t →
          ¬(t.handle = handle ∧ t.type = type)) ∧
        ((s.state = EVENT_SOURCE_STATE_REMOVED ∧ 0 ≤ hook ∧
            (event_add_source r handle type events function opaque_ptr env ok hook).1 = 0 ∧
            sources (event_add_source r handle type events function opaque_ptr env ok hook).2 =
              (sources r).set j (set_functions
                { s with events := events, state := EVENT_SOURCE_STATE_READDED }
                events function opaque_ptr)) ∨
          (s.state = EVENT_SOURCE_STATE_REMOVED ∧ hook < 0 ∧
            (event_add_source r handle type events function opaque_ptr env ok hook).1 = -1 ∧
            sources (event_add_source r handle type events function opaque_ptr env ok hook).2 =
              sources r) ∨
          (s.state ≠ EVENT_SOURCE_STATE_REMOVED ∧
            event_add_source r handle type events function opaque_ptr env ok hook = (-1, r)))) ∨
      ((∀ s ∈ sources r, ¬(s.handle = handle ∧ s.type = type)) ∧
        ((((array_append r.event_sources r.heap env ok).1 = none ∨ hook < 0) ∧
            (event_add_source r handle type events function opaque_ptr env ok hook).1 = -1 ∧
            sources (event_add_source r handle type events function opaque_ptr env ok hook).2 =
              sources r) ∨
          ((array_append r.event_sources r.heap env ok).1 ≠ none ∧ 0 ≤ hook ∧
            (event_add_source r handle type events function opaque_ptr env ok hook).1 = 0 ∧
            sources (event_add_source r handle type events function opaque_ptr env ok hook).2 =
              sources r ++ [set_functions
                { handle := handle, type := type, events := events,
                  state := EVENT_SOURCE_STATE_ADDED, read := 0, read_opaque := 0, write := 0,
                  write_opaque := 0, prio := 0, prio_opaque := 0, error := 0,
                  error_opaque := 0 } events function opaque_ptr])))) := by
  unfold event_add_source
  split
  · -- the loop returns
    rename_i result hloop
    obtain ⟨j, hj0, hj, hbody, hbefore⟩ := for_up_some _ _ _ _ _ hloop
    simp only at hbody hbefore
    split at hbody
    · rename_i hmatch
      simp only [Option.some.injEq] at hbody
      subst hbody
      have hf := event_add_source_found_spec r hv events function opaque_ptr hook j hj0 hj
      refine ⟨hf.1, Or.inl ⟨j.toNat, _, getElem?_sources r j hj0 hj, hmatch.1, hmatch.2, ?_, hf.2⟩⟩
      intro k t hk hkt
      have hk' := hbefore k (by omega) (by omega)
      have hks := getElem?_sources r k (by omega) (by omega)
      rw [Int.toNat_ofNat, hkt] at hks
      simp only [Option.some.injEq] at hks
      have hkt := hks.symm
      subst hkt
      intro hc
      rw [if_pos hc] at hk'
      cases hk'
    · cases hbody
  · -- the loop finds no source
    rename_i hloop
    have hnone := for_up_none _ _ _ 0 (by omega) hloop
    have hall : ∀ s ∈ sources r, ¬(s.handle = handle ∧ s.type = type) := by
      intro s hs hc
      obtain ⟨i, hi0, hi, rfl⟩ := mem_sources r s hs
      have := hnone i (by omega) (by omega)
      simp only at this
      rw [if_pos hc] at this
      cases this
    have hval := hv.valid
    split
    · -- array_append fails
      rename_i array heap happ
      have hn := array_append_none _ _ env ok array heap hval happ
      obtain ⟨hcnt, hsize, hrel, _, hheap, hold, hv'⟩ := hn
      subst hheap
      refine ⟨⟨hv', by rw [hrel, hv.nonrelocatable], by rw [hsize, hv.size_eq]⟩,
        Or.inr ⟨hall, Or.inl ⟨Or.inl (by rw [happ]), rfl, ?_⟩⟩⟩
      exact source_list_congr _ _ _ hcnt (fun i hi0 hi => (hold i hi0 hi).2)
    · rename_i event_source array heap happ
      have hzero : load_source heap event_source =
          { handle := 0, type := 0, events := 0, state := 0, read := 0, read_opaque := 0,
            write := 0, write_opaque := 0, prio := 0, prio_opaque := 0, error := 0,
            error_opaque := 0 } := by
        have := (source_list_append _ _ env ok event_source array heap
          (load_source heap event_source) hval hv.nonrelocatable happ).2.2.2.2.2.2
        rw [this, hv.size_eq, decode_zero]
      rw [hzero]
      simp only
      generalize hnew : set_functions
          { handle := handle, type := type, events := events,
            state := EVENT_SOURCE_STATE_ADDED, read := 0, read_opaque := 0, write := 0,
            write_opaque := 0, prio := 0, prio_opaque := 0, error := 0, error_opaque := 0 }
          events function opaque_ptr = new
      have ha := source_list_append _ _ env ok event_source array heap new hval
        hv.nonrelocatable happ
      obtain ⟨hl, hv', hrel, hsize, hcnt, _, _⟩ := ha
      have hc0 := hval.wf.count_nonneg
      by_cases hh : hook < 0
      · rw [if_pos hh]
        have hrm := source_list_remove array (store_source heap event_source new)
          (array.count - 1) false hv' hrel (by omega) (by omega)
        obtain ⟨hl2, hv2, hrel2, hsize2, _⟩ := hrm
        refine ⟨⟨hv2, hrel2, by rw [hsize2, hsize, hv.size_eq]⟩,
          Or.inr ⟨hall, Or.inl ⟨Or.inr hh, rfl, ?_⟩⟩⟩
        show source_list _ _ = source_list _ _
        rw [hl2, hl, hcnt]
        have : (r.event_sources.count + 1 - 1).toNat = (source_list r.event_sources r.heap).length := by
          rw [length_source_list]; omega
        rw [this, List.eraseIdx_append_of_length_le (le_refl _)]
        simp
      · rw [if_neg hh]
        refine ⟨⟨hv', hrel, by rw [hsize, hv.size_eq]⟩,
          Or.inr ⟨hall, Or.inr ⟨by rw [happ]; simp, by omega, rfl, hl⟩⟩⟩

/-! ## event_modify_source and event_remove_source -/

/-- The matched branch of the loop of `event_modify_source`, for the source at
index `j`. -/
theorem event_modify_source_found_spec (r : Registry) (hv : r.Valid)
    (events_to_remove events_to_add : Nat) (function opaque_ptr hook : Int) (j : Int)
    (hj0 : 0 ≤ j) (hj : j < r.event_sources.count) :
    (event_modify_source_found r events_to_remove events_to_add function opaque_ptr hook
      (array_get r.event_sources j)).2.Valid ∧
    (((load_source r.heap (array_get r.event_sources j)).state ≠ EVENT_SOURCE_STATE_REMOVED ∧
        0 ≤ hook ∧
        (event_modify_source_found r events_to_remove events_to_add function opaque_ptr hook
          (array_get r.event_sources j)).1 = 0 ∧
        sources (event_modify_source_found r events_to_remove events_to_add function opaque_ptr
          hook (array_get r.event_sources j)).2 =
          (sources r).set j.toNat
            { set_functions (unset_functions
                { load_source r.heap (array_get r.event_sources j) with
                  events := (load_source r.heap (array_get r.event_sources j)).events &&&
                    uint32_not events_to_remove ||| events_to_add }
                events_to_remove) events_to_add function opaque_ptr with
              state := EVENT_SOURCE_STATE_MODIFIED }) ∨
      ((load_source r.heap (array_get r.event_sources j)).state ≠ EVENT_SOURCE_STATE_REMOVED ∧
        hook < 0 ∧
        (event_modify_source_found r events_to_remove events_to_add function opaque_ptr hook
          (array_get r.event_sources j)).1 = -1 ∧
        sources (event_modify_source_found r events_to_remove events_to_add function opaque_ptr
          hook (array_get r.event_sources j)).2 = sources r) ∨
      ((load_source r.heap (array_get r.event_sources j)).state = EVENT_SOURCE_STATE_REMOVED ∧
        event_modify_source_found r events_to_remove events_to_add function opaque_ptr hook
          (array_get r.event_sources j) = (-1, r))) := by
  unfold event_modify_source_found
  simp only
  by_cases hst : (load_source r.heap (array_get r.event_sources j)).state =
      EVENT_SOURCE_STATE_REMOVED
  · rw [if_pos hst]
    exact ⟨hv, Or.inr (Or.inr ⟨hst, rfl⟩)⟩
  · rw [if_neg hst]
    by_cases hh : hook < 0
    · rw [if_pos hh]
      simp only [store_store]
      have := registry_store r hv j hj0 hj (load_source r.heap (array_get r.event_sources j))
      refine ⟨(this _).2, Or.inr (Or.inl ⟨hst, hh, trivial, ?_⟩)⟩
      rw [(this _).1]
      exact set_getElem?_self _ _ _ (getElem?_sources r j hj0 hj)
    · rw [if_neg hh]
      have := registry_store r hv j hj0 hj
        { set_functions (unset_functions
                { load_source r.heap (array_get r.event_sources j) with
                  events := (load_source r.heap (array_get r.event_sources j)).events &&&
                    uint32_not events_to_remove ||| events_to_add }
                events_to_remove) events_to_add function opaque_ptr with
              state := EVENT_SOURCE_STATE_MODIFIED }
      exact ⟨(this _).2, Or.inl ⟨hst, by omega, rfl, (this _).1⟩⟩

/-- What `event_modify_source` does to the list of event sources of a valid
registry. -/
theorem event_modify_source_spec (r : Registry) (hv : r.Valid) (handle type : Int)
    (events_to_remove events_to_add : Nat) (function opaque_ptr : Int) (hook : Int) :
    (event_modify_source r handle type events_to_remove events_to_add function opaque_ptr
      hook).2.Valid ∧
    ((∃ (j : Nat) (s : EventSource), (sources r)[j]? = some s ∧ s.handle = handle ∧
        s.type = type ∧
        (∀ (k : Nat) (t : EventSource), k < j → (sources r)[k]? = some t →
          ¬(t.handle = handle ∧ t.type = type)) ∧
        ((s.state ≠ EVENT_SOURCE_STATE_REMOVED ∧ 0 ≤ hook ∧
            (event_modify_source r handle type events_to_remove events_to_add function
              opaque_ptr hook).1 = 0 ∧
            sources (event_modify_source r handle type events_to_remove events_to_add function
              opaque_ptr hook).2 =
              (sources r).set j
                { set_functions (unset_functions
                    { s with events := s.events &&& uint32_not events_to_remove ||| events_to_add }
                    events_to_remove) events_to_add function opaque_ptr with
                  state := EVENT_SOURCE_STATE_MODIFIED }) ∨
          (s.state ≠ EVENT_SOURCE_STATE_REMOVED ∧ hook < 0 ∧
            (event_modify_source r handle type events_to_remove events_to_add function
              opaque_ptr hook).1 = -1 ∧
            sources (event_modify_source r handle type events_to_remove events_to_add function
              opaque_ptr hook).2 = sources r) ∨
          (s.state = EVENT_SOURCE_STATE_REMOVED ∧
            event_modify_source r handle type events_to_remove events_to_add function
              opaque_ptr hook = (-1, r)))) ∨
      ((∀ s ∈ sources r, ¬(s.handle = handle ∧ s.type = type)) ∧
        event_modify_source r handle type events_to_remove events_to_add function
          opaque_ptr hook = (-1, r))) := by
  unfold event_modify_source
  split
  · rename_i result hloop
    obtain ⟨j, hj0, hj, hbody, hbefore⟩ := for_up_some _ _ _ _ _ hloop
    simp only at hbody hbefore
    split at hbody
    · rename_i hmatch
      simp only [Option.some.injEq] at hbody
      subst hbody
      have hf := event_modify_source_found_spec r hv events_to_remove events_to_add function
        opaque_ptr hook j hj0 hj
      refine ⟨hf.1, Or.inl ⟨j.toNat, _, getElem?_sources r j hj0 hj, hmatch.1, hmatch.2, ?_, hf.2⟩⟩
      intro k t hk hkt
      have hk' := hbefore k (by omega) (by omega)
      have hks := getElem?_sources r k (by omega) (by omega)
      rw [Int.toNat_ofNat, hkt] at hks
      simp only [Option.some.injEq] at hks
      have hkt := hks.symm
      subst hkt
      intro hc
      rw [if_pos hc] at hk'
      cases hk'
    · cases hbody
  · rename_i hloop
    have hnone := for_up_none _ _ _ 0 (by omega) hloop
    refine ⟨hv, Or.inr ⟨?_, rfl⟩⟩
    intro s hs hc
    obtain ⟨i, hi0, hi, rfl⟩ := mem_sources r s hs
    have := hnone i (by omega) (by omega)
    simp only at this
    rw [if_pos hc] at this
    cases this

/-- What `event_remove_source` does to the list of event sources of a valid
registry. -/
theorem event_remove_source_spec (r : Registry) (hv : r.Valid) (handle type : Int) :
    (event_remove_source r handle type).Valid ∧
    ((∃ (j : Nat) (s : EventSource), (sources r)[j]? = some s ∧ s.handle = handle ∧
        s.type = type ∧
        (∀ (k : Nat) (t : EventSource), j < k → (sources r)[k]? = some t →
          ¬(t.handle = handle ∧ t.type = type)) ∧
        ((s.state ≠ EVENT_SOURCE_STATE_REMOVED ∧
            sources (event_remove_source r handle type) =
              (sources r).set j { s with state := EVENT_SOURCE_STATE_REMOVED } ∧
            (event_remove_source r handle type).platform = r.platform ++
              [.removed (array_get r.event_sources j)
                { s with state := EVENT_SOURCE_STATE_REMOVED }]) ∨
          (s.state = EVENT_SOURCE_STATE_REMOVED ∧ event_remove_source r handle type = r))) ∨
      ((∀ s ∈ sources r, ¬(s.handle = handle ∧ s.type = type)) ∧
        event_remove_source r handle type = r)) := by
  unfold event_remove_source
  split
  · rename_i result hloop
    obtain ⟨j, hj0, hj, hbody, hafter⟩ := for_down_some _ _ _ _ hloop
    simp only at hbody hafter
    have hj' : j < r.event_sources.count := by omega
    split at hbody
    · rename_i hmatch
      simp only [Option.some.injEq] at hbody
      subst hbody
      have hfound : (event_remove_source_found r (array_get r.event_sources j)).Valid ∧
          (((load_source r.heap (array_get r.event_sources j)).state ≠
              EVENT_SOURCE_STATE_REMOVED ∧
            sources (event_remove_source_found r (array_get r.event_sources j)) =
              (sources r).set j.toNat { load_source r.heap (array_get r.event_sources j) with
                state := EVENT_SOURCE_STATE_REMOVED } ∧
            (event_remove_source_found r (array_get r.event_sources j)).platform =
              r.platform ++ [.removed (array_get r.event_sources j)
                { load_source r.heap (array_get r.event_sources j) with
                  state := EVENT_SOURCE_STATE_REMOVED }]) ∨
          ((load_source r.heap (array_get r.event_sources j)).state =
              EVENT_SOURCE_STATE_REMOVED ∧
            event_remove_source_found r (array_get r.event_sources j) = r)) := by
        unfold event_remove_source_found
        simp only
        split
        · rename_i hst
          exact ⟨hv, Or.inr ⟨hst, rfl⟩⟩
        · rename_i hst
          have := registry_store r hv j hj0 hj'
            { load_source r.heap (array_get r.event_sources j) with
              state := EVENT_SOURCE_STATE_REMOVED }
          exact ⟨(this _).2, Or.inl ⟨hst, (this _).1, rfl⟩⟩
      refine ⟨hfound.1, Or.inl ⟨j.toNat, _, getElem?_sources r j hj0 hj', hmatch.1, hmatch.2, ?_, ?_⟩⟩
      · intro k t hk hkt
        have hklt : (k : Int) < r.event_sources.count := by
          have := (List.getElem?_eq_some_iff.mp hkt).1
          rw [sources_eq, length_source_list] at this
          omega
        have hk' := hafter k (by omega) (by omega)
        have hks := getElem?_sources r k (by omega) hklt
        rw [Int.toNat_ofNat, hkt] at hks
        simp only [Option.some.injEq] at hks
        have hkt := hks.symm
        subst hkt
        intro hc
        rw [if_pos hc] at hk'
        cases hk'
      · have : ((j.toNat : Nat) : Int) = j := by omega
        rw [this]
        exact hfound.2
    · cases hbody
  · rename_i hloop
    have hnone := for_down_none _ _ (r.event_sources.count - 1) (by omega) hloop
    refine ⟨hv, Or.inr ⟨?_, rfl⟩⟩
    intro s hs hc
    obtain ⟨i, hi0, hi, rfl⟩ := mem_sources r s hs
    have := hnone i (by omega) (by omega)
    simp only at this
    rw [if_pos hc] at this
    cases this

/-! ## event_cleanup_sources -/

theorem cleaned_append (l l' : List EventSource) : cleaned (l ++ l') = cleaned l ++ cleaned l' := by
  simp [cleaned]

theorem cleaned_singleton (x : EventSource) :
    cleaned [x] = if x.state = EVENT_SOURCE_STATE_REMOVED then []
      else [{ x with state := EVENT_SOURCE_STATE_NORMAL }] := by
  unfold cleaned
  by_cases h : x.state = EVENT_SOURCE_STATE_REMOVED
  · simp [h]
  · simp [h]

theorem event_cleanup_sources_loop_spec :
    ∀ (n : Nat) (r : Registry) (pre post : List EventSource), r.Valid →
      sources r = pre ++ post → n = pre.length →
      (event_cleanup_sources_loop n ((pre.length : Int) - 1) r).Valid ∧
      sources (event_cleanup_sources_loop n ((pre.length : Int) - 1) r) = cleaned pre ++ post ∧
      (event_cleanup_sources_loop n ((pre.length : Int) - 1) r).platform = r.platform ∧
      (event_cleanup_sources_loop n ((pre.length : Int) - 1) r).running = r.running ∧
      (event_cleanup_sources_loop n ((pre.length : Int) - 1) r).stop_requested =
        r.stop_requested := by
  intro n
  induction n with
  | zero =>
    intro r pre post hv hs hn
    have : pre = [] := List.length_eq_zero.mp hn.symm
    subst this
    have e : ∀ i, event_cleanup_sources_loop 0 i r = r := fun _ => rfl
    rw [e]
    exact ⟨hv, by simpa [cleaned] using hs, rfl, rfl, rfl⟩
  | succ n ih =>
    intro r pre post hv hs hn
    rcases List.eq_nil_or_concat pre with hnil | ⟨pre', x, hcat⟩
    · subst hnil; simp at hn
    · rw [List.concat_eq_append] at hcat
      subst hcat
      have hlen : (pre' ++ [x]).length = pre'.length + 1 := by simp
      have hn' : n = pre'.length := by rw [hlen] at hn; omega
      have hi : ((pre' ++ [x]).length : Int) - 1 = (pre'.length : Int) := by rw [hlen]; omega
      rw [hi]
      have hcount : (r.event_sources.count.toNat : Nat) = pre'.length + 1 + post.length := by
        have := congrArg List.length hs
        rw [sources_eq, length_source_list] at this
        simp only [List.length_append, List.length_singleton] at this
        omega
      have hc0 := hv.valid.wf.count_nonneg
      have hx : load_source r.heap (array_get r.event_sources (pre'.length : Int)) = x := by
        have := getElem?_sources r (pre'.length : Int) (by omega) (by omega)
        rw [Int.toNat_ofNat, hs, List.append_assoc,
          List.getElem?_append_right (le_refl _)] at this
        simp only [Nat.sub_self, List.singleton_append, List.getElem?_cons_zero,
          Option.some.injEq] at this
        exact this.symm
      unfold event_cleanup_sources_loop
      rw [if_pos (by omega)]
      simp only
      rw [hx]
      have hsub : (pre'.length : Int) - 1 = ((pre'.length : Int) - 1) := rfl
      by_cases hst : x.state = EVENT_SOURCE_STATE_REMOVED
      · rw [if_pos hst]
        have hrm := source_list_remove r.event_sources r.heap (pre'.length : Int) false hv.valid
          hv.nonrelocatable (by omega) (by omega)
        obtain ⟨hl, hv2, hrel2, hsize2, _⟩ := hrm
        have hv' : Registry.Valid { r with
            event_sources := (array_remove r.event_sources r.heap (pre'.length : Int) false).1,
            heap := (array_remove r.event_sources r.heap (pre'.length : Int) false).2.1 } :=
          ⟨hv2, hrel2, by rw [hsize2]; exact hv.size_eq⟩
        have hs' : sources { r with
            event_sources := (array_remove r.event_sources r.heap (pre'.length : Int) false).1,
            heap := (array_remove r.event_sources r.heap (pre'.length : Int) false).2.1 } =
            pre' ++ post := by
          show source_list _ _ = _
          rw [hl, ← sources_eq, hs, Int.toNat_ofNat, List.append_assoc,
            List.eraseIdx_append_of_length_le (le_refl _)]
          simp
        have := ih _ pre' post hv' hs' hn'
        rw [cleaned_append, cleaned_singleton, if_pos hst, List.append_nil]
        exact this
      · rw [if_neg hst]
        have hst' := registry_store r hv (pre'.length : Int) (by omega) (by omega)
          { x with state := EVENT_SOURCE_STATE_NORMAL } r.platform
        have hs' : sources { r with
            heap := store_source r.heap (array_get r.event_sources (pre'.length : Int))
              { x with state := EVENT_SOURCE_STATE_NORMAL } } =
            pre' ++ ({ x with state := EVENT_SOURCE_STATE_NORMAL } :: post) := by
          have := hst'.1
          rw [hs, Int.toNat_ofNat, List.append_assoc, List.set_append_right _ _ (le_refl _)] at this
          simpa using this
        have := ih _ pre' _ hst'.2 hs' hn'
        rw [cleaned_append, cleaned_singleton, if_neg hst, List.append_assoc]
        exact this

/-- What `event_cleanup_sources` does to the list of event sources of a valid
registry. -/
theorem event_cleanup_sources_spec (r : Registry) (hv : r.Valid) :
    (event_cleanup_sources r).Valid ∧ sources (event_cleanup_sources r) = cleaned (sources r) ∧
    (event_cleanup_sources r).platform = r.platform ∧
    (event_cleanup_sources r).running = r.running ∧
    (event_cleanup_sources r).stop_requested = r.stop_requested := by
  have hc0 := hv.valid.wf.count_nonneg
  have hlen : (sources r).length = r.event_sources.count.toNat := by
    rw [sources_eq, length_source_list]
  have := event_cleanup_sources_loop_spec r.event_sources.count.toNat r (sources r) [] hv
    (by simp) hlen.symm
  have hi : ((sources r).length : Int) - 1 = r.event_sources.count - 1 := by
    rw [hlen]; omega
  rw [hi, List.append_nil] at this
  exact this

/-! ## Identities in the registry -/

theorem map_identity_set (l : List EventSource) (j : Nat) (s s' : EventSource)
    (h : l[j]? = some s) (hid : s'.identity = s.identity) :
    (l.set j s').map EventSource.identity = l.map EventSource.identity := by
  rw [List.map_set, hid]
  apply set_getElem?_self
  rw [List.getElem?_map, h]
  rfl

theorem identity_eq (s : EventSource) (handle type : Int) :
    s.identity = (handle, type) ↔ (s.handle = handle ∧ s.type = type) := by
  simp [EventSource.identity]

theorem map_identity_cleaned (l : List EventSource) :
    ((cleaned l).map EventSource.identity).Sublist (l.map EventSource.identity) := by
  unfold cleaned
  rw [List.map_map]
  have : (EventSource.identity ∘ fun s : EventSource =>
      { s with state := EVENT_SOURCE_STATE_NORMAL }) = EventSource.identity := by
    funext s; rfl
  rw [this]
  exact List.Sublist.map _ (List.filter_sublist _)

theorem event_init_valid :
    (event_init Registry.initial true 0).2.Valid ∧
      sources (event_init Registry.initial true 0).2 = [] := by
  have hv := array_create_valid 32 SIZEOF_EVENT_SOURCE false true (by decide) (by decide)
    Heap.empty heap_empty_fresh
  have e : (event_init Registry.initial true 0).2 =
      { Registry.initial with
        event_sources := (array_create 32 SIZEOF_EVENT_SOURCE false true).2 } := rfl
  rw [e]
  exact ⟨⟨hv, rfl, rfl⟩, rfl⟩

/-- Every call keeps the registry valid and the identities of its sources pairwise
different. -/
theorem apply_identities (r : Registry) (call : RegistryCall) (hv : r.Valid)
    (hn : ((sources r).map EventSource.identity).Nodup) :
    (call.apply r).Valid ∧ ((sources (call.apply r)).map EventSource.identity).Nodup := by
  cases call with
  | add handle type events function opaque_ptr env ok hook =>
    have hs := event_add_source_spec r hv handle type events function opaque_ptr env ok hook
    refine ⟨hs.1, ?_⟩
    simp only [RegistryCall.apply]
    rcases hs.2 with ⟨j, s, hj, _, _, _, h | h | h⟩ | ⟨hall, h | h⟩
    · rw [h.2.2.2, map_identity_set _ j s _ hj]
      · exact hn
      · have := set_functions_identity
          { s with events := events, state := EVENT_SOURCE_STATE_READDED }
          events function opaque_ptr
        simp only [EventSource.identity, this.1, this.2.1]
    · rw [h.2.2.2]; exact hn
    · rw [h.2]; exact hn
    · rw [h.2.2]; exact hn
    · rw [h.2.2.2, List.map_append, List.map_singleton]
      apply List.Nodup.append hn (List.nodup_singleton _)
      rw [List.disjoint_singleton]
      intro hmem
      rw [List.mem_map] at hmem
      obtain ⟨t, ht, hid⟩ := hmem
      have := set_functions_identity
        { handle := handle, type := type, events := events,
          state := EVENT_SOURCE_STATE_ADDED, read := 0, read_opaque := 0, write := 0,
          write_opaque := 0, prio := 0, prio_opaque := 0, error := 0, error_opaque := 0 }
        events function opaque_ptr
      simp only [EventSource.identity, this.1, this.2.1, Prod.mk.injEq] at hid
      exact hall t ht hid
  | modify handle type events_to_remove events_to_add function opaque_ptr hook =>
    have hs := event_modify_source_spec r hv handle type events_to_remove events_to_add function
      opaque_ptr hook
    refine ⟨hs.1, ?_⟩
    simp only [RegistryCall.apply]
    rcases hs.2 with ⟨j, s, hj, _, _, _, h | h | h⟩ | ⟨_, h⟩
    · rw [h.2.2.2, map_identity_set _ j s _ hj]
      · exact hn
      · have h1 := set_functions_identity (unset_functions
            { s with events := s.events &&& uint32_not events_to_remove ||| events_to_add }
            events_to_remove) events_to_add function opaque_ptr
        have h2 := unset_functions_identity
            { s with events := s.events &&& uint32_not events_to_remove ||| events_to_add }
            events_to_remove
        simp only [EventSource.identity, h1.1, h1.2.1, h2.1, h2.2.1]
    · rw [h.2.2.2]; exact hn
    · rw [h.2]; exact hn
    · rw [h]; exact hn
  | remove handle type =>
    have hs := event_remove_source_spec r hv handle type
    refine ⟨hs.1, ?_⟩
    simp only [RegistryCall.apply]
    rcases hs.2 with ⟨j, s, hj, _, _, _, h | h⟩ | ⟨_, h⟩
    · rw [h.2.1, map_identity_set _ j s { s with state := EVENT_SOURCE_STATE_REMOVED } hj rfl]
      exact hn
    · rw [h.2]; exact hn
    · rw [h]; exact hn
  | cleanup =>
    have hs := event_cleanup_sources_spec r hv
    refine ⟨hs.1, ?_⟩
    simp only [RegistryCall.apply]
    rw [hs.2.1]
    exact List.Nodup.sublist (map_identity_cleaned _) hn

theorem run_calls_identities (calls : List RegistryCall) :
    ∀ (r : Registry), r.Valid → ((sources r).map EventSource.identity).Nodup →
      (run_calls r calls).Valid ∧
        ((sources (run_calls r calls)).map EventSource.identity).Nodup := by
  induction calls with
  | nil => intro r hv hn; exact ⟨hv, hn⟩
  | cons call calls ih =>
    intro r hv hn
    have := apply_identities r call hv hn
    exact ih _ this.1 this.2

theorem countP_identity_le_one (l : List EventSource)
    (hn : (l.map EventSource.identity).Nodup) (handle type : Int) :
    l.countP (fun s => decide (s.handle = handle ∧ s.type = type)) ≤ 1 := by
  induction l with
  | nil => simp
  | cons x l ih =>
    rw [List.map_cons, List.nodup_cons] at hn
    rw [List.countP_cons]
    by_cases hx : x.handle = handle ∧ x.type = type
    · have hz : l.countP (fun s => decide (s.handle = handle ∧ s.type = type)) = 0 := by
        rw [List.countP_eq_zero]
        intro t ht hpt
        simp only [decide_eq_true_eq] at hpt
        apply hn.1
        rw [List.mem_map]
        exact ⟨t, ht, by simp only [EventSource.identity, hpt.1, hpt.2, hx.1, hx.2]⟩
      rw [hz]
      simp only [zero_add]
      split <;> omega
    · have := ih hn.2
      simp only [hx, decide_False, Bool.false_eq_true, if_false, add_zero]
      exact this


/-- A run of the registry: a duplicate add fails, a removed source is re-added in
place, and the cleanup erases the removed source and makes the other one normal. -/
theorem run_calls_example :
    (sources (run_calls (event_init Registry.initial true 0).2
      [.add 5 0 1 100 200 none true 0, .add 6 1 4 101 201 none true 0,
        .add 5 0 1 100 200 none true 0, .remove 5 0, .add 5 0 4 300 400 none true 0,
        .remove 6 1, .cleanup])).map
      (fun s => (s.handle, s.type, s.events, s.state)) = [(5, 0, 4, 0)] := by
  decide

/-! ## Fields of a source after `set_functions` and `unset_functions` -/

theorem set_functions_pairs (s : EventSource) (events : Nat) (function opaque_ptr : Int) :
    ((set_functions s events function opaque_ptr).read,
        EventSource.read_opaque (set_functions s events function opaque_ptr)) =
      (if events &&& EVENT_READ ≠ 0 then (function, opaque_ptr) else (s.read, s.read_opaque)) ∧
    ((set_functions s events function opaque_ptr).write,
        EventSource.write_opaque (set_functions s events function opaque_ptr)) =
      (if events &&& EVENT_WRITE ≠ 0 then (function, opaque_ptr)
        else (s.write, s.write_opaque)) ∧
    ((set_functions s events function opaque_ptr).prio,
        EventSource.prio_opaque (set_functions s events function opaque_ptr)) =
      (if events &&& EVENT_PRIO ≠ 0 then (function, opaque_ptr) else (s.prio, s.prio_opaque)) ∧
    ((set_functions s events function opaque_ptr).error,
        EventSource.error_opaque (set_functions s events function opaque_ptr)) =
      (if events &&& EVENT_ERROR ≠ 0 then (function, opaque_ptr)
        else (s.error, s.error_opaque)) := by
  unfold set_functions
  simp only
  split_ifs <;> exact ⟨rfl, rfl, rfl, rfl⟩

theorem unset_functions_pairs (s : EventSource) (events_to_remove : Nat) :
    ((unset_functions s events_to_remove).read, EventSource.read_opaque (unset_functions s events_to_remove)) =
      (if events_to_remove &&& EVENT_READ ≠ 0 then (0, 0) else (s.read, s.read_opaque)) ∧
    ((unset_functions s events_to_remove).write,
        EventSource.write_opaque (unset_functions s events_to_remove)) =
      (if events_to_remove &&& EVENT_WRITE ≠ 0 then (0, 0) else (s.write, s.write_opaque)) ∧
    ((unset_functions s events_to_remove).prio, EventSource.prio_opaque (unset_functions s events_to_remove)) =
      (if events_to_remove &&& EVENT_PRIO ≠ 0 then (0, 0) else (s.prio, s.prio_opaque)) ∧
    ((unset_functions s events_to_remove).error,
        EventSource.error_opaque (unset_functions s events_to_remove)) =
      (if events_to_remove &&& EVENT_ERROR ≠ 0 then (0, 0) else (s.error, s.error_opaque)) := by
  unfold unset_functions
  simp only
  split_ifs <;> exact ⟨rfl, rfl, rfl, rfl⟩

theorem uint32_not_testBit (x k : Nat) :
    (uint32_not x).testBit k = (decide (k < 32) && !x.testBit k) := by
  unfold uint32_not
  have h : x % 4294967296 < 2 ^ 32 := Nat.mod_lt _ (by norm_num)
  have := Nat.testBit_two_pow_sub_succ h k
  have e : 2 ^ 32 - (x % 4294967296 + 1) = 4294967295 - x % 4294967296 := by omega
  rw [e] at this
  rw [this]
  have : (4294967296 : Nat) = 2 ^ 32 := by norm_num
  rw [this, Nat.testBit_mod_two_pow]
  by_cases hk : k < 32 <;> simp [hk]

/-! ## The source with a given identity -/

theorem unique_source (l : List EventSource) (hu : (l.map EventSource.identity).Nodup) :
    ∀ (i j : Nat) (s t : EventSource), l[i]? = some s → l[j]? = some t →
      s.handle = t.handle → s.type = t.type → i = j ∧ s = t := by
  induction l with
  | nil => intro i j s t hi; simp at hi
  | cons x l ih =>
    intro i j s t hi hj hh ht
    rw [List.map_cons, List.nodup_cons] at hu
    have hid : s.identity = t.identity := by simp only [EventSource.identity, hh, ht]
    cases i with
    | zero =>
      cases j with
      | zero =>
        simp only [List.getElem?_cons_zero, Option.some.injEq] at hi hj
        exact ⟨rfl, hi.symm.trans hj⟩
      | succ j =>
        simp only [List.getElem?_cons_zero, Option.some.injEq, List.getElem?_cons_succ] at hi hj
        exfalso
        apply hu.1
        rw [hi, hid, List.mem_map]
        exact ⟨t, List.getElem?_mem hj, rfl⟩
    | succ i =>
      cases j with
      | zero =>
        simp only [List.getElem?_cons_zero, Option.some.injEq, List.getElem?_cons_succ] at hi hj
        exfalso
        apply hu.1
        rw [hj, ← hid, List.mem_map]
        exact ⟨s, List.getElem?_mem hi, rfl⟩
      | succ j =>
        simp only [List.getElem?_cons_succ] at hi hj
        have := ih hu.2 i j s t hi hj hh ht
        exact ⟨by omega, this.2⟩

theorem count_eq_length (r : Registry) (hv : r.Valid) :
    r.event_sources.count = ((sources r).length : Int) := by
  have := hv.valid.wf.count_nonneg
  rw [sources_eq, length_source_list]
  omega

theorem mem_of_getElem?_sources {l : List EventSource} {j : Nat} {s : EventSource}
    (h : l[j]? = some s) : s ∈ l := List.getElem?_mem h

/-! ## event_handle_source -/

theorem and_or_ne_zero_left (x a b : Nat) (h : x &&& a ≠ 0) : x &&& (a ||| b) ≠ 0 := by
  intro hc
  apply h
  apply Nat.eq_of_testBit_eq
  intro i
  have := congrArg (fun n => n.testBit i) hc
  simp only [Nat.testBit_and, Nat.testBit_or, Nat.zero_testBit] at this ⊢
  cases hx : x.testBit i <;> cases ha : a.testBit i <;> simp [hx, ha] at this ⊢

theorem event_handle_source_not_normal (callbacks : Int → Int → Registry → Registry)
    (r : Registry) (event_source : Int) (received_events : Nat)
    (hst : (load_source r.heap event_source).state ≠ EVENT_SOURCE_STATE_NORMAL) :
    event_handle_source callbacks r event_source received_events = (r, []) := by
  unfold event_handle_source
  simp only
  rw [if_pos hst]

theorem invoke_fold (callbacks : Int → Int → Registry → Registry) (r0 : Registry)
    (function opaque_ptr : Int) (s : Registry × List (Int × Int))
    (hs : s.1 = s.2.foldl (fun x c => callbacks c.1 c.2 x) r0) :
    (invoke callbacks function opaque_ptr s).1 =
      (invoke callbacks function opaque_ptr s).2.foldl (fun x c => callbacks c.1 c.2 x) r0 := by
  simp only [invoke, List.foldl_append, List.foldl_cons, List.foldl_nil]
  rw [← hs]

theorem event_handle_source_error_fold (callbacks : Int → Int → Registry → Registry)
    (r0 : Registry) (event_source : Int) (received_events : Nat)
    (s : Registry × List (Int × Int))
    (hs : s.1 = s.2.foldl (fun x c => callbacks c.1 c.2 x) r0) :
    (event_handle_source_error callbacks event_source received_events s).1 =
      (event_handle_source_error callbacks event_source received_events s).2.foldl
        (fun x c => callbacks c.1 c.2 x) r0 := by
  unfold event_handle_source_error
  simp only
  split
  · split
    · exact hs
    · exact invoke_fold callbacks r0 _ _ s hs
  · exact hs

theorem event_handle_source_prio_fold (callbacks : Int → Int → Registry → Registry)
    (r0 : Registry) (event_source : Int) (received_events : Nat)
    (s : Registry × List (Int × Int))
    (hs : s.1 = s.2.foldl (fun x c => callbacks c.1 c.2 x) r0) :
    (event_handle_source_prio callbacks event_source received_events s).1 =
      (event_handle_source_prio callbacks event_source received_events s).2.foldl
        (fun x c => callbacks c.1 c.2 x) r0 := by
  unfold event_handle_source_prio
  simp only
  split
  · split
    · exact hs
    · exact event_handle_source_error_fold callbacks r0 _ _ _ (invoke_fold callbacks r0 _ _ s hs)
  · exact event_handle_source_error_fold callbacks r0 _ _ s hs

theorem event_handle_source_write_fold (callbacks : Int → Int → Registry → Registry)
    (r0 : Registry) (event_source : Int) (received_events : Nat)
    (s : Registry × List (Int × Int))
    (hs : s.1 = s.2.foldl (fun x c => callbacks c.1 c.2 x) r0) :
    (event_handle_source_write callbacks event_source received_events s).1 =
      (event_handle_source_write callbacks event_source received_events s).2.foldl
        (fun x c => callbacks c.1 c.2 x) r0 := by
  unfold event_handle_source_write
  simp only
  split
  · split
    · exact hs
    · exact event_handle_source_prio_fold callbacks r0 _ _ _ (invoke_fold callbacks r0 _ _ s hs)
  · exact event_handle_source_prio_fold callbacks r0 _ _ s hs

/-- The registry after `event_handle_source` is the registry after the invoked
callbacks, run in order. -/
theorem event_handle_source_fold (callbacks : Int → Int → Registry → Registry)
    (r : Registry) (event_source : Int) (received_events : Nat) :
    (event_handle_source callbacks r event_source received_events).1 =
      (event_handle_source callbacks r event_source received_events).2.foldl
        (fun x c => callbacks c.1 c.2 x) r := by
  unfold event_handle_source
  simp only
  split
  · rfl
  · split
    · split
      · exact invoke_fold callbacks r _ _ (r, []) rfl
      · rfl
    · split
      · split
        · exact invoke_fold callbacks r _ _ (r, []) rfl
        · rfl
      · apply event_handle_source_write_fold
        split
        · exact invoke_fold callbacks r _ _ (r, []) rfl
        · rfl

theorem event_remove_source_array (r : Registry) (handle type : Int) :
    (event_remove_source r handle type).event_sources = r.event_sources := by
  unfold event_remove_source
  split
  · rename_i result hloop
    obtain ⟨j, _, _, hbody, _⟩ := for_down_some _ _ _ _ hloop
    simp only at hbody
    split at hbody
    · simp only [Option.some.injEq] at hbody
      rw [← hbody]
      unfold event_remove_source_found
      simp only
      split <;> rfl
    · cases hbody
  · rfl

/-- After `event_remove_source` on the identity of the source at index `j`, that
source is in state `Removed`. -/
theorem event_remove_source_state (r : Registry) (hv : r.Valid)
    (hu : ((sources r).map EventSource.identity).Nodup) (j : Nat) (b : EventSource)
    (hj : (sources r)[j]? = some b) :
    (load_source (event_remove_source r b.handle b.type).heap
      (array_get r.event_sources j)).state = EVENT_SOURCE_STATE_REMOVED := by
  have hs := event_remove_source_spec r hv b.handle b.type
  have harr := event_remove_source_array r b.handle b.type
  have hjlt : j < (sources r).length := (List.getElem?_eq_some_iff.mp hj).1
  have hcnt := count_eq_length r hv
  have hget := getElem?_sources (event_remove_source r b.handle b.type) (j : Int) (by omega)
    (by rw [harr]; omega)
  rw [Int.toNat_ofNat, harr] at hget
  rcases hs.2 with ⟨i, t, hi, hh', ht', _, h | h⟩ | ⟨hall, _⟩
  · have hx := unique_source _ hu j i b t hj hi hh'.symm ht'.symm
    obtain ⟨hji, hbt⟩ := hx
    subst hji hbt
    rw [h.2.1, List.getElem?_set_eq_of_lt _ hjlt] at hget
    simp only [Option.some.injEq] at hget
    rw [← hget]
  · have hx := unique_source _ hu j i b t hj hi hh'.symm ht'.symm
    obtain ⟨hji, hbt⟩ := hx
    subst hji hbt
    rw [h.2, hj] at hget
    simp only [Option.some.injEq] at hget
    rw [h.2, ← hget]
    exact h.1
  · exact absurd ⟨rfl, rfl⟩ (hall b (List.getElem?_mem hj))

theorem write_item_fields (a : Array) (h : Heap) (p : Int) (v : List Int) :
    (write_item a h p v).1.allocated = a.allocated ∧ (write_item a h p v).1.count = a.count ∧
      (write_item a h p v).1.relocatable = a.relocatable ∧
      (write_item a h p v).1.size = a.size := by
  unfold write_item
  split <;> exact ⟨rfl, rfl, rfl, rfl⟩

theorem GROW_ALLOCATION_full (n : Int) (hpos : 0 < n) (hdiv : 16 ∣ n) :
    GROW_ALLOCATION (n + 1) = n + 16 := by
  have := GROW_ALLOCATION_pos (n + 1) (by omega)
  omega

/-- The capacity after a successful `array_append`. -/
theorem array_append_allocated (a : Array) (h : Heap) (env : Option (Nat → Int)) (ok : Bool)
    (p : Int) (a' : Array) (h' : Heap) (hb : count_in_bounds a) (hpos : 0 < a.allocated)
    (hdiv : 16 ∣ a.allocated) (hr : array_append a h env ok = (some p, a', h')) :
    a'.count = a.count + 1 ∧ a'.relocatable = a.relocatable ∧
    a'.allocated = if a.count = a.allocated then a.allocated + 16 else a.allocated := by
  have hf := array_reserve_fields a (a.count + 1) env
  have hall : (array_reserve a (a.count + 1) env).1 = 0 →
      (array_reserve a (a.count + 1) env).2.allocated =
        if a.count = a.allocated then a.allocated + 16 else a.allocated := by
    intro hrc
    obtain ⟨hb0, hb1⟩ := hb
    rcases array_reserve_cases a (a.count + 1) env with hc | hc | hc
    · rw [hc.2, if_neg (by omega)]
    · rw [hc.2.2] at hrc; simp at hrc
    · obtain ⟨hlt, fill, _, hc⟩ := hc
      have heq : a.count = a.allocated := by omega
      rw [hc, if_pos heq]
      simp only
      rw [heq]
      exact GROW_ALLOCATION_full _ hpos hdiv
  rcases array_append_cases a h env ok with hc | hc | hc | hc
  · rw [hc.2] at hr; simp at hr
  · obtain ⟨hrc, hrel, hc⟩ := hc
    rw [hc] at hr
    simp only [Prod.mk.injEq] at hr
    obtain ⟨_, ha, _⟩ := hr
    subst ha
    exact ⟨rfl, hf.2.2, hall hrc⟩
  · rw [hc.2.2.2] at hr; simp at hr
  · obtain ⟨hrc, hrel, _, hc⟩ := hc
    rw [hc] at hr
    simp only [Prod.mk.injEq] at hr
    obtain ⟨_, ha, _⟩ := hr
    subst ha
    exact ⟨rfl, hf.2.2, hall hrc⟩

/-- An `array_append` succeeds when `realloc` and `calloc` do. -/
theorem array_append_isSome (a : Array) (h : Heap) (fill : Nat → Int) :
    (array_append a h (some fill) true).1.isSome = true := by
  have hrc : (array_reserve a (a.count + 1) (some fill)).1 = 0 := by
    rcases array_reserve_cases a (a.count + 1) (some fill) with hc | hc | hc
    · rw [hc.2]
    · simp at hc
    · obtain ⟨_, fill', _, hc⟩ := hc; rw [hc]
  rcases array_append_cases a h (some fill) true with hc | hc | hc | hc
  · rw [hc.1] at hrc; simp at hrc
  · rw [hc.2.2]; rfl
  · simp at hc
  · rw [hc.2.2.2]; rfl

/-- One successful append of a run: the count grows by one, the capacity by 16 when
the Array was full. -/
theorem append_step (s : Array × Heap) (fill : Nat → Int) (v : List Int)
    (hb : count_in_bounds s.1) (hpos : 0 < s.1.allocated) (hdiv : 16 ∣ s.1.allocated) :
    (ArrayOp.append (some fill) true v).succeeds s = true ∧
    (ArrayOp.apply s (.append (some fill) true v)).1.count = s.1.count + 1 ∧
    (ArrayOp.apply s (.append (some fill) true v)).1.allocated =
      if s.1.count = s.1.allocated then s.1.allocated + 16 else s.1.allocated := by
  have hs := array_append_isSome s.1 s.2 fill
  refine ⟨hs, ?_⟩
  simp only [ArrayOp.apply]
  generalize hr : array_append s.1 s.2 (some fill) true = res at hs
  obtain ⟨p, a', h'⟩ := res
  cases p with
  | none => simp at hs
  | some p =>
    have := array_append_allocated s.1 s.2 (some fill) true p a' h' hb hpos hdiv hr
    have hw := write_item_fields a' h' p v
    simp only
    rw [hw.1, hw.2.1]
    exact ⟨this.1, this.2.2⟩

/-- A run of `n` successful appends from `count = c` and a capacity `A` that is a
positive multiple of 16. -/
theorem run_appends (fill : Nat → Int) (v : List Int) (n : Nat) :
    ∀ (s : Array × Heap), count_in_bounds s.1 → 0 < s.1.allocated → 16 ∣ s.1.allocated →
      ∃ s', run_ops s (List.replicate n (.append (some fill) true v)) = some s' ∧
        s'.1.count = s.1.count + n ∧
        s'.1.allocated = max s.1.allocated (GROW_ALLOCATION (s.1.count + n)) := by
  induction n with
  | zero =>
    intro s hb hpos hdiv
    refine ⟨s, rfl, by simp, ?_⟩
    obtain ⟨hb0, hb1⟩ := hb
    simp only [Nat.cast_zero, add_zero]
    rcases lt_or_ge s.1.count 1 with h0 | h1
    · have e : s.1.count = 0 := by omega
      rw [e, GROW_ALLOCATION_zero]
      omega
    · have hg := GROW_ALLOCATION_pos s.1.count h1
      omega
  | succ n ih =>
    intro s hb hpos hdiv
    obtain ⟨hok, hcnt, hall⟩ := append_step s fill v hb hpos hdiv
    obtain ⟨hb0, hb1⟩ := hb
    have hb' : count_in_bounds (ArrayOp.apply s (.append (some fill) true v)).1 := by
      unfold count_in_bounds
      rw [hcnt, hall]
      split <;> omega
    have hpos' : 0 < (ArrayOp.apply s (.append (some fill) true v)).1.allocated := by
      rw [hall]; split <;> omega
    have hdiv' : 16 ∣ (ArrayOp.apply s (.append (some fill) true v)).1.allocated := by
      rw [hall]; split <;> omega
    obtain ⟨s', hrun, hc', ha'⟩ := ih _ hb' hpos' hdiv'
    refine ⟨s', ?_, ?_, ?_⟩
    · rw [List.replicate_succ]
      simp only [run_ops]
      rw [if_pos hok]
      exact hrun
    · rw [hc', hcnt]; push_cast; ring
    · rw [ha', hcnt, hall]
      have e : s.1.count + 1 + (n : Int) = s.1.count + ((n + 1 : Nat) : Int) := by
        push_cast; ring
      rw [e]
      have hg := GROW_ALLOCATION_pos (s.1.count + ((n + 1 : Nat) : Int)) (by omega)
      split <;> omega


theorem event_handle_source_error_calls (callbacks : Int → Int → Registry → Registry)
    (event_source : Int) (received_events : Nat) (s : Registry × List (Int × Int))
    (source : EventSource) (hsrc : load_source s.1.heap event_source = source)
    (hcb : ∀ (f o : Int) (x : Registry),
      load_source (callbacks f o x).heap event_source = load_source x.heap event_source)
    (hst : source.state ≠ EVENT_SOURCE_STATE_REMOVED) :
    (event_handle_source_error callbacks event_source received_events s).2 = s.2 ++
      (if received_events &&& EVENT_ERROR ≠ 0 ∧ source.error ≠ 0 then
        [(source.error, source.error_opaque)] else []) ∧
    load_source (event_handle_source_error callbacks event_source received_events s).1.heap
      event_source = source := by
  unfold event_handle_source_error
  simp only
  rw [hsrc]
  by_cases hc : received_events &&& EVENT_ERROR ≠ 0 ∧ source.error ≠ 0
  · rw [if_pos hc, if_pos hc, if_neg hst]
    refine ⟨rfl, ?_⟩
    unfold invoke
    simp only
    rw [hcb, hsrc]
  · rw [if_neg hc, if_neg hc]
    exact ⟨(List.append_nil _).symm, hsrc⟩

theorem event_handle_source_prio_calls (callbacks : Int → Int → Registry → Registry)
    (event_source : Int) (received_events : Nat) (s : Registry × List (Int × Int))
    (source : EventSource) (hsrc : load_source s.1.heap event_source = source)
    (hcb : ∀ (f o : Int) (x : Registry),
      load_source (callbacks f o x).heap event_source = load_source x.heap event_source)
    (hst : source.state ≠ EVENT_SOURCE_STATE_REMOVED) :
    (event_handle_source_prio callbacks event_source received_events s).2 = s.2 ++
      ((if received_events &&& EVENT_PRIO ≠ 0 ∧ source.prio ≠ 0 then
        [(source.prio, source.prio_opaque)] else []) ++
      (if received_events &&& EVENT_ERROR ≠ 0 ∧ source.error ≠ 0 then
        [(source.error, source.error_opaque)] else [])) ∧
    load_source (event_handle_source_prio callbacks event_source received_events s).1.heap
      event_source = source := by
  unfold event_handle_source_prio
  simp only
  rw [hsrc]
  by_cases hc : received_events &&& EVENT_PRIO ≠ 0 ∧ source.prio ≠ 0
  · rw [if_pos hc, if_pos hc, if_neg hst]
    have hi : load_source (invoke callbacks source.prio source.prio_opaque s).1.heap
        event_source = source := by
      unfold invoke
      simp only
      rw [hcb, hsrc]
    have := event_handle_source_error_calls callbacks event_source received_events _ source
      hi hcb hst
    refine ⟨?_, this.2⟩
    rw [this.1]
    unfold invoke
    simp only [List.append_assoc]
  · rw [if_neg hc, if_neg hc]
    have := event_handle_source_error_calls callbacks event_source received_events s source
      hsrc hcb hst
    refine ⟨?_, this.2⟩
    rw [this.1, List.nil_append]

theorem event_handle_source_write_calls (callbacks : Int → Int → Registry → Registry)
    (event_source : Int) (received_events : Nat) (s : Registry × List (Int × Int))
    (source : EventSource) (hsrc : load_source s.1.heap event_source = source)
    (hcb : ∀ (f o : Int) (x : Registry),
      load_source (callbacks f o x).heap event_source = load_source x.heap event_source)
    (hst : source.state ≠ EVENT_SOURCE_STATE_REMOVED) :
    (event_handle_source_write callbacks event_source received_events s).2 = s.2 ++
      ((if received_events &&& EVENT_WRITE ≠ 0 ∧ source.write ≠ 0 then
        [(source.write, source.write_opaque)] else []) ++
      ((if received_events &&& EVENT_PRIO ≠ 0 ∧ source.prio ≠ 0 then
        [(source.prio, source.prio_opaque)] else []) ++
      (if received_events &&& EVENT_ERROR ≠ 0 ∧ source.error ≠ 0 then
        [(source.error, source.error_opaque)] else []))) ∧
    load_source (event_handle_source_write callbacks event_source received_events s).1.heap
      event_source = source := by
  unfold event_handle_source_write
  simp only
  rw [hsrc]
  by_cases hc : received_events &&& EVENT_WRITE ≠ 0 ∧ source.write ≠ 0
  · rw [if_pos hc, if_pos hc, if_neg hst]
    have hi : load_source (invoke callbacks source.write source.write_opaque s).1.heap
        event_source = source := by
      unfold invoke
      simp only
      rw [hcb, hsrc]
    have := event_handle_source_prio_calls callbacks event_source received_events _ source
      hi hcb hst
    refine ⟨?_, this.2⟩
    rw [this.1]
    unfold invoke
    simp only [List.append_assoc]
  · rw [if_neg hc, if_neg hc]
    have := event_handle_source_prio_calls callbacks event_source received_events s source
      hsrc hcb hst
    refine ⟨?_, this.2⟩
    rw [this.1, List.nil_append]

theorem invoke_states (callbacks : Int → Int → Registry → Registry) (r0 : Registry)
    (event_source : Int) (function opaque_ptr : Int) (s : Registry × List (Int × Int))
    (hs : s.1 = run_callbacks callbacks r0 s.2 ∧ ∀ (k : Nat), k < s.2.length →
      (load_source (run_callbacks callbacks r0 (s.2.take k)).heap event_source).state ≠
        EVENT_SOURCE_STATE_REMOVED)
    (hst : (load_source s.1.heap event_source).state ≠ EVENT_SOURCE_STATE_REMOVED) :
    (invoke callbacks function opaque_ptr s).1 =
        run_callbacks callbacks r0 (invoke callbacks function opaque_ptr s).2 ∧
      ∀ (k : Nat), k < (invoke callbacks function opaque_ptr s).2.length →
        (load_source (run_callbacks callbacks r0
          ((invoke callbacks function opaque_ptr s).2.take k)).heap event_source).state ≠
          EVENT_SOURCE_STATE_REMOVED := by
  obtain ⟨h1, h2⟩ := hs
  unfold invoke
  simp only
  constructor
  · unfold run_callbacks
    rw [List.foldl_append]
    simp only [List.foldl_cons, List.foldl_nil]
    rw [h1]
    rfl
  · intro k hk
    rw [List.length_append, List.length_singleton] at hk
    rcases Nat.lt_or_ge k s.2.length with hlt | hge
    · rw [List.take_append_of_le_length (by omega)]
      exact h2 k hlt
    · have hk' : k = s.2.length := by omega
      rw [hk', List.take_left, ← h1]
      exact hst

theorem event_handle_source_error_states (callbacks : Int → Int → Registry → Registry)
    (r0 : Registry) (event_source : Int) (received_events : Nat)
    (s : Registry × List (Int × Int))
    (hs : s.1 = run_callbacks callbacks r0 s.2 ∧ ∀ (k : Nat), k < s.2.length →
      (load_source (run_callbacks callbacks r0 (s.2.take k)).heap event_source).state ≠
        EVENT_SOURCE_STATE_REMOVED) :
    (event_handle_source_error callbacks event_source received_events s).1 =
        run_callbacks callbacks r0
          (event_handle_source_error callbacks event_source received_events s).2 ∧
      ∀ (k : Nat),
        k < (event_handle_source_error callbacks event_source received_events s).2.length →
        (load_source (run_callbacks callbacks r0
          ((event_handle_source_error callbacks event_source received_events s).2.take
            k)).heap event_source).state ≠ EVENT_SOURCE_STATE_REMOVED := by
  unfold event_handle_source_error
  simp only
  split
  · split
    · exact hs
    · rename_i hst
      exact invoke_states callbacks r0 event_source _ _ s hs hst
  · exact hs

theorem event_handle_source_prio_states (callbacks : Int → Int → Registry → Registry)
    (r0 : Registry) (event_source : Int) (received_events : Nat)
    (s : Registry × List (Int × Int))
    (hs : s.1 = run_callbacks callbacks r0 s.2 ∧ ∀ (k : Nat), k < s.2.length →
      (load_source (run_callbacks callbacks r0 (s.2.take k)).heap event_source).state ≠
        EVENT_SOURCE_STATE_REMOVED) :
    (event_handle_source_prio callbacks event_source received_events s).1 =
        run_callbacks callbacks r0
          (event_handle_source_prio callbacks event_source received_events s).2 ∧
      ∀ (k : Nat),
        k < (event_handle_source_prio callbacks event_source received_events s).2.length →
        (load_source (run_callbacks callbacks r0
          ((event_handle_source_prio callbacks event_source received_events s).2.take
            k)).heap event_source).state ≠ EVENT_SOURCE_STATE_REMOVED := by
  unfold event_handle_source_prio
  simp only
  split
  · split
    · exact hs
    · rename_i hst
      exact event_handle_source_error_states callbacks r0 event_source received_events _
        (invoke_states callbacks r0 event_source _ _ s hs hst)
  · exact event_handle_source_error_states callbacks r0 event_source received_events s hs

theorem event_handle_source_write_states (callbacks : Int → Int → Registry → Registry)
    (r0 : Registry) (event_source : Int) (received_events : Nat)
    (s : Registry × List (Int × Int))
    (hs : s.1 = run_callbacks callbacks r0 s.2 ∧ ∀ (k : Nat), k < s.2.length →
      (load_source (run_callbacks callbacks r0 (s.2.take k)).heap event_source).state ≠
        EVENT_SOURCE_STATE_REMOVED) :
    (event_handle_source_write callbacks event_source received_events s).1 =
        run_callbacks callbacks r0
          (event_handle_source_write callbacks event_source received_events s).2 ∧
      ∀ (k : Nat),
        k < (event_handle_source_write callbacks event_source received_events s).2.length →
        (load_source (run_callbacks callbacks r0
          ((event_handle_source_write callbacks event_source received_events s).2.take
            k)).heap event_source).state ≠ EVENT_SOURCE_STATE_REMOVED := by
  unfold event_handle_source_write
  simp only
  split
  · split
    · exact hs
    · rename_i hst
      exact event_handle_source_prio_states callbacks r0 event_source received_events _
        (invoke_states callbacks r0 event_source _ _ s hs hst)
  · exact event_handle_source_prio_states callbacks r0 event_source received_events s hs

/-- The state of the source when each callback of a pass of `event_handle_source` is
invoked: the registry then is the one after the callbacks invoked before, and the
source is not in state `Removed`. -/
theorem event_handle_source_states (callbacks : Int → Int → Registry → Registry)
    (r : Registry) (event_source : Int) (received_events : Nat) :
    (event_handle_source callbacks r event_source received_events).1 =
        run_callbacks callbacks r
          (event_handle_source callbacks r event_source received_events).2 ∧
      ∀ (k : Nat),
        k < (event_handle_source callbacks r event_source received_events).2.length →
        (load_source (run_callbacks callbacks r
          ((event_handle_source callbacks r event_source received_events).2.take
            k)).heap event_source).state ≠ EVENT_SOURCE_STATE_REMOVED := by
  have h0 : (r, ([] : List (Int × Int))).1 = run_callbacks callbacks r (r, []).2 ∧
      ∀ (k : Nat), k < (r, ([] : List (Int × Int))).2.length →
        (load_source (run_callbacks callbacks r
          ((r, ([] : List (Int × Int))).2.take k)).heap event_source).state ≠
          EVENT_SOURCE_STATE_REMOVED :=
    ⟨rfl, fun k hk => absurd hk (by simp)⟩
  unfold event_handle_source
  simp only
  split
  · exact h0
  · rename_i hn
    have hst : (load_source (r, ([] : List (Int × Int))).1.heap event_source).state ≠
        EVENT_SOURCE_STATE_REMOVED := by
      simp only
      rw [not_not.mp hn]
      decide
    split
    · split
      · exact invoke_states callbacks r event_source _ _ _ h0 hst
      · exact h0
    · split
      · split
        · exact invoke_states callbacks r event_source _ _ _ h0 hst
        · exact h0
      · split
        · exact event_handle_source_write_states callbacks r event_source received_events _
            (invoke_states callbacks r event_source _ _ _ h0 hst)
        · exact event_handle_source_write_states callbacks r event_source received_events _
            h0

theorem event_handle_source_stage_removed (callbacks : Int → Int → Registry → Registry)
    (event_source : Int) (received_events : Nat) (s : Registry × List (Int × Int))
    (hrm : (load_source s.1.heap event_source).state = EVENT_SOURCE_STATE_REMOVED) :
    event_handle_source_write callbacks event_source received_events s = s ∧
    event_handle_source_prio callbacks event_source received_events s = s ∧
    event_handle_source_error callbacks event_source received_events s = s := by
  have he : event_handle_source_error callbacks event_source received_events s = s := by
    unfold event_handle_source_error
    simp only
    rw [if_pos hrm]
    split <;> rfl
  have hp : event_handle_source_prio callbacks event_source received_events s = s := by
    unfold event_handle_source_prio
    simp only
    rw [if_pos hrm, he]
    split <;> rfl
  refine ⟨?_, hp, he⟩
  unfold event_handle_source_write
  simp only
  rw [if_pos hrm, hp]
  split <;> rfl

theorem state_removed_eta (s : EventSource) (h : s.state = EVENT_SOURCE_STATE_REMOVED) :
    { s with state := EVENT_SOURCE_STATE_REMOVED } = s := by
  cases s
  simp only at h
  subst h
  rfl

/-- The function `event_remove_source` on the identity of the source at index `j`: that
source is in state `Removed` afterwards, nothing else changes. -/
theorem event_remove_source_at (r : Registry) (hv : r.Valid)
    (hu : ((sources r).map EventSource.identity).Nodup) (j : Nat) (s0 : EventSource)
    (hj : (sources r)[j]? = some s0) :
    sources (event_remove_source r s0.handle s0.type) =
      (sources r).set j { s0 with state := EVENT_SOURCE_STATE_REMOVED } := by
  rcases (event_remove_source_spec r hv s0.handle s0.type).2 with
    ⟨j', s', hj', hh, ht, _, hc⟩ | ⟨hno, _⟩
  · obtain ⟨hjj, hss⟩ := unique_source (sources r) hu j' j s' s0 hj' hj hh ht
    subst hjj hss
    rcases hc with ⟨_, hc, _⟩ | ⟨hst, hc⟩
    · exact hc
    · rw [hc, state_removed_eta s' hst]
      exact (set_getElem?_self _ _ _ hj).symm
  · exact absurd ⟨rfl, rfl⟩ (hno s0 (List.getElem?_mem hj))

/-- After `event_remove_source` every source with the identity is in state `Removed`. -/
theorem event_remove_source_removed (r : Registry) (hv : r.Valid)
    (hu : ((sources r).map EventSource.identity).Nodup) (handle type : Int) :
    ∀ t ∈ sources (event_remove_source r handle type), t.handle = handle → t.type = type →
      t.state = EVENT_SOURCE_STATE_REMOVED := by
  intro t ht hh hty
  have hu1 := (apply_identities r (.remove handle type) hv hu).2
  simp only [RegistryCall.apply] at hu1
  rcases (event_remove_source_spec r hv handle type).2 with
    ⟨j, s, hj, hsh, hst, _, hc⟩ | ⟨hno, he⟩
  · obtain ⟨i, hi⟩ := List.getElem?_of_mem ht
    rcases hc with ⟨_, hc, _⟩ | ⟨hrm, hc⟩
    · have hjl : j < (sources r).length := by
        rcases Nat.lt_or_ge j (sources r).length with h | h
        · exact h
        · rw [List.getElem?_eq_none h] at hj; simp at hj
      have hj1 : (sources (event_remove_source r handle type))[j]? =
          some { s with state := EVENT_SOURCE_STATE_REMOVED } := by
        rw [hc, List.getElem?_set_self hjl]
      have := unique_source _ hu1 i j t _ hi hj1 (by rw [hh]; exact hsh.symm)
        (by rw [hty]; exact hst.symm)
      rw [this.2]
    · rw [hc] at hi
      have := unique_source _ hu i j t s hi hj (by rw [hh, hsh]) (by rw [hty, hst])
      rw [this.2]; exact hrm
  · rw [he] at ht
    exact absurd ⟨hh, hty⟩ (hno t ht)

/-- A successful `event_add_source` leaves a source with the identity that is in state
`Added` or `Readded`. -/
theorem event_add_source_after_remove (r : Registry) (hv : r.Valid)
    (hu : ((sources r).map EventSource.identity).Nodup) (handle type : Int) (events : Nat)
    (function opaque_ptr : Int) (fill : Nat → Int) (hook : Int) (hhook : 0 ≤ hook) :
    (event_add_source (event_remove_source r handle type) handle type events function
      opaque_ptr (some fill) true hook).1 = 0 ∧
    ∃ s ∈ sources (event_add_source (event_remove_source r handle type) handle type events
        function opaque_ptr (some fill) true hook).2,
      s.handle = handle ∧ s.type = type ∧ s.state ≠ EVENT_SOURCE_STATE_REMOVED := by
  have h1 := apply_identities r (.remove handle type) hv hu
  simp only [RegistryCall.apply] at h1
  obtain ⟨hv1, hu1⟩ := h1
  have hrm := event_remove_source_removed r hv hu handle type
  rcases (event_add_source_spec (event_remove_source r handle type) hv1 handle type events
    function opaque_ptr (some fill) true hook).2 with
    ⟨j, s, hj, hsh, hst, _, hc⟩ | ⟨hno, hc⟩
  · have hjl : j < (sources (event_remove_source r handle type)).length := by
      rcases Nat.lt_or_ge j (sources (event_remove_source r handle type)).length with h | h
      · exact h
      · rw [List.getElem?_eq_none h] at hj; simp at hj
    rcases hc with ⟨_, _, hrc, hc⟩ | ⟨_, hneg, _⟩ | ⟨hnr, _⟩
    · refine ⟨hrc, set_functions
          { s with events := events, state := EVENT_SOURCE_STATE_READDED } events function
          opaque_ptr, ?_, ?_⟩
      · rw [hc]
        exact List.getElem?_mem (List.getElem?_set_self hjl)
      · have hi := set_functions_identity
          { s with events := events, state := EVENT_SOURCE_STATE_READDED } events function
          opaque_ptr
        refine ⟨by rw [hi.1]; exact hsh, by rw [hi.2.1]; exact hst, ?_⟩
        rw [hi.2.2.2]
        simp only
        intro hc'
        revert hc'
        decide
    · omega
    · exact absurd (hrm s (List.getElem?_mem hj) hsh hst) hnr
  · rcases hc with ⟨hf, _⟩ | ⟨_, _, hrc, hc⟩
    · rcases hf with hf | hf
      · have := array_append_isSome (event_remove_source r handle type).event_sources
          (event_remove_source r handle type).heap fill
        rw [hf] at this
        simp at this
      · omega
    · refine ⟨hrc, set_functions
          { handle := handle, type := type, events := events,
            state := EVENT_SOURCE_STATE_ADDED, read := 0, read_opaque := 0, write := 0,
            write_opaque := 0, prio := 0, prio_opaque := 0, error := 0,
            error_opaque := 0 } events function opaque_ptr, ?_, ?_⟩
      · rw [hc]
        exact List.mem_append_right _ (List.mem_singleton.mpr rfl)
      · have hi := set_functions_identity
          { handle := handle, type := type, events := events,
            state := EVENT_SOURCE_STATE_ADDED, read := 0, read_opaque := 0, write := 0,
            write_opaque := 0, prio := 0, prio_opaque := 0, error := 0,
            error_opaque := 0 } events function opaque_ptr
        refine ⟨by rw [hi.1], by rw [hi.2.1], ?_⟩
        rw [hi.2.2.2]
        simp only
        intro hc'
        revert hc'
        decide

theorem set_pointwise (l : List EventSource) (j : Nat) (s x : EventSource)
    (hj : l[j]? = some s) (R : EventSource → EventSource → Prop) (hrefl : ∀ t, R t t)
    (hsx : R s x) :
    (l.set j x).length = l.length ∧
    ∀ (i : Nat) (t : EventSource), l[i]? = some t → ∃ t', (l.set j x)[i]? = some t' ∧ R t t' := by
  refine ⟨List.length_set _ _ _, ?_⟩
  intro i t hi
  have hjl : j < l.length := by
    rcases Nat.lt_or_ge j l.length with h | h
    · exact h
    · rw [List.getElem?_eq_none h] at hj; simp at hj
  by_cases hij : i = j
  · subst hij
    rw [hi] at hj
    simp only [Option.some.injEq] at hj
    subst hj
    exact ⟨x, List.getElem?_set_self hjl, hsx⟩
  · refine ⟨t, ?_, hrefl t⟩
    rw [List.getElem?_set_ne (fun h => hij h.symm)]
    exact hi

theorem same_pointwise (l l' : List EventSource) (h : l' = l)
    (R : EventSource → EventSource → Prop) (hrefl : ∀ t, R t t) :
    l'.length = l.length ∧
    ∀ (i : Nat) (t : EventSource), l[i]? = some t → ∃ t', l'[i]? = some t' ∧ R t t' := by
  subst h
  exact ⟨rfl, fun i t hi => ⟨t, hi, hrefl t⟩⟩

theorem event_add_source_flags (r : Registry) (handle type : Int) (events : Nat)
    (function opaque_ptr : Int) (env : Option (Nat → Int)) (ok : Bool) (hook : Int) :
    (event_add_source r handle type events function opaque_ptr env ok hook).2.running =
      r.running ∧
    (event_add_source r handle type events function opaque_ptr env ok hook).2.stop_requested =
      r.stop_requested := by
  unfold event_add_source
  split
  · rename_i result hloop
    obtain ⟨j, _, _, hbody, _⟩ := for_up_some _ _ _ _ _ hloop
    simp only at hbody
    split at hbody
    · simp only [Option.some.injEq] at hbody
      subst hbody
      unfold event_add_source_found
      simp only
      split
      · split <;> exact ⟨rfl, rfl⟩
      · exact ⟨rfl, rfl⟩
    · simp at hbody
  · split
    · exact ⟨rfl, rfl⟩
    · simp only
      split <;> exact ⟨rfl, rfl⟩

theorem event_modify_source_flags (r : Registry) (handle type : Int)
    (events_to_remove events_to_add : Nat) (function opaque_ptr : Int) (hook : Int) :
    (event_modify_source r handle type events_to_remove events_to_add function opaque_ptr
      hook).2.running = r.running ∧
    (event_modify_source r handle type events_to_remove events_to_add function opaque_ptr
      hook).2.stop_requested = r.stop_requested := by
  unfold event_modify_source
  split
  · rename_i result hloop
    obtain ⟨j, _, _, hbody, _⟩ := for_up_some _ _ _ _ _ hloop
    simp only at hbody
    split at hbody
    · simp only [Option.some.injEq] at hbody
      subst hbody
      unfold event_modify_source_found
      simp only
      split
      · exact ⟨rfl, rfl⟩
      · split <;> exact ⟨rfl, rfl⟩
    · simp at hbody
  · exact ⟨rfl, rfl⟩

theorem event_remove_source_flags (r : Registry) (handle type : Int) :
    (event_remove_source r handle type).running = r.running ∧
    (event_remove_source r handle type).stop_requested = r.stop_requested := by
  unfold event_remove_source
  split
  · rename_i result hloop
    obtain ⟨j, _, _, hbody, _⟩ := for_down_some _ _ _ _ hloop
    simp only at hbody
    split at hbody
    · simp only [Option.some.injEq] at hbody
      subst hbody
      unfold event_remove_source_found
      simp only
      split <;> exact ⟨rfl, rfl⟩
    · simp at hbody
  · exact ⟨rfl, rfl⟩

theorem event_cleanup_sources_loop_flags (n : Nat) :
    ∀ (i : Int) (r : Registry),
      (event_cleanup_sources_loop n i r).running = r.running ∧
      (event_cleanup_sources_loop n i r).stop_requested = r.stop_requested := by
  induction n with
  | zero => intro i r; exact ⟨rfl, rfl⟩
  | succ n ih =>
    intro i r
    unfold event_cleanup_sources_loop
    split
    · simp only
      split
      · exact ih _ _
      · exact ih _ _
    · exact ⟨rfl, rfl⟩

theorem apply_flags (r : Registry) (call : RegistryCall) :
    (call.apply r).running = r.running ∧ (call.apply r).stop_requested = r.stop_requested := by
  cases call with
  | add handle type events function opaque_ptr env ok hook =>
    exact event_add_source_flags r handle type events function opaque_ptr env ok hook
  | modify handle type events_to_remove events_to_add function opaque_ptr hook =>
    exact event_modify_source_flags r handle type events_to_remove events_to_add function
      opaque_ptr hook
  | remove handle type => exact event_remove_source_flags r handle type
  | cleanup => exact event_cleanup_sources_loop_flags _ _ r

theorem run_calls_flags (calls : List RegistryCall) :
    ∀ (r : Registry), (run_calls r calls).running = r.running ∧
      (run_calls r calls).stop_requested = r.stop_requested := by
  induction calls with
  | nil => intro r; exact ⟨rfl, rfl⟩
  | cons call calls ih =>
    intro r
    have h1 := ih (call.apply r)
    have h2 := apply_flags r call
    simp only [run_calls]
    exact ⟨h1.1.trans h2.1, h1.2.trans h2.2⟩

theorem event_init_flags (r : Registry) (ok : Bool) (init_platform : Int) :
    (event_init r ok init_platform).2.running = r.running ∧
    (event_init r ok init_platform).2.stop_requested = r.stop_requested := by
  unfold event_init
  simp only
  split_ifs <;> exact ⟨rfl, rfl⟩

theorem socket_call_failure (call : Native) (errno : Int)
    (h : (socket_call call errno).1 = -1) :
    (socket_call call errno).2 = ERRNO_WINAPI_OFFSET + call.last_error := by
  unfold socket_call at h ⊢
  split
  · rfl
  · rename_i hne
    rw [if_neg hne] at h
    exact absurd h hne

theorem socket_prepare_failure (family : Int) (setsockopt ioctlsocket : Native) (errno : Int)
    (h : (socket_prepare family setsockopt ioctlsocket errno).1 < 0) :
    (socket_prepare family setsockopt ioctlsocket errno).2 =
        ERRNO_WINAPI_OFFSET + setsockopt.last_error ∨
      (socket_prepare family setsockopt ioctlsocket errno).2 =
        ERRNO_WINAPI_OFFSET + ioctlsocket.last_error := by
  unfold socket_prepare at h ⊢
  split
  · left; rfl
  · rename_i h1
    rw [if_neg h1] at h
    split
    · right; rfl
    · rename_i h2
      rw [if_neg h2] at h
      simp at h

theorem and_or_ne_zero_iff (x a b : Nat) :
    x &&& (a ||| b) ≠ 0 ↔ x &&& a ≠ 0 ∨ x &&& b ≠ 0 := by
  rw [Nat.and_or_distrib_left]
  constructor
  · intro h
    by_contra hc
    push_neg at hc
    rw [hc.1, hc.2] at h
    exact h rfl
  · intro h hc
    have hz : ∀ (u v : Nat), u ||| v = 0 → u = 0 ∧ v = 0 := by
      intro u v huv
      constructor <;>
      · apply Nat.eq_of_testBit_eq
        intro i
        have := congrArg (fun n => n.testBit i) huv
        simp only [Nat.testBit_or, Nat.zero_testBit] at this ⊢
        cases hu : u.testBit i <;> cases hv : v.testBit i <;> simp [hu, hv] at this ⊢
    have := hz _ _ hc
    rcases h with h | h
    · exact h this.1
    · exact h this.2

/-! ## The claims about the Array -/

/-- C2: a successful `array_create` with a reserve that is not negative yields
`count = 0`, the given item size and relocatable flag, a buffer of `allocated`
slots filled with zeros, and `allocated` equal to the least positive multiple of 16
that is at least the reserve; `array_create(1, 24, true)` gives `allocated = 16`. -/
theorem array_create_success (reserve size : Int) (relocatable ok : Bool) (h0 : 0 ≤ reserve)
    (hs : (array_create reserve size relocatable ok).1 = 0) :
    (array_create reserve size relocatable ok).2.count = 0 ∧
    (array_create reserve size relocatable ok).2.size = size ∧
    (array_create reserve size relocatable ok).2.relocatable = relocatable ∧
    (array_create reserve size relocatable ok).2.bytes =
      List.replicate ((array_create reserve size relocatable ok).2.allocated *
        (array_create reserve size relocatable ok).2.slot).toNat 0 ∧
    (16 ∣ (array_create reserve size relocatable ok).2.allocated ∧
      0 < (array_create reserve size relocatable ok).2.allocated ∧
      reserve ≤ (array_create reserve size relocatable ok).2.allocated ∧
      ∀ m : Int, 0 < m → 16 ∣ m → reserve ≤ m →
        (array_create reserve size relocatable ok).2.allocated ≤ m) ∧
    (array_create 1 24 true true).2.allocated = 16 := by
  rw [array_create_eq] at hs ⊢
  cases ok
  · simp at hs
  · have hg := GROW_ALLOCATION_nonneg reserve h0
    simp only [if_true, Array.slot, true_and]
    refine ⟨⟨hg.1, hg.2.2.1, hg.2.1, ?_⟩, by decide⟩
    intro m hm hd hr
    rcases lt_or_ge reserve 1 with hlt | hge
    · have : reserve = 0 := by omega
      subst this
      rw [GROW_ALLOCATION_zero]
      omega
    · have := GROW_ALLOCATION_pos reserve hge
      omega

theorem array_create_success_witness :
    (0 : Int) ≤ 1 ∧ (array_create 1 24 true true).1 = 0 ∧
    (array_create 1 24 true true).2.count = 0 ∧
    (array_create 1 24 true true).2.allocated = 16 :=
  ⟨by decide, by decide,
    (array_create_success 1 24 true true (by decide) (by decide)).1,
    (array_create_success 1 24 true true (by decide) (by decide)).2.2.2.2.2⟩

/-- C3: on a well-formed Array, a successful `array_reserve(minCount)` with
`minCount >= 1` changes nothing when `allocated >= minCount` and otherwise sets
`allocated` to the least multiple of 16 that is at least `minCount`; in both cases
`allocated` does not decrease, `allocated >= minCount` afterwards, and `count` and
the items (and item pointers) at the indices in `[0, count)` are unchanged. -/
theorem array_reserve_success (a : Array) (n : Int) (env : Option (Nat → Int)) (hw : a.WF)
    (hn : 1 ≤ n) (hs : (array_reserve a n env).1 = 0) :
    (a.allocated ≥ n → (array_reserve a n env).2 = a) ∧
    (a.allocated < n →
      16 ∣ (array_reserve a n env).2.allocated ∧ n ≤ (array_reserve a n env).2.allocated ∧
      ∀ m : Int, 16 ∣ m → n ≤ m → (array_reserve a n env).2.allocated ≤ m) ∧
    a.allocated ≤ (array_reserve a n env).2.allocated ∧
    n ≤ (array_reserve a n env).2.allocated ∧
    (array_reserve a n env).2.count = a.count ∧
    ∀ (heap : Heap) (i : Int), 0 ≤ i → i < a.count →
      item (array_reserve a n env).2 heap i = item a heap i ∧
      array_get (array_reserve a n env).2 i = array_get a i := by
  have hal := array_reserve_allocated a n env ⟨hw.count_nonneg, hw.count_le⟩
  refine ⟨?_, ?_, hal.1, hal.2 hs, (array_reserve_fields a n env).1,
    fun heap i hi0 hi => array_reserve_item a n env hw heap i hi0 hi⟩
  · intro hge
    rcases array_reserve_cases a n env with h | h | h
    · rw [h.2]
    · omega
    · omega
  · intro hlt
    rcases array_reserve_cases a n env with h | h | h
    · omega
    · rw [h.2.2] at hs; simp at hs
    · obtain ⟨_, fill, _, h⟩ := h
      rw [h]
      have hg := GROW_ALLOCATION_pos n hn
      refine ⟨hg.1, hg.2.1, ?_⟩
      intro m hm hnm
      simp only
      omega

theorem array_reserve_success_witness :
    (array_create 1 2 true true).2.WF ∧ (1 : Int) ≤ 17 ∧
    (array_reserve (array_create 1 2 true true).2 17 (some fun _ => 7)).1 = 0 ∧
    (array_reserve (array_create 1 2 true true).2 17 (some fun _ => 7)).2.count =
      (array_create 1 2 true true).2.count :=
  ⟨array_create_wf 1 2 true true (by decide) (by decide), by decide, by decide,
    (array_reserve_success (array_create 1 2 true true).2 17 (some fun _ => 7)
      (array_create_wf 1 2 true true (by decide) (by decide)) (by decide)
      (by decide)).2.2.2.2.1⟩

/-- C4: when an allocation fails the Array is not corrupted.  A failed
`array_reserve` returns the Array as it was.  An `array_append` returns no item
exactly when its reserve fails or, for a non-relocatable Array, the allocation of
the item block fails; it then leaves the count, the heap and every item (and item
pointer) at the indices in `[0, count)` as before, and the Array stays valid. -/
theorem allocation_failure_keeps_array (a : Array) (h : Heap) (n : Int)
    (env : Option (Nat → Int)) (ok : Bool) (hv : Valid a h) :
    ((array_reserve a n env).1 < 0 → (array_reserve a n env).2 = a) ∧
    ((array_append a h env ok).1 = none ↔
      ((array_reserve a (a.count + 1) env).1 < 0 ∨ (a.relocatable = false ∧ ok = false))) ∧
    ((array_append a h env ok).1 = none →
      (array_append a h env ok).2.1.count = a.count ∧
      (array_append a h env ok).2.2 = h ∧
      (∀ i, 0 ≤ i → i < a.count →
        item (array_append a h env ok).2.1 (array_append a h env ok).2.2 i = item a h i ∧
        array_get (array_append a h env ok).2.1 i = array_get a i) ∧
      Valid (array_append a h env ok).2.1 (array_append a h env ok).2.2) := by
  refine ⟨?_, ?_, ?_⟩
  · intro hlt
    rcases array_reserve_rc a n env with h0 | h1
    · omega
    · exact h1.2
  · rcases array_append_cases a h env ok with hc | hc | hc | hc
    · rw [hc.2, hc.1]; simp
    · rw [hc.2.2, hc.1, hc.2.1]; simp
    · rw [hc.2.2.2, hc.1, hc.2.1, hc.2.2.1]; simp
    · rw [hc.2.2.2, hc.1, hc.2.2.1]; simp
  · intro hnone
    have hr : array_append a h env ok =
        (none, (array_append a h env ok).2.1, (array_append a h env ok).2.2) := by
      rw [← hnone]
    have := array_append_none a h env ok _ _ hv hr
    exact ⟨this.1, this.2.2.2.2.1, this.2.2.2.2.2.1, this.2.2.2.2.2.2⟩

theorem allocation_failure_keeps_array_witness :
    Valid (array_create 1 2 false true).2 Heap.empty ∧
    (array_append (array_create 1 2 false true).2 Heap.empty none false).1 = none ∧
    (array_append (array_create 1 2 false true).2 Heap.empty none false).2.1.count = 0 :=
  ⟨array_create_valid 1 2 false true (by decide) (by decide) Heap.empty heap_empty_fresh,
    by decide,
    ((allocation_failure_keeps_array (array_create 1 2 false true).2 Heap.empty 1 none false
      (array_create_valid 1 2 false true (by decide) (by decide) Heap.empty
        heap_empty_fresh)).2.2 (by decide)).1⟩

/-- C5: on a valid Array of either storage mode, a successful `array_append`
increases `count` by exactly one, returns the item at the new last index, that item
consists of `size` zero cells, and every item at an index below the old count is
unchanged. -/
theorem array_append_success (a : Array) (h : Heap) (env : Option (Nat → Int)) (ok : Bool)
    (p : Int) (a' : Array) (h' : Heap) (hv : Valid a h)
    (hr : array_append a h env ok = (some p, a', h')) :
    a'.count = a.count + 1 ∧
    array_get a' (a'.count - 1) = p ∧
    deref a' h' p = some (List.replicate a.size.toNat 0) ∧
    item a' h' (a'.count - 1) = some (List.replicate a.size.toNat 0) ∧
    ∀ i, 0 ≤ i → i < a.count → item a' h' i = item a h i := by
  have hs := array_append_some a h env ok p a' h' hv hr
  have hg : array_get a' (a'.count - 1) = p := by
    rw [hs.1, add_sub_cancel_right]; exact hs.2.2.2.2.1
  refine ⟨hs.1, hg, hs.2.2.2.2.2.1, ?_, fun i hi0 hi => (hs.2.2.2.2.2.2.1 i hi0 hi).1⟩
  unfold item
  rw [hg]
  exact hs.2.2.2.2.2.1

theorem array_append_success_witness :
    Valid (array_create 1 2 false true).2 Heap.empty ∧
    array_append (array_create 1 2 false true).2 Heap.empty none true =
      (some 1, (array_append (array_create 1 2 false true).2 Heap.empty none true).2.1,
        (array_append (array_create 1 2 false true).2 Heap.empty none true).2.2) ∧
    (array_append (array_create 1 2 false true).2 Heap.empty none true).2.1.count =
      (array_create 1 2 false true).2.count + 1 :=
  ⟨array_create_valid 1 2 false true (by decide) (by decide) Heap.empty heap_empty_fresh,
    rfl,
    (array_append_success (array_create 1 2 false true).2 Heap.empty none true 1
      (array_append (array_create 1 2 false true).2 Heap.empty none true).2.1
      (array_append (array_create 1 2 false true).2 Heap.empty none true).2.2
      (array_create_valid 1 2 false true (by decide) (by decide) Heap.empty heap_empty_fresh)
      rfl).1⟩

/-- C6: on a well-formed Array with `count > 0`, `array_remove(i, destroy)` with
`i` in `[0, count)` decreases `count` by exactly one, leaves `allocated` unchanged,
invokes the destructor, when there is one, exactly once and on the item at index
`i`, and leaves the vacated final slot of the buffer, the slot at the old index
`count - 1`, filled with zeros. -/
theorem array_remove_spec (a : Array) (h : Heap) (i : Int) (destroy : Bool) (hw : a.WF)
    (hc : 0 < a.count) (hi0 : 0 ≤ i) (hi : i < a.count) :
    (array_remove a h i destroy).1.count = a.count - 1 ∧
    (array_remove a h i destroy).1.allocated = a.allocated ∧
    (array_remove a h i destroy).2.2 = (if destroy then [array_get a i] else []) ∧
    load (array_remove a h i destroy).1.bytes (a.slot * (a.count - 1)) a.slot =
      List.replicate a.slot.toNat 0 := by
  have hf := array_remove_fields a h i destroy
  refine ⟨hf.1, hf.2.1, hf.2.2.2.2.2, ?_⟩
  apply load_eq_replicate
  intro m hm
  exact array_remove_last a h i destroy hw hc m hm

theorem array_remove_spec_witness :
    (array_append (array_create 1 2 true true).2 Heap.empty none true).2.1.WF ∧
    (array_remove (array_append (array_create 1 2 true true).2 Heap.empty none true).2.1
      Heap.empty 0 true).2.2 = [0] ∧
    (array_remove (array_append (array_create 1 2 true true).2 Heap.empty none true).2.1
      Heap.empty 0 true).1.count = 0 :=
  ⟨(array_append_some (array_create 1 2 true true).2 Heap.empty none true 0
      (array_append (array_create 1 2 true true).2 Heap.empty none true).2.1
      (array_append (array_create 1 2 true true).2 Heap.empty none true).2.2
      (array_create_valid 1 2 true true (by decide) (by decide) Heap.empty heap_empty_fresh)
      rfl).2.2.2.2.2.2.2.2.2.wf,
    by decide,
    (array_remove_spec (array_append (array_create 1 2 true true).2 Heap.empty none true).2.1
      Heap.empty 0 true
      (array_append_some (array_create 1 2 true true).2 Heap.empty none true 0
        (array_append (array_create 1 2 true true).2 Heap.empty none true).2.1
        (array_append (array_create 1 2 true true).2 Heap.empty none true).2.2
        (array_create_valid 1 2 true true (by decide) (by decide) Heap.empty heap_empty_fresh)
        rfl).2.2.2.2.2.2.2.2.2.wf
      (by decide) (by decide) (by decide)).1⟩

/-- C7: the predicate `0 <= count <= allocated` holds after `array_create` with a
reserve that is not negative, and is preserved by `array_reserve`, `array_append`,
`array_remove` (index in range, `count > 0`) and `array_resize` (new count not
negative), whether the call succeeds or fails. -/
theorem count_in_bounds_invariant :
    (∀ (reserve size : Int) (relocatable ok : Bool), 0 ≤ reserve →
      count_in_bounds (array_create reserve size relocatable ok).2) ∧
    (∀ (a : Array) (n : Int) (env : Option (Nat → Int)), count_in_bounds a →
      count_in_bounds (array_reserve a n env).2) ∧
    (∀ (a : Array) (h : Heap) (env : Option (Nat → Int)) (ok : Bool), count_in_bounds a →
      count_in_bounds (array_append a h env ok).2.1) ∧
    (∀ (a : Array) (h : Heap) (i : Int) (destroy : Bool), count_in_bounds a →
      0 < a.count → 0 ≤ i → i < a.count →
      count_in_bounds (array_remove a h i destroy).1) ∧
    (∀ (a : Array) (h : Heap) (n : Int) (destroy : Bool) (env : Option (Nat → Int)),
      count_in_bounds a → 0 ≤ n → count_in_bounds (array_resize a h n destroy env).2.1) := by
  refine ⟨?_, ?_, ?_, ?_, ?_⟩
  · intro reserve size relocatable ok h0
    rw [array_create_eq]
    have hg := GROW_ALLOCATION_nonneg reserve h0
    cases ok
    · exact ⟨le_refl _, le_refl _⟩
    · exact ⟨le_refl _, by simp only [if_true]; omega⟩
  · intro a n env hb
    have hal := array_reserve_allocated a n env hb
    have hf := array_reserve_fields a n env
    unfold count_in_bounds at hb ⊢
    rw [hf.1]
    omega
  · intro a h env ok hb
    have hal := array_reserve_allocated a (a.count + 1) env hb
    unfold count_in_bounds at hb ⊢
    rcases array_append_cases a h env ok with hc | hc | hc | hc
    · rw [hc.2]; exact hb
    · rw [hc.2.2]; have := hal.2 hc.1; simp only; omega
    · rw [hc.2.2.2]; simp only; omega
    · rw [hc.2.2.2]; have := hal.2 hc.1; simp only; omega
  · intro a h i destroy hb hc hi0 hi
    have hf := array_remove_fields a h i destroy
    unfold count_in_bounds at hb ⊢
    rw [hf.1, hf.2.1]
    omega
  · intro a h n destroy env hb hn
    have hal := array_reserve_allocated a n env hb
    unfold count_in_bounds at hb ⊢
    rcases array_resize_cases a h n destroy env with hc | hc | hc | hc | hc
    · rw [hc.2.2]; exact hb
    · rw [hc.2.2]; have := hal.2 hc.2.1; simp only; omega
    · rw [hc.2.2]; simp only; omega
    · rw [hc.2.2]; simp only; omega
    · rw [hc.2]; simp only; omega

theorem count_in_bounds_invariant_witness :
    count_in_bounds (array_create 1 24 true true).2 ∧
    count_in_bounds (array_resize (array_create 1 24 true true).2 Heap.empty 17 false none).2.1 :=
  ⟨count_in_bounds_invariant.1 1 24 true true (by decide),
    count_in_bounds_invariant.2.2.2.2 _ Heap.empty 17 false none
      (count_in_bounds_invariant.1 1 24 true true (by decide)) (by decide)⟩

/-- C9: on a valid Array, a successful `array_resize(newCount, destroy)` with
`newCount >= 0` leaves `count = newCount` and the items at the indices below both
the old count and `newCount` unchanged; when it shrinks and there is a destructor,
the destructor is invoked exactly once on each item with index in
`[newCount, old count)`, in ascending index order, and on no other item; otherwise
no destructor is invoked; the call fails only when it has to grow and the reserve
fails, and it then leaves the Array, the heap and so count and items unchanged. -/
theorem array_resize_spec (a : Array) (h : Heap) (n : Int) (destroy : Bool)
    (env : Option (Nat → Int)) (hv : Valid a h) (hn : 0 ≤ n) :
    ((array_resize a h n destroy env).1 = 0 →
      (array_resize a h n destroy env).2.1.count = n ∧
      (∀ i, 0 ≤ i → i < a.count → i < n →
        item (array_resize a h n destroy env).2.1 (array_resize a h n destroy env).2.2.1 i =
          item a h i) ∧
      (array_resize a h n destroy env).2.2.2 =
        if destroy = true ∧ n < a.count then
          (List.range (a.count - n).toNat).map (fun (k : Nat) => array_get a (n + (k : Int)))
        else []) ∧
    ((array_resize a h n destroy env).1 ≠ 0 ↔ (a.count < n ∧ (array_reserve a n env).1 < 0)) ∧
    ((array_resize a h n destroy env).1 ≠ 0 →
      (array_resize a h n destroy env).1 = -1 ∧
      (array_resize a h n destroy env).2.1 = a ∧
      (array_resize a h n destroy env).2.2.1 = h ∧
      (array_resize a h n destroy env).2.2.2 = []) := by
  have hw := hv.wf
  have hkeep : ∀ (h' : Heap), (∀ q, (∀ k, n ≤ k → k < a.count → array_get a k ≠ q) →
      h'.blocks q = h.blocks q) → ∀ i, 0 ≤ i → i < a.count → i < n →
      item { a with count := n } h' i = item a h i := by
    intro h' hb i hi0 hi hin
    rw [item_set_count]
    apply item_heap_congr
    intro hr
    apply hb
    intro k hk1 hk2
    exact (hv.distinct hr i k hi0 (by omega) hk2).symm
  rcases array_resize_cases a h n destroy env with hc | hc | hc | hc | hc
  · rw [hc.2.2]
    refine ⟨by simp, ?_, by simp⟩
    refine ⟨fun _ => ⟨hc.1, ?_⟩, fun _ => by simp⟩
    rw [hc.2.1]; decide
  · rw [hc.2.2]
    refine ⟨fun _ => ⟨rfl, ?_, ?_⟩, ?_, by simp⟩
    · intro i hi0 hi _
      simp only
      rw [item_set_count]
      exact (array_reserve_item a n env hw h i hi0 hi).1
    · simp only
      rw [if_neg (by omega)]
    · simp only [ne_eq, not_true_eq_false, false_iff, not_and, not_lt]
      intro _; rw [hc.2.1]
  · rw [hc.2.2]
    refine ⟨fun _ => ⟨rfl, ?_, ?_⟩, ?_, by simp⟩
    · simp only
      exact hkeep _ (fun q hq => (array_resize_destroy_blocks a _ n h [] q hq).1)
    · simp only
      rw [if_pos ⟨hc.2.1, hc.1⟩, array_resize_destroy_calls a _ n h [] rfl]
      simp
    · simp only [ne_eq, not_true_eq_false, false_iff, not_and, not_lt]
      intro hx; omega
  · rw [hc.2.2]
    refine ⟨fun _ => ⟨rfl, ?_, ?_⟩, ?_, by simp⟩
    · simp only
      apply hkeep
      intro q hq
      split
      · rfl
      · exact (array_resize_free_blocks a _ n h q hq).1
    · simp only
      rw [if_neg (by simp [hc.2.1])]
    · simp only [ne_eq, not_true_eq_false, false_iff, not_and, not_lt]
      intro hx; omega
  · rw [hc.2]
    refine ⟨fun _ => ⟨rfl, ?_, ?_⟩, ?_, by simp⟩
    · intro i hi0 hi _
      simp only
      rw [item_set_count]
    · simp only
      rw [if_neg (by omega)]
    · simp only [ne_eq, not_true_eq_false, false_iff, not_and, not_lt]
      intro hx; omega

theorem array_resize_spec_witness :
    Valid (array_append (array_create 1 2 false true).2 Heap.empty none true).2.1
      (array_append (array_create 1 2 false true).2 Heap.empty none true).2.2 ∧
    (0 : Int) ≤ 0 ∧
    (array_resize (array_append (array_create 1 2 false true).2 Heap.empty none true).2.1
      (array_append (array_create 1 2 false true).2 Heap.empty none true).2.2
      0 true none).2.2.2 = [1] ∧
    (array_resize (array_append (array_create 1 2 false true).2 Heap.empty none true).2.1
      (array_append (array_create 1 2 false true).2 Heap.empty none true).2.2
      0 true none).2.1.count = 0 :=
  ⟨(array_append_some (array_create 1 2 false true).2 Heap.empty none true 1
      (array_append (array_create 1 2 false true).2 Heap.empty none true).2.1
      (array_append (array_create 1 2 false true).2 Heap.empty none true).2.2
      (array_create_valid 1 2 false true (by decide) (by decide) Heap.empty heap_empty_fresh)
      rfl).2.2.2.2.2.2.2.2.2,
    by decide, by decide,
    ((array_resize_spec
      (array_append (array_create 1 2 false true).2 Heap.empty none true).2.1
      (array_append (array_create 1 2 false true).2 Heap.empty none true).2.2
      0 true none
      (array_append_some (array_create 1 2 false true).2 Heap.empty none true 1
        (array_append (array_create 1 2 false true).2 Heap.empty none true).2.1
        (array_append (array_create 1 2 false true).2 Heap.empty none true).2.2
        (array_create_valid 1 2 false true (by decide) (by decide) Heap.empty heap_empty_fresh)
        rfl).2.2.2.2.2.2.2.2.2
      (by decide)).1 (by decide)).1⟩

/-- C1: for every sequence of successful `array_append` calls (each followed by the
owner's write of the new item), in-range `array_remove` calls and `array_reserve`
calls on a freshly created Array of either storage mode, after every step `count`
is the number of surviving items and the item at index `i` in `[0, count)` is the
`i`-th surviving item in original insertion order. -/
theorem items_in_insertion_order (reserve size : Int) (relocatable : Bool) (heap : Heap)
    (ops : List ArrayOp) (a : Array) (h : Heap) (h0 : 0 ≤ reserve) (hs : 0 ≤ size)
    (hfresh : ∀ p, heap.next ≤ p → heap.blocks p = none)
    (hrun : run_ops ((array_create reserve size relocatable true).2, heap) ops = some (a, h)) :
    (a.count = ((surviving size [] ops).length : Int) ∧
      items a h = (surviving size [] ops).map some ∧
      ∀ i : Int, 0 ≤ i → i < a.count → item a h i = (surviving size [] ops)[i.toNat]?) ∧
    ∀ k : Nat, ∃ ak hk,
      run_ops ((array_create reserve size relocatable true).2, heap) (ops.take k) =
        some (ak, hk) ∧
      ak.count = ((surviving size [] (ops.take k)).length : Int) ∧
      items ak hk = (surviving size [] (ops.take k)).map some := by
  have hv := array_create_valid reserve size relocatable true h0 hs heap hfresh
  have hsz : (array_create reserve size relocatable true).2.size = size := by
    simp [array_create_eq]
  have hit : items (array_create reserve size relocatable true).2 heap =
      ([] : List (List Int)).map some := by
    rw [array_create_eq]; rfl
  have key : ∀ (ops' : List ArrayOp) (a' : Array) (h' : Heap),
      run_ops ((array_create reserve size relocatable true).2, heap) ops' = some (a', h') →
      a'.count = ((surviving size [] ops').length : Int) ∧
      items a' h' = (surviving size [] ops').map some := by
    intro ops' a' h' hrun'
    have hr := run_ops_spec size ops' _ (a', h') [] hv hsz hit hrun'
    refine ⟨?_, hr.2.2.2⟩
    have hl := congrArg List.length hr.2.2.2
    rw [length_items, List.length_map] at hl
    have := hr.1.wf.count_nonneg
    simp only at this hl
    omega
  refine ⟨⟨(key ops a h hrun).1, (key ops a h hrun).2, ?_⟩, ?_⟩
  · intro i hi0 hi
    have h1 := getElem?_items a h i hi0 hi
    rw [(key ops a h hrun).2, List.getElem?_map] at h1
    cases hx : (surviving size [] ops)[i.toNat]? with
    | none => rw [hx] at h1; simp at h1
    | some x => rw [hx] at h1; simp at h1; rw [← h1]
  · intro k
    obtain ⟨⟨ak, hk⟩, hsk⟩ := run_ops_take ops _ (a, h) k hrun
    exact ⟨ak, hk, hsk, key _ ak hk hsk⟩

theorem items_in_insertion_order_witness :
    (0 : Int) ≤ 1 ∧ (0 : Int) ≤ 2 ∧
    (∀ p, Heap.empty.next ≤ p → Heap.empty.blocks p = none) ∧
    (∃ a h, run_ops ((array_create 1 2 true true).2, Heap.empty)
        [.append none true [1, 1], .append none true [2, 2], .append none true [3, 3],
          .remove 1 false] = some (a, h) ∧
      items a h = [some [1, 1], some [3, 3]]) :=
  ⟨by decide, by decide, heap_empty_fresh,
    _, _, rfl,
    (items_in_insertion_order 1 2 true Heap.empty
      [.append none true [1, 1], .append none true [2, 2], .append none true [3, 3],
        .remove 1 false] _ _ (by decide) (by decide) heap_empty_fresh rfl).1.2.1⟩

/-- C8: in a non-relocatable Array, the block `array_append` returned for an item
is the block `array_get` returns for that item at its current index after any
sequence of `array_reserve`, `array_append` and in-range `array_remove` calls on
other items, and the content of that block is the one it had. -/
theorem nonrelocatable_item_address_stable (a0 : Array) (h0 : Heap)
    (env : Option (Nat → Int)) (ok : Bool) (p : Int) (a : Array) (h : Heap)
    (ops : List ArrayOp) (s' : Array × Heap) (pos' : Int) (hv : Valid a0 h0)
    (hnr : a0.relocatable = false) (happ : array_append a0 h0 env ok = (some p, a, h))
    (ht : track (a, h) a0.count ops = some (s', pos')) :
    0 ≤ pos' ∧ pos' < s'.1.count ∧ array_get s'.1 pos' = p ∧
    s'.2.blocks p = h.blocks p ∧ deref s'.1 s'.2 p = some (List.replicate a0.size.toNat 0) := by
  have hs := array_append_some a0 h0 env ok p a h hv happ
  obtain ⟨hcnt, hsize, hrel, _, hget, hderef, _, _, _, hv1⟩ := hs
  have hc0 := hv.wf.count_nonneg
  have hnr1 : a.relocatable = false := by rw [hrel, hnr]
  have := track_spec ops (a, h) s' a0.count pos' hv1 hnr1 hc0 (by simp only; omega) ht
  simp only at this
  rw [hget] at this
  refine ⟨this.1, this.2.1, this.2.2.1, this.2.2.2, ?_⟩
  have hrel' : s'.1.relocatable = false := by
    clear this
    have key : ∀ (ops : List ArrayOp) (s s' : Array × Heap) (pos pos' : Int),
        Valid s.1 s.2 → s.1.relocatable = false → 0 ≤ pos → pos < s.1.count →
        track s pos ops = some (s', pos') → s'.1.relocatable = false := by
      intro ops
      induction ops with
      | nil =>
        intro s s' pos pos' _ hnr _ _ ht
        simp only [track, Option.some.injEq, Prod.mk.injEq] at ht
        rw [← ht.1]; exact hnr
      | cons op ops ih =>
        intro s s' pos pos' hv hnr hp0 hp ht
        cases op with
        | reserve n env =>
          have h1 := track_step s pos (.reserve n env) hv hnr hp0 hp (fun _ _ hx => by cases hx)
          have h2 := h1.2.2.1 pos rfl
          exact ih _ s' pos pos' h1.1 h1.2.1 h2.1 h2.2.1 ht
        | append env ok v =>
          have h1 := track_step s pos (.append env ok v) hv hnr hp0 hp
            (fun _ _ hx => by cases hx)
          have h2 := h1.2.2.1 pos rfl
          exact ih _ s' pos pos' h1.1 h1.2.1 h2.1 h2.2.1 ht
        | remove i destroy =>
          simp only [track] at ht
          split at ht
          · rename_i hok
            have h1 := track_step s pos (.remove i destroy) hv hnr hp0 hp
              (fun i' d' hx => by cases hx; exact hok)
            have h2 := h1.2.2.1 _ rfl
            exact ih _ s' _ pos' h1.1 h1.2.1 h2.1 h2.2.1 ht
          · cases ht
    exact key ops (a, h) s' a0.count pos' hv1 hnr1 hc0 (by simp only; omega) ht
  have hd : deref a h p = h.blocks p := by simp [deref, hnr1]
  have hd' : deref s'.1 s'.2 p = s'.2.blocks p := by simp [deref, hrel']
  rw [hd', this.2.2.2, ← hd, hderef]

theorem nonrelocatable_item_address_stable_witness :
    Valid (array_append (array_create 1 2 false true).2 Heap.empty none true).2.1
      (array_append (array_create 1 2 false true).2 Heap.empty none true).2.2 ∧
    (array_append (array_create 1 2 false true).2 Heap.empty none true).2.1.relocatable = false ∧
    ∃ a h s',
      array_append (array_append (array_create 1 2 false true).2 Heap.empty none true).2.1
        (array_append (array_create 1 2 false true).2 Heap.empty none true).2.2 none true =
        (some 2, a, h) ∧
      track (a, h) 1
        [.append none true [7, 7], .remove 0 false, .reserve 40 (some fun _ => 9)] =
        some (s', 0) ∧
      array_get s'.1 0 = 2 :=
  ⟨(array_append_some (array_create 1 2 false true).2 Heap.empty none true 1
      (array_append (array_create 1 2 false true).2 Heap.empty none true).2.1
      (array_append (array_create 1 2 false true).2 Heap.empty none true).2.2
      (array_create_valid 1 2 false true (by decide) (by decide) Heap.empty heap_empty_fresh)
      rfl).2.2.2.2.2.2.2.2.2,
    rfl, _, _, _, rfl, rfl,
    (nonrelocatable_item_address_stable
      (array_append (array_create 1 2 false true).2 Heap.empty none true).2.1
      (array_append (array_create 1 2 false true).2 Heap.empty none true).2.2
      none true 2 _ _
      [.append none true [7, 7], .remove 0 false, .reserve 40 (some fun _ => 9)] _ 0
      (array_append_some (array_create 1 2 false true).2 Heap.empty none true 1
        (array_append (array_create 1 2 false true).2 Heap.empty none true).2.1
        (array_append (array_create 1 2 false true).2 Heap.empty none true).2.2
        (array_create_valid 1 2 false true (by decide) (by decide) Heap.empty heap_empty_fresh)
        rfl).2.2.2.2.2.2.2.2.2
      rfl rfl rfl).2.2.1⟩

/-! ## The claims about the registry of event sources -/

/-- C10: in every registry state reachable from the empty registry by a sequence of
`event_add_source`, `event_modify_source`, `event_remove_source` and
`event_cleanup_sources` calls, whatever the outcomes of the allocations and of the
platform hooks, the source array holds at most one source for each (handle, type)
pair, and so at most one that is not in state `Removed`; the identities of its
sources are pairwise different. -/
theorem registry_identities_unique (calls : List RegistryCall) (handle type : Int) :
    (sources (run_calls (event_init Registry.initial true 0).2 calls)).countP
      (fun s => decide (s.handle = handle ∧ s.type = type)) ≤ 1 ∧
    (sources (run_calls (event_init Registry.initial true 0).2 calls)).countP
      (fun s => decide (s.handle = handle ∧ s.type = type ∧
        s.state ≠ EVENT_SOURCE_STATE_REMOVED)) ≤ 1 ∧
    (sources (run_calls (event_init Registry.initial true 0).2 calls)).Pairwise
      (fun s t => ¬(s.handle = t.handle ∧ s.type = t.type)) := by
  have hinit := event_init_valid
  have hr := run_calls_identities calls _ hinit.1 (by rw [hinit.2]; exact List.nodup_nil)
  have h1 := countP_identity_le_one _ hr.2 handle type
  refine ⟨h1, ?_, ?_⟩
  · refine le_trans (List.countP_mono_left ?_) h1
    intro s _ hs
    simp only [decide_eq_true_eq] at hs ⊢
    exact ⟨hs.1, hs.2.1⟩
  · have := hr.2
    unfold List.Nodup at this
    rw [List.pairwise_map] at this
    refine this.imp ?_
    intro s t hne hc
    apply hne
    simp only [EventSource.identity, hc.1, hc.2]

/-- C11: if no source with the given (handle, type) is in the registry and both the
array append and the platform hook succeed, `event_add_source` returns 0 and the
list of sources is the old list followed by one new source with that handle and
type, the given mask, state `Added`, and for each of READ, WRITE, PRIO and ERROR
the given pair of function and context if the bit is set in the mask and the null
pair otherwise. -/
theorem event_add_source_appends (r : Registry) (handle type : Int) (events : Nat)
    (function opaque_ptr : Int) (env : Option (Nat → Int)) (ok : Bool) (hook : Int)
    (hv : r.Valid) (hnone : ∀ s ∈ sources r, ¬(s.handle = handle ∧ s.type = type))
    (happ : (array_append r.event_sources r.heap env ok).1 ≠ none) (hhook : 0 ≤ hook) :
    (event_add_source r handle type events function opaque_ptr env ok hook).1 = 0 ∧
    (event_add_source r handle type events function opaque_ptr env ok hook).2.event_sources.count =
      r.event_sources.count + 1 ∧
    ∃ new : EventSource,
      sources (event_add_source r handle type events function opaque_ptr env ok hook).2 =
        sources r ++ [new] ∧
      new.handle = handle ∧ new.type = type ∧ new.events = events ∧
      new.state = EVENT_SOURCE_STATE_ADDED ∧
      (new.read, new.read_opaque) =
        (if events &&& EVENT_READ ≠ 0 then (function, opaque_ptr) else (0, 0)) ∧
      (new.write, new.write_opaque) =
        (if events &&& EVENT_WRITE ≠ 0 then (function, opaque_ptr) else (0, 0)) ∧
      (new.prio, new.prio_opaque) =
        (if events &&& EVENT_PRIO ≠ 0 then (function, opaque_ptr) else (0, 0)) ∧
      (new.error, new.error_opaque) =
        (if events &&& EVENT_ERROR ≠ 0 then (function, opaque_ptr) else (0, 0)) := by
  have hs := event_add_source_spec r hv handle type events function opaque_ptr env ok hook
  rcases hs.2 with ⟨j, s, hj, hh, ht, _⟩ | ⟨_, h | h⟩
  · exact absurd ⟨hh, ht⟩ (hnone s (List.getElem?_mem hj))
  · rcases h.1 with h1 | h1
    · exact absurd h1 happ
    · omega
  · have hid := set_functions_identity
      { handle := handle, type := type, events := events,
        state := EVENT_SOURCE_STATE_ADDED, read := 0, read_opaque := 0, write := 0,
        write_opaque := 0, prio := 0, prio_opaque := 0, error := 0, error_opaque := 0 }
      events function opaque_ptr
    have hp := set_functions_pairs
      { handle := handle, type := type, events := events,
        state := EVENT_SOURCE_STATE_ADDED, read := 0, read_opaque := 0, write := 0,
        write_opaque := 0, prio := 0, prio_opaque := 0, error := 0, error_opaque := 0 }
      events function opaque_ptr
    refine ⟨h.2.2.1, ?_, _, h.2.2.2, hid.1, hid.2.1, hid.2.2.1, hid.2.2.2, hp.1, hp.2.1,
      hp.2.2.1, hp.2.2.2⟩
    rw [count_eq_length _ hs.1, count_eq_length r hv, h.2.2.2]
    simp

theorem event_add_source_appends_witness :
    (event_init Registry.initial true 0).2.Valid ∧
    (event_add_source (event_init Registry.initial true 0).2 5 0 1 100 200 none true 0).1 = 0 ∧
    (sources (event_add_source (event_init Registry.initial true 0).2 5 0 1 100 200 none true
      0).2).map (fun s => (s.handle, s.state, s.read, s.write)) = [(5, 1, 100, 0)] :=
  ⟨event_init_valid.1,
    (event_add_source_appends (event_init Registry.initial true 0).2 5 0 1 100 200 none true 0
      event_init_valid.1 (by decide) (by decide) (by decide)).1,
    by decide⟩

/-- C12: if the registry contains a source with the given (handle, type) whose
state is not `Removed`, `event_add_source` returns -1 and leaves the registry as it
was: the array, the heap with every field of every source, and the list of
platform hook calls, so the hook is not invoked. -/
theorem event_add_source_duplicate (r : Registry) (handle type : Int) (events : Nat)
    (function opaque_ptr : Int) (env : Option (Nat → Int)) (ok : Bool) (hook : Int)
    (s : EventSource) (hv : r.Valid) (hu : ((sources r).map EventSource.identity).Nodup)
    (hs : s ∈ sources r) (hh : s.handle = handle) (ht : s.type = type)
    (hst : s.state ≠ EVENT_SOURCE_STATE_REMOVED) :
    event_add_source r handle type events function opaque_ptr env ok hook = (-1, r) := by
  have hsp := event_add_source_spec r hv handle type events function opaque_ptr env ok hook
  obtain ⟨i, hi⟩ := List.getElem?_of_mem hs
  rcases hsp.2 with ⟨j, t, hj, hh', ht', _, h | h | h⟩ | ⟨hall, _⟩
  · have := (unique_source _ hu i j s t hi hj (by rw [hh, hh']) (by rw [ht, ht'])).2
    rw [← this] at h
    exact absurd h.1 hst
  · have := (unique_source _ hu i j s t hi hj (by rw [hh, hh']) (by rw [ht, ht'])).2
    rw [← this] at h
    exact absurd h.1 hst
  · exact h.2
  · exact absurd ⟨hh, ht⟩ (hall s hs)

theorem event_add_source_duplicate_witness :
    (run_calls (event_init Registry.initial true 0).2 [.add 5 0 1 100 200 none true 0]).Valid ∧
    (event_add_source
      (run_calls (event_init Registry.initial true 0).2 [.add 5 0 1 100 200 none true 0])
      5 0 4 300 400 none true 0).1 = -1 :=
  ⟨(run_calls_identities [.add 5 0 1 100 200 none true 0] _ event_init_valid.1
      (by rw [event_init_valid.2]; exact List.nodup_nil)).1,
    congrArg Prod.fst (event_add_source_duplicate
      (run_calls (event_init Registry.initial true 0).2 [.add 5 0 1 100 200 none true 0])
      5 0 4 300 400 none true 0
      { handle := 5, type := 0, events := 1, state := 1, read := 100, read_opaque := 200,
        write := 0, write_opaque := 0, prio := 0, prio_opaque := 0, error := 0,
        error_opaque := 0 }
      (run_calls_identities [.add 5 0 1 100 200 none true 0] _ event_init_valid.1
        (by rw [event_init_valid.2]; exact List.nodup_nil)).1
      (run_calls_identities [.add 5 0 1 100 200 none true 0] _ event_init_valid.1
        (by rw [event_init_valid.2]; exact List.nodup_nil)).2
      (by decide) (by decide) (by decide) (by decide))⟩

/-- C13: if the registry contains, at index `j`, a source with the given
(handle, type) in state `Removed` and the platform hook succeeds,
`event_add_source` returns 0, the source count is unchanged, the source at index
`j` keeps its handle and type and gets state `Readded` and the given mask as its
events, the given pair of function and context is installed for every bit set in
the mask, and all other sources are unchanged. -/
theorem event_add_source_readds (r : Registry) (handle type : Int) (events : Nat)
    (function opaque_ptr : Int) (env : Option (Nat → Int)) (ok : Bool) (hook : Int)
    (j : Nat) (s : EventSource) (hv : r.Valid)
    (hu : ((sources r).map EventSource.identity).Nodup) (hj : (sources r)[j]? = some s)
    (hh : s.handle = handle) (ht : s.type = type)
    (hst : s.state = EVENT_SOURCE_STATE_REMOVED) (hhook : 0 ≤ hook) :
    (event_add_source r handle type events function opaque_ptr env ok hook).1 = 0 ∧
    (event_add_source r handle type events function opaque_ptr env ok hook).2.event_sources.count =
      r.event_sources.count ∧
    ∃ new : EventSource,
      sources (event_add_source r handle type events function opaque_ptr env ok hook).2 =
        (sources r).set j new ∧
      new.handle = handle ∧ new.type = type ∧ new.events = events ∧
      new.state = EVENT_SOURCE_STATE_READDED ∧
      (events &&& EVENT_READ ≠ 0 → (new.read, new.read_opaque) = (function, opaque_ptr)) ∧
      (events &&& EVENT_WRITE ≠ 0 → (new.write, new.write_opaque) = (function, opaque_ptr)) ∧
      (events &&& EVENT_PRIO ≠ 0 → (new.prio, new.prio_opaque) = (function, opaque_ptr)) ∧
      (events &&& EVENT_ERROR ≠ 0 → (new.error, new.error_opaque) = (function, opaque_ptr)) := by
  have hsp := event_add_source_spec r hv handle type events function opaque_ptr env ok hook
  rcases hsp.2 with ⟨i, t, hi, hh', ht', _, h | h | h⟩ | ⟨hall, _⟩
  · have hx := unique_source _ hu j i s t hj hi (by rw [hh, hh']) (by rw [ht, ht'])
    obtain ⟨hji, hst'⟩ := hx
    subst hji hst'
    have hid := set_functions_identity
      { s with events := events, state := EVENT_SOURCE_STATE_READDED } events function opaque_ptr
    have hp := set_functions_pairs
      { s with events := events, state := EVENT_SOURCE_STATE_READDED } events function opaque_ptr
    refine ⟨h.2.2.1, ?_, _, h.2.2.2, hid.1.trans hh, hid.2.1.trans ht, hid.2.2.1, hid.2.2.2,
      ?_, ?_, ?_, ?_⟩
    · rw [count_eq_length _ hsp.1, count_eq_length r hv, h.2.2.2]
      simp
    · intro hb; rw [hp.1, if_pos hb]
    · intro hb; rw [hp.2.1, if_pos hb]
    · intro hb; rw [hp.2.2.1, if_pos hb]
    · intro hb; rw [hp.2.2.2, if_pos hb]
  · omega
  · have hx := (unique_source _ hu j i s t hj hi (by rw [hh, hh']) (by rw [ht, ht'])).2
    rw [← hx] at h
    exact absurd hst h.1
  · exact absurd ⟨hh, ht⟩ (hall s (List.getElem?_mem hj))

theorem event_add_source_readds_witness :
    (run_calls (event_init Registry.initial true 0).2
      [.add 5 0 1 100 200 none true 0, .remove 5 0]).Valid ∧
    (sources (event_add_source
      (run_calls (event_init Registry.initial true 0).2
        [.add 5 0 1 100 200 none true 0, .remove 5 0])
      5 0 4 300 400 none true 0).2).map (fun s => (s.handle, s.events, s.state, s.write)) =
      [(5, 4, 3, 300)] ∧
    (event_add_source
      (run_calls (event_init Registry.initial true 0).2
        [.add 5 0 1 100 200 none true 0, .remove 5 0])
      5 0 4 300 400 none true 0).1 = 0 :=
  ⟨(run_calls_identities [.add 5 0 1 100 200 none true 0, .remove 5 0] _ event_init_valid.1
      (by rw [event_init_valid.2]; exact List.nodup_nil)).1,
    by decide,
    (event_add_source_readds
      (run_calls (event_init Registry.initial true 0).2
        [.add 5 0 1 100 200 none true 0, .remove 5 0])
      5 0 4 300 400 none true 0 0
      { handle := 5, type := 0, events := 1, state := 2, read := 100, read_opaque := 200,
        write := 0, write_opaque := 0, prio := 0, prio_opaque := 0, error := 0,
        error_opaque := 0 }
      (run_calls_identities [.add 5 0 1 100 200 none true 0, .remove 5 0] _ event_init_valid.1
        (by rw [event_init_valid.2]; exact List.nodup_nil)).1
      (run_calls_identities [.add 5 0 1 100 200 none true 0, .remove 5 0] _ event_init_valid.1
        (by rw [event_init_valid.2]; exact List.nodup_nil)).2
      (by decide) (by decide) (by decide) (by decide) (by decide)).1⟩

/-- C14: whenever the platform hook of `event_add_source` (on the append path and on
the re-add path) or of `event_modify_source` reports failure, the call returns -1
and the sources of the registry are as before the call: same count, same order,
and every field of every source unchanged. -/
theorem hook_failure_rolls_back (r : Registry) (handle type : Int) (events : Nat)
    (events_to_remove events_to_add : Nat) (function opaque_ptr : Int)
    (env : Option (Nat → Int)) (ok : Bool) (hook : Int) (hv : r.Valid) (hneg : hook < 0) :
    ((event_add_source r handle type events function opaque_ptr env ok hook).1 = -1 ∧
      sources (event_add_source r handle type events function opaque_ptr env ok hook).2 =
        sources r ∧
      (event_add_source r handle type events function opaque_ptr env ok
        hook).2.event_sources.count = r.event_sources.count) ∧
    ((event_modify_source r handle type events_to_remove events_to_add function opaque_ptr
        hook).1 = -1 ∧
      sources (event_modify_source r handle type events_to_remove events_to_add function
        opaque_ptr hook).2 = sources r ∧
      (event_modify_source r handle type events_to_remove events_to_add function opaque_ptr
        hook).2.event_sources.count = r.event_sources.count) := by
  have ha := event_add_source_spec r hv handle type events function opaque_ptr env ok hook
  have hm := event_modify_source_spec r hv handle type events_to_remove events_to_add function
    opaque_ptr hook
  have key : ∀ res : Int × Registry, res.2.Valid → sources res.2 = sources r →
      res.2.event_sources.count = r.event_sources.count := by
    intro res hv' hs
    rw [count_eq_length _ hv', count_eq_length r hv, hs]
  constructor
  · have : (event_add_source r handle type events function opaque_ptr env ok hook).1 = -1 ∧
        sources (event_add_source r handle type events function opaque_ptr env ok hook).2 =
          sources r := by
      rcases ha.2 with ⟨j, s, _, _, _, _, h | h | h⟩ | ⟨_, h | h⟩
      · omega
      · exact h.2.2
      · rw [h.2]; exact ⟨rfl, rfl⟩
      · exact h.2
      · omega
    exact ⟨this.1, this.2, key _ ha.1 this.2⟩
  · have : (event_modify_source r handle type events_to_remove events_to_add function
          opaque_ptr hook).1 = -1 ∧
        sources (event_modify_source r handle type events_to_remove events_to_add function
          opaque_ptr hook).2 = sources r := by
      rcases hm.2 with ⟨j, s, _, _, _, _, h | h | h⟩ | ⟨_, h⟩
      · omega
      · exact h.2.2
      · rw [h.2]; exact ⟨rfl, rfl⟩
      · rw [h]; exact ⟨rfl, rfl⟩
    exact ⟨this.1, this.2, key _ hm.1 this.2⟩

theorem hook_failure_rolls_back_witness :
    (run_calls (event_init Registry.initial true 0).2 [.add 5 0 1 100 200 none true 0]).Valid ∧
    ((-1 : Int) < 0) ∧
    sources (event_add_source
      (run_calls (event_init Registry.initial true 0).2 [.add 5 0 1 100 200 none true 0])
      6 0 4 300 400 none true (-1)).2 =
      sources (run_calls (event_init Registry.initial true 0).2
        [.add 5 0 1 100 200 none true 0]) :=
  ⟨(run_calls_identities [.add 5 0 1 100 200 none true 0] _ event_init_valid.1
      (by rw [event_init_valid.2]; exact List.nodup_nil)).1,
    by decide,
    (hook_failure_rolls_back
      (run_calls (event_init Registry.initial true 0).2 [.add 5 0 1 100 200 none true 0])
      6 0 4 0 0 300 400 none true (-1)
      (run_calls_identities [.add 5 0 1 100 200 none true 0] _ event_init_valid.1
        (by rw [event_init_valid.2]; exact List.nodup_nil)).1
      (by decide)).1.2.1⟩

/-- C15: `event_modify_source` on a (handle, type) that has no source in the
registry, or whose source is in state `Removed`, returns -1 and leaves the registry
as it was: every source is unchanged and, the list of platform hook calls being
unchanged, the hook is not invoked. -/
theorem event_modify_source_rejects (r : Registry) (handle type : Int)
    (events_to_remove events_to_add : Nat) (function opaque_ptr : Int) (hook : Int)
    (hv : r.Valid) (hu : ((sources r).map EventSource.identity).Nodup)
    (h : (∀ s ∈ sources r, ¬(s.handle = handle ∧ s.type = type)) ∨
      (∃ s ∈ sources r, s.handle = handle ∧ s.type = type ∧
        s.state = EVENT_SOURCE_STATE_REMOVED)) :
    event_modify_source r handle type events_to_remove events_to_add function opaque_ptr hook =
      (-1, r) := by
  have hm := event_modify_source_spec r hv handle type events_to_remove events_to_add function
    opaque_ptr hook
  rcases hm.2 with ⟨j, t, hj, hh', ht', _, hc⟩ | ⟨_, hc⟩
  · rcases h with hnone | ⟨s, hs, hh, ht, hst⟩
    · exact absurd ⟨hh', ht'⟩ (hnone t (List.getElem?_mem hj))
    · obtain ⟨i, hi⟩ := List.getElem?_of_mem hs
      have hx := (unique_source _ hu i j s t hi hj (by rw [hh, hh']) (by rw [ht, ht'])).2
      rw [← hx] at hc
      rcases hc with hc | hc | hc
      · exact absurd hst hc.1
      · exact absurd hst hc.1
      · exact hc.2
  · exact hc

theorem event_modify_source_rejects_witness :
    (run_calls (event_init Registry.initial true 0).2
      [.add 5 0 1 100 200 none true 0, .remove 5 0]).Valid ∧
    (event_modify_source
      (run_calls (event_init Registry.initial true 0).2
        [.add 5 0 1 100 200 none true 0, .remove 5 0]) 5 0 1 4 300 400 0).1 = -1 ∧
    (event_modify_source
      (run_calls (event_init Registry.initial true 0).2
        [.add 5 0 1 100 200 none true 0, .remove 5 0]) 7 0 1 4 300 400 0).1 = -1 :=
  ⟨(run_calls_identities [.add 5 0 1 100 200 none true 0, .remove 5 0] _ event_init_valid.1
      (by rw [event_init_valid.2]; exact List.nodup_nil)).1,
    congrArg Prod.fst (event_modify_source_rejects
      (run_calls (event_init Registry.initial true 0).2
        [.add 5 0 1 100 200 none true 0, .remove 5 0]) 5 0 1 4 300 400 0
      (run_calls_identities [.add 5 0 1 100 200 none true 0, .remove 5 0] _ event_init_valid.1
        (by rw [event_init_valid.2]; exact List.nodup_nil)).1
      (run_calls_identities [.add 5 0 1 100 200 none true 0, .remove 5 0] _ event_init_valid.1
        (by rw [event_init_valid.2]; exact List.nodup_nil)).2
      (Or.inr (by decide))),
    congrArg Prod.fst (event_modify_source_rejects
      (run_calls (event_init Registry.initial true 0).2
        [.add 5 0 1 100 200 none true 0, .remove 5 0]) 7 0 1 4 300 400 0
      (run_calls_identities [.add 5 0 1 100 200 none true 0, .remove 5 0] _ event_init_valid.1
        (by rw [event_init_valid.2]; exact List.nodup_nil)).1
      (run_calls_identities [.add 5 0 1 100 200 none true 0, .remove 5 0] _ event_init_valid.1
        (by rw [event_init_valid.2]; exact List.nodup_nil)).2
      (Or.inl (by decide)))⟩

/-- C16: if the registry contains, at index `j`, a source with the given
(handle, type) in a state other than `Removed` and the platform hook succeeds,
`event_modify_source` returns 0, whatever the bits to remove and to add, and leaves
that source with events `(old events AND NOT bitsToRemove) OR bitsToAdd` (as 32-bit
masks), state `Modified`, and for each of READ, WRITE, PRIO and ERROR the given
pair of function and context if the bit is in `bitsToAdd`, otherwise the null pair
if the bit is in `bitsToRemove`, otherwise the old pair; handle, type, the source
count and all other sources are unchanged. -/
theorem event_modify_source_modifies (r : Registry) (handle type : Int)
    (events_to_remove events_to_add : Nat) (function opaque_ptr : Int) (hook : Int)
    (j : Nat) (s : EventSource) (hv : r.Valid)
    (hu : ((sources r).map EventSource.identity).Nodup) (hj : (sources r)[j]? = some s)
    (hh : s.handle = handle) (ht : s.type = type)
    (hst : s.state ≠ EVENT_SOURCE_STATE_REMOVED) (hhook : 0 ≤ hook) :
    (event_modify_source r handle type events_to_remove events_to_add function opaque_ptr
      hook).1 = 0 ∧
    (event_modify_source r handle type events_to_remove events_to_add function opaque_ptr
      hook).2.event_sources.count = r.event_sources.count ∧
    ∃ new : EventSource,
      sources (event_modify_source r handle type events_to_remove events_to_add function
        opaque_ptr hook).2 = (sources r).set j new ∧
      new.handle = s.handle ∧ new.type = s.type ∧
      new.state = EVENT_SOURCE_STATE_MODIFIED ∧
      new.events = s.events &&& uint32_not events_to_remove ||| events_to_add ∧
      (∀ k : Nat, new.events.testBit k =
        (s.events.testBit k && (decide (k < 32) && !events_to_remove.testBit k) ||
          events_to_add.testBit k)) ∧
      (new.read, new.read_opaque) =
        (if events_to_add &&& EVENT_READ ≠ 0 then (function, opaque_ptr)
          else if events_to_remove &&& EVENT_READ ≠ 0 then (0, 0)
          else (s.read, s.read_opaque)) ∧
      (new.write, new.write_opaque) =
        (if events_to_add &&& EVENT_WRITE ≠ 0 then (function, opaque_ptr)
          else if events_to_remove &&& EVENT_WRITE ≠ 0 then (0, 0)
          else (s.write, s.write_opaque)) ∧
      (new.prio, new.prio_opaque) =
        (if events_to_add &&& EVENT_PRIO ≠ 0 then (function, opaque_ptr)
          else if events_to_remove &&& EVENT_PRIO ≠ 0 then (0, 0)
          else (s.prio, s.prio_opaque)) ∧
      (new.error, new.error_opaque) =
        (if events_to_add &&& EVENT_ERROR ≠ 0 then (function, opaque_ptr)
          else if events_to_remove &&& EVENT_ERROR ≠ 0 then (0, 0)
          else (s.error, s.error_opaque)) := by
  have hm := event_modify_source_spec r hv handle type events_to_remove events_to_add function
    opaque_ptr hook
  rcases hm.2 with ⟨i, t, hi, hh', ht', _, h | h | h⟩ | ⟨hall, _⟩
  · have hx := unique_source _ hu j i s t hj hi (by rw [hh, hh']) (by rw [ht, ht'])
    obtain ⟨hji, hst'⟩ := hx
    subst hji hst'
    have hid := set_functions_identity (unset_functions
      { s with events := s.events &&& uint32_not events_to_remove ||| events_to_add }
      events_to_remove) events_to_add function opaque_ptr
    have hid2 := unset_functions_identity
      { s with events := s.events &&& uint32_not events_to_remove ||| events_to_add }
      events_to_remove
    have hp := set_functions_pairs (unset_functions
      { s with events := s.events &&& uint32_not events_to_remove ||| events_to_add }
      events_to_remove) events_to_add function opaque_ptr
    have hp2 := unset_functions_pairs
      { s with events := s.events &&& uint32_not events_to_remove ||| events_to_add }
      events_to_remove
    refine ⟨h.2.2.1, ?_, _, h.2.2.2, hid.1.trans hid2.1, hid.2.1.trans hid2.2.1, rfl,
      hid.2.2.1.trans hid2.2.2.1, ?_, ?_, ?_, ?_, ?_⟩
    · rw [count_eq_length _ hm.1, count_eq_length r hv, h.2.2.2]
      simp
    · intro k
      simp only
      rw [hid.2.2.1, hid2.2.2.1]
      simp only
      rw [Nat.testBit_or, Nat.testBit_and, uint32_not_testBit]
    · exact hp.1.trans (by rw [hp2.1])
    · exact hp.2.1.trans (by rw [hp2.2.1])
    · exact hp.2.2.1.trans (by rw [hp2.2.2.1])
    · exact hp.2.2.2.trans (by rw [hp2.2.2.2])
  · omega
  · have hx := (unique_source _ hu j i s t hj hi (by rw [hh, hh']) (by rw [ht, ht'])).2
    rw [← hx] at h
    exact absurd h.1 hst
  · exact absurd ⟨hh, ht⟩ (hall s (List.getElem?_mem hj))

theorem event_modify_source_modifies_witness :
    (run_calls (event_init Registry.initial true 0).2 [.add 5 0 1 100 200 none true 0]).Valid ∧
    (sources (event_modify_source
      (run_calls (event_init Registry.initial true 0).2 [.add 5 0 1 100 200 none true 0])
      5 0 1 4 300 400 0).2).map (fun s => (s.handle, s.events, s.state, s.read, s.write)) =
      [(5, 4, 4, 0, 300)] ∧
    (event_modify_source
      (run_calls (event_init Registry.initial true 0).2 [.add 5 0 1 100 200 none true 0])
      5 0 1 4 300 400 0).1 = 0 :=
  ⟨(run_calls_identities [.add 5 0 1 100 200 none true 0] _ event_init_valid.1
      (by rw [event_init_valid.2]; exact List.nodup_nil)).1,
    by decide,
    (event_modify_source_modifies
      (run_calls (event_init Registry.initial true 0).2 [.add 5 0 1 100 200 none true 0])
      5 0 1 4 300 400 0 0
      { handle := 5, type := 0, events := 1, state := 1, read := 100, read_opaque := 200,
        write := 0, write_opaque := 0, prio := 0, prio_opaque := 0, error := 0,
        error_opaque := 0 }
      (run_calls_identities [.add 5 0 1 100 200 none true 0] _ event_init_valid.1
        (by rw [event_init_valid.2]; exact List.nodup_nil)).1
      (run_calls_identities [.add 5 0 1 100 200 none true 0] _ event_init_valid.1
        (by rw [event_init_valid.2]; exact List.nodup_nil)).2
      (by decide) (by decide) (by decide) (by decide) (by decide)).1⟩

/-- C17: `event_remove_source` never changes the number of sources.  If a source
with the given (handle, type) is in the registry, at index `j`, and is not in state
`Removed`, exactly that source's state becomes `Removed`, the platform hook is
invoked exactly once, for it, and nothing else changes in the list of sources; if
there is no such source or it is already `Removed`, the registry is unchanged and
the hook is not invoked. -/
theorem event_remove_source_marks (r : Registry) (handle type : Int) (hv : r.Valid)
    (hu : ((sources r).map EventSource.identity).Nodup) :
    (event_remove_source r handle type).event_sources.count = r.event_sources.count ∧
    (sources (event_remove_source r handle type)).length = (sources r).length ∧
    (∀ (j : Nat) (s : EventSource), (sources r)[j]? = some s → s.handle = handle →
      s.type = type → s.state ≠ EVENT_SOURCE_STATE_REMOVED →
      sources (event_remove_source r handle type) =
        (sources r).set j { s with state := EVENT_SOURCE_STATE_REMOVED } ∧
      (event_remove_source r handle type).platform = r.platform ++
        [.removed (array_get r.event_sources j)
          { s with state := EVENT_SOURCE_STATE_REMOVED }]) ∧
    ((∀ s ∈ sources r, s.handle = handle → s.type = type →
        s.state = EVENT_SOURCE_STATE_REMOVED) →
      event_remove_source r handle type = r) := by
  have hs := event_remove_source_spec r hv handle type
  have hlen : (sources (event_remove_source r handle type)).length = (sources r).length := by
    rcases hs.2 with ⟨i, t, _, _, _, _, h | h⟩ | ⟨_, h⟩
    · rw [h.2.1]; simp
    · rw [h.2]
    · rw [h]
  refine ⟨?_, hlen, ?_, ?_⟩
  · rw [count_eq_length _ hs.1, count_eq_length r hv, hlen]
  · intro j s hj hh ht hst
    rcases hs.2 with ⟨i, t, hi, hh', ht', _, h | h⟩ | ⟨hall, _⟩
    · have hx := unique_source _ hu j i s t hj hi (by rw [hh, hh']) (by rw [ht, ht'])
      obtain ⟨hji, hst'⟩ := hx
      subst hji hst'
      exact h.2
    · have hx := (unique_source _ hu j i s t hj hi (by rw [hh, hh']) (by rw [ht, ht'])).2
      rw [← hx] at h
      exact absurd h.1 hst
    · exact absurd ⟨hh, ht⟩ (hall s (List.getElem?_mem hj))
  · intro hall
    rcases hs.2 with ⟨i, t, hi, hh', ht', _, h | h⟩ | ⟨_, h⟩
    · exact absurd (hall t (List.getElem?_mem hi) hh' ht') h.1
    · exact h.2
    · exact h

theorem event_remove_source_marks_witness :
    (run_calls (event_init Registry.initial true 0).2
      [.add 5 0 1 100 200 none true 0, .add 6 0 1 100 200 none true 0]).Valid ∧
    (sources (event_remove_source
      (run_calls (event_init Registry.initial true 0).2
        [.add 5 0 1 100 200 none true 0, .add 6 0 1 100 200 none true 0]) 5 0)).map
      (fun s => (s.handle, s.state)) = [(5, 2), (6, 1)] ∧
    (sources (event_remove_source
      (run_calls (event_init Registry.initial true 0).2
        [.add 5 0 1 100 200 none true 0, .add 6 0 1 100 200 none true 0]) 5 0)).length =
      (sources (run_calls (event_init Registry.initial true 0).2
        [.add 5 0 1 100 200 none true 0, .add 6 0 1 100 200 none true 0])).length :=
  ⟨(run_calls_identities [.add 5 0 1 100 200 none true 0, .add 6 0 1 100 200 none true 0] _
      event_init_valid.1 (by rw [event_init_valid.2]; exact List.nodup_nil)).1,
    by decide,
    (event_remove_source_marks
      (run_calls (event_init Registry.initial true 0).2
        [.add 5 0 1 100 200 none true 0, .add 6 0 1 100 200 none true 0]) 5 0
      (run_calls_identities [.add 5 0 1 100 200 none true 0, .add 6 0 1 100 200 none true 0] _
        event_init_valid.1 (by rw [event_init_valid.2]; exact List.nodup_nil)).1
      (run_calls_identities [.add 5 0 1 100 200 none true 0, .add 6 0 1 100 200 none true 0] _
        event_init_valid.1 (by rw [event_init_valid.2]; exact List.nodup_nil)).2).2.1⟩

/-- C18: for every valid registry, `event_cleanup_sources` leaves exactly the sources
that were not in state `Removed`, in their original relative order, each with state
`Normal` and all other fields unchanged, and erases every source that was in state
`Removed`; the platform hooks are not invoked.  When no source was `Removed` the
count is unchanged and every source, one in state `Added` too, is the old one with
state `Normal`. -/
theorem event_cleanup_sources_result (r : Registry) (hv : r.Valid) :
    sources (event_cleanup_sources r) =
      ((sources r).filter fun s => decide (s.state ≠ EVENT_SOURCE_STATE_REMOVED)).map
        (fun s => { s with state := EVENT_SOURCE_STATE_NORMAL }) ∧
    sources (event_cleanup_sources r) = cleaned (sources r) ∧
    (∀ t ∈ sources (event_cleanup_sources r), t.state = EVENT_SOURCE_STATE_NORMAL) ∧
    (event_cleanup_sources r).event_sources.count =
      (((sources r).filter fun s => decide (s.state ≠ EVENT_SOURCE_STATE_REMOVED)).length : Int) ∧
    (event_cleanup_sources r).platform = r.platform ∧
    ((∀ s ∈ sources r, s.state ≠ EVENT_SOURCE_STATE_REMOVED) →
      (event_cleanup_sources r).event_sources.count = r.event_sources.count ∧
      sources (event_cleanup_sources r) =
        (sources r).map (fun s => { s with state := EVENT_SOURCE_STATE_NORMAL })) := by
  have hs := event_cleanup_sources_spec r hv
  have h1 : sources (event_cleanup_sources r) =
      ((sources r).filter fun s => decide (s.state ≠ EVENT_SOURCE_STATE_REMOVED)).map
        (fun s => { s with state := EVENT_SOURCE_STATE_NORMAL }) := hs.2.1
  have hcnt : (event_cleanup_sources r).event_sources.count =
      (((sources r).filter fun s =>
        decide (s.state ≠ EVENT_SOURCE_STATE_REMOVED)).length : Int) := by
    rw [count_eq_length _ hs.1, h1, List.length_map]
  refine ⟨h1, hs.2.1, ?_, hcnt, hs.2.2.1, ?_⟩
  · intro t ht
    rw [h1, List.mem_map] at ht
    obtain ⟨s, _, rfl⟩ := ht
    rfl
  · intro hall
    have hf : ((sources r).filter fun s => decide (s.state ≠ EVENT_SOURCE_STATE_REMOVED)) =
        sources r := by
      rw [List.filter_eq_self]
      intro s hs'
      simpa using hall s hs'
    rw [hcnt, h1, hf]
    exact ⟨(count_eq_length r hv).symm, rfl⟩

theorem event_cleanup_sources_result_witness :
    (run_calls (event_init Registry.initial true 0).2
      [.add 5 0 1 100 200 none true 0, .add 6 0 1 100 200 none true 0, .remove 6 0]).Valid ∧
    (sources (event_cleanup_sources
      (run_calls (event_init Registry.initial true 0).2
        [.add 5 0 1 100 200 none true 0, .add 6 0 1 100 200 none true 0, .remove 6 0]))).map
      (fun s => (s.handle, s.state)) = [(5, 0)] ∧
    (event_cleanup_sources
      (run_calls (event_init Registry.initial true 0).2
        [.add 5 0 1 100 200 none true 0, .add 6 0 1 100 200 none true 0,
          .remove 6 0])).platform =
      (run_calls (event_init Registry.initial true 0).2
        [.add 5 0 1 100 200 none true 0, .add 6 0 1 100 200 none true 0,
          .remove 6 0]).platform :=
  ⟨(run_calls_identities
      [.add 5 0 1 100 200 none true 0, .add 6 0 1 100 200 none true 0, .remove 6 0] _
      event_init_valid.1 (by rw [event_init_valid.2]; exact List.nodup_nil)).1,
    by decide,
    (event_cleanup_sources_result
      (run_calls (event_init Registry.initial true 0).2
        [.add 5 0 1 100 200 none true 0, .add 6 0 1 100 200 none true 0, .remove 6 0])
      (run_calls_identities
        [.add 5 0 1 100 200 none true 0, .add 6 0 1 100 200 none true 0, .remove 6 0] _
        event_init_valid.1 (by rw [event_init_valid.2]; exact List.nodup_nil)).1).2.2.2.2.1⟩

/-! ## The claims about the dispatch -/

/-- C19: for a source whose state is not `Normal` when `event_handle_source` is
entered, and every received-event mask, `event_handle_source` invokes no callback
and changes nothing.  So when the dispatch of a source A invokes exactly one
callback and that callback calls `event_remove_source` on the identity of a source
B of the registry, a later dispatch of B before the cleanup invokes no callback. -/
theorem event_handle_source_skips (callbacks : Int → Int → Registry → Registry)
    (r : Registry) (event_source : Int) (received_events : Nat)
    (hst : (load_source r.heap event_source).state ≠ EVENT_SOURCE_STATE_NORMAL) :
    event_handle_source callbacks r event_source received_events = (r, []) ∧
    ∀ (r0 : Registry) (j : Nat) (b : EventSource) (a_source : Int) (a_events : Nat)
      (function opaque_ptr : Int), r0.Valid →
      ((sources r0).map EventSource.identity).Nodup → (sources r0)[j]? = some b →
      callbacks function opaque_ptr = (fun x => event_remove_source x b.handle b.type) →
      (event_handle_source callbacks r0 a_source a_events).2 = [(function, opaque_ptr)] →
      event_handle_source callbacks (event_handle_source callbacks r0 a_source a_events).1
        (array_get r0.event_sources j) received_events =
        ((event_handle_source callbacks r0 a_source a_events).1, []) := by
  refine ⟨event_handle_source_not_normal callbacks r event_source received_events hst, ?_⟩
  intro r0 j b a_source a_events function opaque_ptr hv hu hj hcb hcalls
  apply event_handle_source_not_normal
  have hf := event_handle_source_fold callbacks r0 a_source a_events
  rw [hcalls] at hf
  simp only [List.foldl_cons, List.foldl_nil] at hf
  rw [hf, hcb]
  simp only
  rw [event_remove_source_state r0 hv hu j b hj]
  decide

theorem event_handle_source_skips_witness :
    (load_source (event_handle_source (fun _ _ x => event_remove_source x 5 0)
      (run_calls (event_init Registry.initial true 0).2
        [.add 5 0 5 7 9 none true 0, .add 6 0 1 8 10 none true 0, .cleanup]) 2 1).1.heap
      1).state ≠ EVENT_SOURCE_STATE_NORMAL ∧
    (event_handle_source (fun _ _ x => event_remove_source x 5 0)
      (run_calls (event_init Registry.initial true 0).2
        [.add 5 0 5 7 9 none true 0, .add 6 0 1 8 10 none true 0, .cleanup]) 2 1).2 =
      [(8, 10)] ∧
    (event_handle_source (fun _ _ x => event_remove_source x 5 0)
      (event_handle_source (fun _ _ x => event_remove_source x 5 0)
        (run_calls (event_init Registry.initial true 0).2
          [.add 5 0 5 7 9 none true 0, .add 6 0 1 8 10 none true 0, .cleanup]) 2 1).1
      1 5).2 = [] :=
  ⟨by decide, by decide,
    congrArg Prod.snd (event_handle_source_skips (fun _ _ x => event_remove_source x 5 0)
      (event_handle_source (fun _ _ x => event_remove_source x 5 0)
        (run_calls (event_init Registry.initial true 0).2
          [.add 5 0 5 7 9 none true 0, .add 6 0 1 8 10 none true 0, .cleanup]) 2 1).1
      1 5 (by decide)).1⟩

/-- C20, as stated, fails: a source in state `Normal` whose read and write pairs are
the same function and context (7, 9), but whose prio and error pairs are also the
same function and context (8, 10), receives READ and WRITE, and its read callback
is invoked not once but never. -/
theorem merged_read_write_not_reached :
    ¬ (∀ (callbacks : Int → Int → Registry → Registry) (r : Registry) (event_source : Int)
      (received_events : Nat) (source : EventSource),
      load_source r.heap event_source = source →
      source.state = EVENT_SOURCE_STATE_NORMAL → source.read ≠ 0 →
      source.read = source.write → source.read_opaque = source.write_opaque →
      received_events &&& EVENT_READ ≠ 0 → received_events &&& EVENT_WRITE ≠ 0 →
      (event_handle_source callbacks r event_source received_events).2.count
        (source.read, source.read_opaque) = 1) := by
  intro h
  have := h (fun _ _ x => x)
    (run_calls (event_init Registry.initial true 0).2
      [.add 5 0 5 7 9 none true 0, .modify 5 0 0 10 8 10 0, .cleanup]) 1 5 _ rfl
    (by decide) (by decide) (by decide) (by decide) (by decide) (by decide)
  revert this
  decide

/-- C20, amended: for a source in state `Normal` whose prio and error pairs are not
one and the same non-null function and context, whose read and write pairs are
identical (same non-null function, same context), and every received-event mask
that contains both READ and WRITE, `event_handle_source` invokes that callback
exactly once, and no other callback. -/
theorem merged_read_write_invoked_once (callbacks : Int → Int → Registry → Registry)
    (r : Registry) (event_source : Int) (received_events : Nat) (source : EventSource)
    (hsrc : load_source r.heap event_source = source)
    (hst : source.state = EVENT_SOURCE_STATE_NORMAL)
    (hpe : ¬(source.prio ≠ 0 ∧ source.prio = source.error ∧
      source.prio_opaque = source.error_opaque))
    (hread : source.read ≠ 0) (hfun : source.read = source.write)
    (hctx : source.read_opaque = source.write_opaque)
    (hr : received_events &&& EVENT_READ ≠ 0) (hw : received_events &&& EVENT_WRITE ≠ 0) :
    (event_handle_source callbacks r event_source received_events).2 =
      [(source.read, source.read_opaque)] ∧
    (event_handle_source callbacks r event_source received_events).2.count
      (source.read, source.read_opaque) = 1 ∧
    (event_handle_source callbacks r event_source received_events).1 =
      callbacks source.read source.read_opaque r := by
  have hrw := and_or_ne_zero_left received_events EVENT_READ EVENT_WRITE hr
  have key : event_handle_source callbacks r event_source received_events =
      (callbacks source.read source.read_opaque r, [(source.read, source.read_opaque)]) := by
    unfold event_handle_source
    simp only
    rw [hsrc, if_neg (by rw [hst]; exact fun h => h rfl), if_neg hpe,
      if_pos ⟨hread, hfun, hctx⟩, if_pos hrw]
    rfl
  rw [key]
  refine ⟨rfl, ?_, rfl⟩
  simp

theorem merged_read_write_invoked_once_witness :
    (load_source (run_calls (event_init Registry.initial true 0).2
      [.add 5 0 5 7 9 none true 0, .cleanup]).heap 1).state = EVENT_SOURCE_STATE_NORMAL ∧
    (event_handle_source (fun _ _ x => x)
      (run_calls (event_init Registry.initial true 0).2
        [.add 5 0 5 7 9 none true 0, .cleanup]) 1 5).2 = [(7, 9)] :=
  ⟨by decide,
    (merged_read_write_invoked_once (fun _ _ x => x)
      (run_calls (event_init Registry.initial true 0).2
        [.add 5 0 5 7 9 none true 0, .cleanup]) 1 5 _ rfl
      (by decide) (by decide) (by decide) (by decide) (by decide) (by decide) (by decide)).1⟩

/-- C21: for a source in state `Normal` whose prio and error pairs are not a merged
pair and whose read and write pairs are not a merged pair, and callbacks that do not
change the source (as callbacks that do not change the registry), the callbacks
`event_handle_source` invokes are exactly those of the bits among READ, WRITE, PRIO,
ERROR that are set in the received mask and have a non-null callback, each once with
its own context, in the order read, write, prio, error. -/
theorem event_handle_source_order (callbacks : Int → Int → Registry → Registry)
    (r : Registry) (event_source : Int) (received_events : Nat) (source : EventSource)
    (hsrc : load_source r.heap event_source = source)
    (hcb : ∀ (f o : Int) (x : Registry),
      load_source (callbacks f o x).heap event_source = load_source x.heap event_source)
    (hn : source.state = EVENT_SOURCE_STATE_NORMAL)
    (hpe : ¬(source.prio ≠ 0 ∧ source.prio = source.error ∧
      source.prio_opaque = source.error_opaque))
    (hrw : ¬(source.read ≠ 0 ∧ source.read = source.write ∧
      source.read_opaque = source.write_opaque)) :
    (event_handle_source callbacks r event_source received_events).2 =
      (if received_events &&& EVENT_READ ≠ 0 ∧ source.read ≠ 0 then
        [(source.read, source.read_opaque)] else []) ++
      ((if received_events &&& EVENT_WRITE ≠ 0 ∧ source.write ≠ 0 then
        [(source.write, source.write_opaque)] else []) ++
      ((if received_events &&& EVENT_PRIO ≠ 0 ∧ source.prio ≠ 0 then
        [(source.prio, source.prio_opaque)] else []) ++
      (if received_events &&& EVENT_ERROR ≠ 0 ∧ source.error ≠ 0 then
        [(source.error, source.error_opaque)] else []))) := by
  have hst : source.state ≠ EVENT_SOURCE_STATE_REMOVED := by rw [hn]; decide
  unfold event_handle_source
  simp only
  rw [hsrc, if_neg (not_not.mpr hn), if_neg hpe, if_neg hrw]
  by_cases hc : received_events &&& EVENT_READ ≠ 0 ∧ source.read ≠ 0
  · rw [if_pos hc, if_pos hc]
    have hi : load_source (invoke callbacks source.read source.read_opaque (r, [])).1.heap
        event_source = source := by
      unfold invoke
      simp only
      rw [hcb, hsrc]
    rw [(event_handle_source_write_calls callbacks event_source received_events _ source
      hi hcb hst).1]
    rfl
  · rw [if_neg hc, if_neg hc]
    rw [(event_handle_source_write_calls callbacks event_source received_events _ source
      hsrc hcb hst).1]

theorem event_handle_source_order_witness :
    (load_source (run_calls (event_init Registry.initial true 0).2
      [.add 5 0 9 7 9 none true 0, .modify 5 0 0 6 8 10 0, .cleanup]).heap 1).state =
      EVENT_SOURCE_STATE_NORMAL ∧
    (event_handle_source (fun _ _ x => x)
      (run_calls (event_init Registry.initial true 0).2
        [.add 5 0 9 7 9 none true 0, .modify 5 0 0 6 8 10 0, .cleanup]) 1 15).2 =
      [(7, 9), (8, 10), (8, 10), (7, 9)] :=
  ⟨by decide,
    event_handle_source_order (fun _ _ x => x)
      (run_calls (event_init Registry.initial true 0).2
        [.add 5 0 9 7 9 none true 0, .modify 5 0 0 6 8 10 0, .cleanup]) 1 15 _ rfl
      (fun _ _ _ => rfl) (by decide) (by decide) (by decide)⟩

/-- C22: if a callback invoked during a pass of `event_handle_source` leaves the source
in state `Removed`, no later callback of that source is invoked in that pass,
whatever bits were received: the callback is the last of the pass.  In the
non-merged branch the rest of the pass, from the write, the prio or the error
delivery on, invokes nothing and changes nothing once the source is in state
`Removed`. -/
theorem removed_aborts_pass (callbacks : Int → Int → Registry → Registry)
    (r : Registry) (event_source : Int) (received_events : Nat) (k : Nat)
    (hk : k < (event_handle_source callbacks r event_source received_events).2.length)
    (hrm : (load_source (run_callbacks callbacks r
      ((event_handle_source callbacks r event_source received_events).2.take
        (k + 1))).heap event_source).state = EVENT_SOURCE_STATE_REMOVED) :
    (event_handle_source callbacks r event_source received_events).2.length = k + 1 ∧
    ∀ (s : Registry × List (Int × Int)),
      (load_source s.1.heap event_source).state = EVENT_SOURCE_STATE_REMOVED →
      event_handle_source_write callbacks event_source received_events s = s ∧
      event_handle_source_prio callbacks event_source received_events s = s ∧
      event_handle_source_error callbacks event_source received_events s = s := by
  refine ⟨?_, fun s hs =>
    event_handle_source_stage_removed callbacks event_source received_events s hs⟩
  by_contra hne
  exact (event_handle_source_states callbacks r event_source received_events).2 (k + 1)
    (by omega) hrm

theorem removed_aborts_pass_witness :
    (event_handle_source (fun _ _ x => event_remove_source x 5 0)
      (run_calls (event_init Registry.initial true 0).2
        [.add 5 0 9 7 9 none true 0, .modify 5 0 0 6 8 10 0, .cleanup]) 1 15).2 =
      [(7, 9)] ∧
    (event_handle_source (fun _ _ x => event_remove_source x 5 0)
      (run_calls (event_init Registry.initial true 0).2
        [.add 5 0 9 7 9 none true 0, .modify 5 0 0 6 8 10 0, .cleanup]) 1 15).2.length =
      0 + 1 :=
  ⟨by decide,
    (removed_aborts_pass (fun _ _ x => event_remove_source x 5 0)
      (run_calls (event_init Registry.initial true 0).2
        [.add 5 0 9 7 9 none true 0, .modify 5 0 0 6 8 10 0, .cleanup]) 1 15 0
      (by decide) (by decide)).1⟩

/-- C23, as stated, fails: a source in state `Normal` with the read pair (7, 9) and the
write pair (8, 10) receives READ and WRITE; its read callback calls
`event_modify_source` on the source, which moves it to state `Modified`, and its
write callback is invoked in the same pass all the same. -/
theorem modified_source_fired_again :
    ¬ (∀ (callbacks : Int → Int → Registry → Registry) (r : Registry) (event_source : Int)
      (received_events : Nat) (k : Nat),
      k < (event_handle_source callbacks r event_source received_events).2.length →
      (load_source (run_callbacks callbacks r
        ((event_handle_source callbacks r event_source received_events).2.take
          k)).heap event_source).state = EVENT_SOURCE_STATE_NORMAL) := by
  intro h
  have := h (fun f _ x => if f = 7 then (event_modify_source x 5 0 0 2 11 12 0).2 else x)
    (run_calls (event_init Registry.initial true 0).2
      [.add 5 0 1 7 9 none true 0, .modify 5 0 0 4 8 10 0, .cleanup]) 1 5 1 (by decide)
  revert this
  decide

/-- C23, amended: a pass of `event_handle_source` invokes a callback of a source only
if the source is in state `Normal` when the pass is entered, and never while the
source is in state `Removed`: when a callback is invoked, the source is not in state
`Removed` in the registry the callbacks invoked before it in the pass have left. -/
theorem callbacks_invoked_states (callbacks : Int → Int → Registry → Registry)
    (r : Registry) (event_source : Int) (received_events : Nat) (k : Nat)
    (hk : k < (event_handle_source callbacks r event_source received_events).2.length) :
    (load_source r.heap event_source).state = EVENT_SOURCE_STATE_NORMAL ∧
    (load_source (run_callbacks callbacks r
      ((event_handle_source callbacks r event_source received_events).2.take
        k)).heap event_source).state ≠ EVENT_SOURCE_STATE_REMOVED := by
  refine ⟨?_, (event_handle_source_states callbacks r event_source received_events).2 k hk⟩
  by_contra hn
  rw [event_handle_source_not_normal callbacks r event_source received_events hn] at hk
  simp at hk

theorem callbacks_invoked_states_witness :
    (event_handle_source
      (fun f _ x => if f = 7 then (event_modify_source x 5 0 0 2 11 12 0).2 else x)
      (run_calls (event_init Registry.initial true 0).2
        [.add 5 0 1 7 9 none true 0, .modify 5 0 0 4 8 10 0, .cleanup]) 1 5).2 =
      [(7, 9), (8, 10)] ∧
    (load_source (run_callbacks
      (fun f _ x => if f = 7 then (event_modify_source x 5 0 0 2 11 12 0).2 else x)
      (run_calls (event_init Registry.initial true 0).2
        [.add 5 0 1 7 9 none true 0, .modify 5 0 0 4 8 10 0, .cleanup])
      ((event_handle_source
        (fun f _ x => if f = 7 then (event_modify_source x 5 0 0 2 11 12 0).2 else x)
        (run_calls (event_init Registry.initial true 0).2
          [.add 5 0 1 7 9 none true 0, .modify 5 0 0 4 8 10 0, .cleanup]) 1 5).2.take
        1)).heap 1).state ≠ EVENT_SOURCE_STATE_REMOVED :=
  ⟨by decide,
    (callbacks_invoked_states
      (fun f _ x => if f = 7 then (event_modify_source x 5 0 0 2 11 12 0).2 else x)
      (run_calls (event_init Registry.initial true 0).2
        [.add 5 0 1 7 9 none true 0, .modify 5 0 0 4 8 10 0, .cleanup]) 1 5 1
      (by decide)).2⟩

/-- C24: for every registry state that is valid and has pairwise different identities,
as every reachable state has, and every `(handle, type)`, the sequence
`event_remove_source(handle, type)`, `event_add_source(handle, type, events, function,
opaque)` with successful allocations and hook, `event_cleanup_sources()` leaves
exactly one source with the identity `(handle, type)` in the registry, and that
source is in state `Normal`. -/
theorem remove_add_cleanup (r : Registry) (hv : r.Valid)
    (hu : ((sources r).map EventSource.identity).Nodup) (handle type : Int) (events : Nat)
    (function opaque_ptr : Int) (fill : Nat → Int) (hook : Int) (hhook : 0 ≤ hook) :
    (event_add_source (event_remove_source r handle type) handle type events function
      opaque_ptr (some fill) true hook).1 = 0 ∧
    (sources (event_cleanup_sources (event_add_source (event_remove_source r handle type)
      handle type events function opaque_ptr (some fill) true hook).2)).countP
        (fun s => decide (s.handle = handle ∧ s.type = type)) = 1 ∧
    ∀ s ∈ sources (event_cleanup_sources (event_add_source
        (event_remove_source r handle type) handle type events function opaque_ptr
        (some fill) true hook).2),
      s.handle = handle → s.type = type → s.state = EVENT_SOURCE_STATE_NORMAL := by
  obtain ⟨hrc, s, hs, hsh, hst, hsn⟩ := event_add_source_after_remove r hv hu handle type
    events function opaque_ptr fill hook hhook
  have h2 := run_calls_identities
    [.remove handle type, .add handle type events function opaque_ptr (some fill) true hook,
      .cleanup] r hv hu
  simp only [run_calls, RegistryCall.apply] at h2
  obtain ⟨hv3, hu3⟩ := h2
  have h2' := run_calls_identities
    [.remove handle type, .add handle type events function opaque_ptr (some fill) true hook]
    r hv hu
  simp only [run_calls, RegistryCall.apply] at h2'
  have hcl := (event_cleanup_sources_spec _ h2'.1).2.1
  refine ⟨hrc, ?_, ?_⟩
  · apply Nat.le_antisymm (countP_identity_le_one _ hu3 handle type)
    apply List.countP_pos_iff.mpr
    refine ⟨{ s with state := EVENT_SOURCE_STATE_NORMAL }, ?_, ?_⟩
    · rw [hcl]
      unfold cleaned
      exact List.mem_map.mpr ⟨s, List.mem_filter.mpr ⟨hs, by simpa using hsn⟩, rfl⟩
    · simpa using ⟨hsh, hst⟩
  · intro t ht _ _
    rw [hcl] at ht
    unfold cleaned at ht
    obtain ⟨u, _, hu⟩ := List.mem_map.mp ht
    rw [← hu]

theorem remove_add_cleanup_witness :
    (sources (event_cleanup_sources (event_add_source (event_remove_source
      (run_calls (event_init Registry.initial true 0).2
        [.add 5 0 1 7 9 none true 0, .add 6 0 1 8 10 none true 0, .cleanup]) 5 0)
      5 0 4 11 12 (some fun _ => 0) true 0).2)).countP
        (fun s => decide (s.handle = 5 ∧ s.type = 0)) = 1 :=
  (remove_add_cleanup
    (run_calls (event_init Registry.initial true 0).2
      [.add 5 0 1 7 9 none true 0, .add 6 0 1 8 10 none true 0, .cleanup])
    (run_calls_identities [.add 5 0 1 7 9 none true 0, .add 6 0 1 8 10 none true 0, .cleanup]
      _ event_init_valid.1 (by rw [event_init_valid.2]; exact List.nodup_nil)).1
    (run_calls_identities [.add 5 0 1 7 9 none true 0, .add 6 0 1 8 10 none true 0, .cleanup]
      _ event_init_valid.1 (by rw [event_init_valid.2]; exact List.nodup_nil)).2
    5 0 4 11 12 (fun _ => 0) 0 (by decide)).2.1

/-- C25, as stated, fails: `event_modify_source` moves a source in state `Added` to
state `Modified`, and `event_remove_source` moves a source in state `Added` to state
`Removed`. -/
theorem added_source_moved :
    (sources (run_calls (event_init Registry.initial true 0).2
      [.add 5 0 1 7 9 none true 0])).map EventSource.state = [EVENT_SOURCE_STATE_ADDED] ∧
    (event_modify_source (run_calls (event_init Registry.initial true 0).2
      [.add 5 0 1 7 9 none true 0]) 5 0 0 4 8 10 0).1 = 0 ∧
    (sources (event_modify_source (run_calls (event_init Registry.initial true 0).2
      [.add 5 0 1 7 9 none true 0]) 5 0 0 4 8 10 0).2).map EventSource.state =
      [EVENT_SOURCE_STATE_MODIFIED] ∧
    (sources (event_remove_source (run_calls (event_init Registry.initial true 0).2
      [.add 5 0 1 7 9 none true 0]) 5 0)).map EventSource.state =
      [EVENT_SOURCE_STATE_REMOVED] := by
  decide

/-- C25, amended: every state change that `event_add_source`, `event_modify_source`,
`event_remove_source` or `event_cleanup_sources` makes to a source of a valid registry
is one of these: a new source is appended in state `Added`; `event_add_source` moves
a source from `Removed` to `Readded`; `event_modify_source` moves a source from any
state but `Removed` to `Modified`; `event_remove_source` moves a source from any state
but `Removed` to `Removed`; `event_cleanup_sources` erases the sources in state
`Removed` and moves every other source to `Normal`.  No call changes the identity of
a source, and only `event_add_source` and `event_cleanup_sources` change the number
of sources. -/
theorem lifecycle_transitions (r : Registry) (hv : r.Valid) (handle type : Int)
    (events events_to_remove events_to_add : Nat) (function opaque_ptr : Int)
    (env : Option (Nat → Int)) (ok : Bool) (hook : Int) :
    ((∀ (i : Nat) (s : EventSource), (sources r)[i]? = some s →
        ∃ s', (sources (event_add_source r handle type events function opaque_ptr env ok
            hook).2)[i]? = some s' ∧
          s'.handle = s.handle ∧ s'.type = s.type ∧
          (s'.state = s.state ∨ (s.state = EVENT_SOURCE_STATE_REMOVED ∧
            s'.state = EVENT_SOURCE_STATE_READDED))) ∧
      ∀ (i : Nat) (s' : EventSource), (sources r).length ≤ i →
        (sources (event_add_source r handle type events function opaque_ptr env ok
          hook).2)[i]? = some s' → s'.state = EVENT_SOURCE_STATE_ADDED) ∧
    ((sources (event_modify_source r handle type events_to_remove events_to_add function
        opaque_ptr hook).2).length = (sources r).length ∧
      ∀ (i : Nat) (s : EventSource), (sources r)[i]? = some s →
        ∃ s', (sources (event_modify_source r handle type events_to_remove events_to_add
            function opaque_ptr hook).2)[i]? = some s' ∧
          s'.handle = s.handle ∧ s'.type = s.type ∧
          (s'.state = s.state ∨ (s.state ≠ EVENT_SOURCE_STATE_REMOVED ∧
            s'.state = EVENT_SOURCE_STATE_MODIFIED))) ∧
    ((sources (event_remove_source r handle type)).length = (sources r).length ∧
      ∀ (i : Nat) (s : EventSource), (sources r)[i]? = some s →
        ∃ s', (sources (event_remove_source r handle type))[i]? = some s' ∧
          s'.handle = s.handle ∧ s'.type = s.type ∧
          (s'.state = s.state ∨ (s.state ≠ EVENT_SOURCE_STATE_REMOVED ∧
            s'.state = EVENT_SOURCE_STATE_REMOVED))) ∧
    sources (event_cleanup_sources r) = cleaned (sources r) := by
  refine ⟨?_, ?_, ?_, (event_cleanup_sources_spec r hv).2.1⟩
  · -- event_add_source
    have hsame : ∀ l', l' = sources r →
        (∀ (i : Nat) (s : EventSource), (sources r)[i]? = some s →
          ∃ s', l'[i]? = some s' ∧ s'.handle = s.handle ∧ s'.type = s.type ∧
            (s'.state = s.state ∨ (s.state = EVENT_SOURCE_STATE_REMOVED ∧
              s'.state = EVENT_SOURCE_STATE_READDED))) ∧
        ∀ (i : Nat) (s' : EventSource), (sources r).length ≤ i → l'[i]? = some s' →
          s'.state = EVENT_SOURCE_STATE_ADDED := by
      intro l' hl
      subst hl
      refine ⟨fun i s hi => ⟨s, hi, rfl, rfl, Or.inl rfl⟩, ?_⟩
      intro i s' hi hs'
      rw [List.getElem?_eq_none hi] at hs'
      simp at hs'
    rcases (event_add_source_spec r hv handle type events function opaque_ptr env ok
      hook).2 with ⟨j, s, hj, hsh, hst, _, hc⟩ | ⟨hno, hc⟩
    · rcases hc with ⟨hrm, _, _, hc⟩ | ⟨_, _, _, hc⟩ | ⟨_, hc⟩
      · rw [hc]
        have hi := set_functions_identity
          { s with events := events, state := EVENT_SOURCE_STATE_READDED } events function
          opaque_ptr
        have hp := set_pointwise (sources r) j s (set_functions
          { s with events := events, state := EVENT_SOURCE_STATE_READDED } events function
          opaque_ptr) hj
          (fun t t' => t'.handle = t.handle ∧ t'.type = t.type ∧
            (t'.state = t.state ∨ (t.state = EVENT_SOURCE_STATE_REMOVED ∧
              t'.state = EVENT_SOURCE_STATE_READDED)))
          (fun t => ⟨rfl, rfl, Or.inl rfl⟩)
          ⟨hi.1, hi.2.1, Or.inr ⟨hrm, hi.2.2.2⟩⟩
        refine ⟨hp.2, ?_⟩
        intro i s' hi' hs'
        rw [List.getElem?_eq_none (by rw [hp.1]; exact hi')] at hs'
        simp at hs'
      · exact hsame _ hc
      · rw [hc]
        exact hsame _ rfl
    · rcases hc with ⟨_, _, hc⟩ | ⟨_, _, _, hc⟩
      · exact hsame _ hc
      · rw [hc]
        constructor
        · intro i s hi
          have hil : i < (sources r).length := by
            rcases Nat.lt_or_ge i (sources r).length with h | h
            · exact h
            · rw [List.getElem?_eq_none h] at hi; simp at hi
          exact ⟨s, by rw [List.getElem?_append_left hil]; exact hi, rfl, rfl, Or.inl rfl⟩
        · intro i s' hi hs'
          rw [List.getElem?_append_right hi] at hs'
          have hi0 : i - (sources r).length = 0 := by
            rcases Nat.eq_zero_or_pos (i - (sources r).length) with h | h
            · exact h
            · rw [List.getElem?_eq_none (by simp only [List.length_singleton]; omega)] at hs'
              simp at hs'
          rw [hi0] at hs'
          simp only [List.getElem?_cons_zero, Option.some.injEq] at hs'
          rw [← hs']
          exact (set_functions_identity _ events function opaque_ptr).2.2.2
  · -- event_modify_source
    rcases (event_modify_source_spec r hv handle type events_to_remove events_to_add function
      opaque_ptr hook).2 with ⟨j, s, hj, hsh, hst, _, hc⟩ | ⟨hno, hc⟩
    · rcases hc with ⟨hnr, _, _, hc⟩ | ⟨_, _, _, hc⟩ | ⟨_, hc⟩
      · rw [hc]
        have hi := set_functions_identity (unset_functions
          { s with events := s.events &&& uint32_not events_to_remove ||| events_to_add }
          events_to_remove) events_to_add function opaque_ptr
        have hi' := unset_functions_identity
          { s with events := s.events &&& uint32_not events_to_remove ||| events_to_add }
          events_to_remove
        exact set_pointwise (sources r) j s _ hj
          (fun t t' => t'.handle = t.handle ∧ t'.type = t.type ∧
            (t'.state = t.state ∨ (t.state ≠ EVENT_SOURCE_STATE_REMOVED ∧
              t'.state = EVENT_SOURCE_STATE_MODIFIED)))
          (fun t => ⟨rfl, rfl, Or.inl rfl⟩)
          ⟨by simp only; rw [hi.1, hi'.1], by simp only; rw [hi.2.1, hi'.2.1],
            Or.inr ⟨hnr, rfl⟩⟩
      · exact same_pointwise _ _ hc _ (fun t => ⟨rfl, rfl, Or.inl rfl⟩)
      · rw [hc]
        exact same_pointwise _ _ rfl _ (fun t => ⟨rfl, rfl, Or.inl rfl⟩)
    · rw [hc]
      exact same_pointwise _ _ rfl _ (fun t => ⟨rfl, rfl, Or.inl rfl⟩)
  · -- event_remove_source
    rcases (event_remove_source_spec r hv handle type).2 with
      ⟨j, s, hj, hsh, hst, _, hc⟩ | ⟨hno, hc⟩
    · rcases hc with ⟨hnr, hc, _⟩ | ⟨_, hc⟩
      · rw [hc]
        exact set_pointwise (sources r) j s _ hj
          (fun t t' => t'.handle = t.handle ∧ t'.type = t.type ∧
            (t'.state = t.state ∨ (t.state ≠ EVENT_SOURCE_STATE_REMOVED ∧
              t'.state = EVENT_SOURCE_STATE_REMOVED)))
          (fun t => ⟨rfl, rfl, Or.inl rfl⟩) ⟨rfl, rfl, Or.inr ⟨hnr, rfl⟩⟩
      · rw [hc]
        exact same_pointwise _ _ rfl _ (fun t => ⟨rfl, rfl, Or.inl rfl⟩)
    · rw [hc]
      exact same_pointwise _ _ rfl _ (fun t => ⟨rfl, rfl, Or.inl rfl⟩)

theorem lifecycle_transitions_witness :
    (sources (event_modify_source (run_calls (event_init Registry.initial true 0).2
      [.add 5 0 1 7 9 none true 0]) 5 0 0 4 8 10 0).2).length =
      (sources (run_calls (event_init Registry.initial true 0).2
        [.add 5 0 1 7 9 none true 0])).length ∧
    sources (event_cleanup_sources (run_calls (event_init Registry.initial true 0).2
      [.add 5 0 1 7 9 none true 0])) =
      cleaned (sources (run_calls (event_init Registry.initial true 0).2
        [.add 5 0 1 7 9 none true 0])) :=
  ⟨(lifecycle_transitions
      (run_calls (event_init Registry.initial true 0).2 [.add 5 0 1 7 9 none true 0])
      (run_calls_identities [.add 5 0 1 7 9 none true 0]
        _ event_init_valid.1 (by rw [event_init_valid.2]; exact List.nodup_nil)).1
      5 0 1 0 4 8 10 none true 0).2.1.1,
    (lifecycle_transitions
      (run_calls (event_init Registry.initial true 0).2 [.add 5 0 1 7 9 none true 0])
      (run_calls_identities [.add 5 0 1 7 9 none true 0]
        _ event_init_valid.1 (by rw [event_init_valid.2]; exact List.nodup_nil)).1
      5 0 1 0 4 8 10 none true 0).2.2.2⟩

/-- C26: `event_run` returns 0 and leaves the registry as it is, so that no call of the
platform backend is recorded, whenever the running flag is set or a stop was
requested; otherwise it calls `event_run_platform` once, which is recorded, and
returns the result of the backend unchanged, so that a negative result reaches the
caller.  `event_stop` sets the stop request, and no call of `event_init`,
`event_add_source`, `event_modify_source`, `event_remove_source`,
`event_cleanup_sources` or `event_stop` clears it: after an `event_stop`, and any
calls of the registry after it, `event_run` returns 0 without calling the backend. -/
theorem event_run_spec (r : Registry) (run_platform : Registry → Int × Registry)
    (calls : List RegistryCall) :
    ((r.running = true ∨ r.stop_requested = true) → event_run r run_platform = (0, r)) ∧
    (r.running = false → r.stop_requested = false →
      event_run r run_platform =
        run_platform { r with platform := r.platform ++ [.run] } ∧
      ((run_platform { r with platform := r.platform ++ [.run] }).1 < 0 →
        (event_run r run_platform).1 < 0)) ∧
    (event_stop r).stop_requested = true ∧
    (run_calls r calls).stop_requested = r.stop_requested ∧
    (∀ (ok : Bool) (init_platform : Int),
      (event_init r ok init_platform).2.stop_requested = r.stop_requested) ∧
    event_run (run_calls (event_stop r) calls) run_platform =
      (0, run_calls (event_stop r) calls) := by
  have hstop : (event_stop r).stop_requested = true := by
    unfold event_stop
    simp only
    split <;> rfl
  have hrun : ∀ (x : Registry), (x.running = true ∨ x.stop_requested = true) →
      event_run x run_platform = (0, x) := by
    intro x hx
    unfold event_run
    rcases hx with hx | hx
    · rw [if_pos hx]
    · by_cases hr : x.running = true
      · rw [if_pos hr]
      · rw [if_neg hr, if_pos hx]
  refine ⟨hrun r, ?_, hstop, (run_calls_flags calls r).2,
    fun ok init_platform => (event_init_flags r ok init_platform).2, ?_⟩
  · intro h1 h2
    have he : event_run r run_platform =
        run_platform { r with platform := r.platform ++ [.run] } := by
      unfold event_run
      rw [if_neg (by rw [h1]; simp), if_neg (by rw [h2]; simp)]
    refine ⟨he, ?_⟩
    rw [he]
    exact fun h => h
  · apply hrun
    right
    rw [(run_calls_flags calls (event_stop r)).2]
    exact hstop

theorem event_run_spec_witness :
    event_run (event_stop (event_init Registry.initial true 0).2) (fun x => (-1, x)) =
      (0, event_stop (event_init Registry.initial true 0).2) ∧
    (event_run (event_init Registry.initial true 0).2 (fun x => (-1, x))).1 = -1 :=
  ⟨(event_run_spec (event_stop (event_init Registry.initial true 0).2) (fun x => (-1, x))
      []).1 (Or.inr rfl),
    congrArg Prod.fst ((event_run_spec (event_init Registry.initial true 0).2
      (fun x => (-1, x)) []).2.1 rfl rfl).1⟩

/-- C27, as stated, fails: when `getaddrinfo` or `getnameinfo` fails with the native
code 11001, `socket_hostname_to_address` and `socket_address_to_hostname` set `errno`
to 71,000,000 + 11001, not to 72,000,000 + 11001. -/
theorem address_resolution_offset :
    socket_hostname_to_address { result := 11001, last_error := 11001 } 0 0 =
      (0, 71011001) ∧
    socket_address_to_hostname { result := 11001, last_error := 11001 } 0 = (-1, 71011001) ∧
    (socket_hostname_to_address { result := 11001, last_error := 11001 } 0 0).2 ≠
      ERRNO_ADDRINFO_OFFSET + 11001 ∧
    (socket_address_to_hostname { result := 11001, last_error := 11001 } 0).2 ≠
      ERRNO_ADDRINFO_OFFSET + 11001 := by
  decide

/-- C27, amended: every failing operation of the Windows socket layer sets `errno` to
`ERRNO_WINAPI_OFFSET`, which is 71,000,000, plus a native code: the code
`WSAGetLastError()` reports after the API call that failed, for open, accept, bind,
listen, connect, receive, send and the socket options, and for the address
resolution (`socket_hostname_to_address`, `socket_address_to_hostname`) alike, or
`WSAENOPROTOOPT` when `socket_set_dual_stack` refuses the dual-stack mode.  For
native codes below 1,000,000 these values lie in the range from 71,000,000 on and
below `ERRNO_ADDRINFO_OFFSET`, which is 72,000,000. -/
theorem winapi_error_codes (family : Int) (socket accept setsockopt ioctlsocket call : Native)
    (dual_stack : Bool) (version resolved errno : Int) :
    ERRNO_WINAPI_OFFSET = 71000000 ∧ ERRNO_ADDRINFO_OFFSET = 72000000 ∧
    ((socket_open family socket setsockopt ioctlsocket errno).1 = -1 →
      (socket_open family socket setsockopt ioctlsocket errno).2.2 =
          ERRNO_WINAPI_OFFSET + socket.last_error ∨
        (socket_open family socket setsockopt ioctlsocket errno).2.2 =
          ERRNO_WINAPI_OFFSET + setsockopt.last_error ∨
        (socket_open family socket setsockopt ioctlsocket errno).2.2 =
          ERRNO_WINAPI_OFFSET + ioctlsocket.last_error) ∧
    ((socket_accept_platform family accept setsockopt ioctlsocket errno).1 = -1 →
      (socket_accept_platform family accept setsockopt ioctlsocket errno).2.2 =
          ERRNO_WINAPI_OFFSET + accept.last_error ∨
        (socket_accept_platform family accept setsockopt ioctlsocket errno).2.2 =
          ERRNO_WINAPI_OFFSET + setsockopt.last_error ∨
        (socket_accept_platform family accept setsockopt ioctlsocket errno).2.2 =
          ERRNO_WINAPI_OFFSET + ioctlsocket.last_error) ∧
    ((socket_bind call errno).1 = -1 →
      (socket_bind call errno).2 = ERRNO_WINAPI_OFFSET + call.last_error) ∧
    ((socket_listen_platform call errno).1 = -1 →
      (socket_listen_platform call errno).2 = ERRNO_WINAPI_OFFSET + call.last_error) ∧
    ((socket_connect call errno).1 = -1 →
      (socket_connect call errno).2 = ERRNO_WINAPI_OFFSET + call.last_error) ∧
    ((socket_receive_platform call errno).1 = -1 →
      (socket_receive_platform call errno).2 = ERRNO_WINAPI_OFFSET + call.last_error) ∧
    ((socket_send_platform call errno).1 = -1 →
      (socket_send_platform call errno).2 = ERRNO_WINAPI_OFFSET + call.last_error) ∧
    ((socket_set_address_reuse call errno).1 = -1 →
      (socket_set_address_reuse call errno).2 = ERRNO_WINAPI_OFFSET + call.last_error) ∧
    ((socket_set_dual_stack dual_stack version call errno).1 = -1 →
      (socket_set_dual_stack dual_stack version call errno).2 =
          ERRNO_WINAPI_OFFSET + WSAENOPROTOOPT ∨
        (socket_set_dual_stack dual_stack version call errno).2 =
          ERRNO_WINAPI_OFFSET + call.last_error) ∧
    (call.result ≠ 0 →
      socket_hostname_to_address call resolved errno =
        (0, ERRNO_WINAPI_OFFSET + call.last_error)) ∧
    (call.result ≠ 0 →
      socket_address_to_hostname call errno = (-1, ERRNO_WINAPI_OFFSET + call.last_error)) ∧
    ∀ (code : Int), 0 ≤ code → code < 1000000 →
      71000000 ≤ ERRNO_WINAPI_OFFSET + code ∧
        ERRNO_WINAPI_OFFSET + code < ERRNO_ADDRINFO_OFFSET := by
  refine ⟨rfl, rfl, ?_, ?_, socket_call_failure call errno, socket_call_failure call errno,
    socket_call_failure call errno, socket_call_failure call errno,
    socket_call_failure call errno, socket_call_failure call errno, ?_, ?_, ?_, ?_⟩
  · intro h
    unfold socket_open at h ⊢
    split
    · left; rfl
    · simp only
      have hp := socket_prepare_failure family setsockopt ioctlsocket errno
      split
      · rename_i _ hneg
        right
        exact hp hneg
      · rename_i hi hneg
        rw [if_neg hi] at h
        simp only at h
        rw [if_neg hneg] at h
        simp at h
  · intro h
    unfold socket_accept_platform at h ⊢
    split
    · left; rfl
    · simp only
      have hp := socket_prepare_failure family setsockopt ioctlsocket errno
      split
      · rename_i _ hneg
        right
        exact hp hneg
      · rename_i hi hneg
        rw [if_neg hi] at h
        simp only at h
        rw [if_neg hneg] at h
        simp at h
  · intro h
    unfold socket_set_dual_stack at h ⊢
    split
    · rename_i hv
      rw [if_pos hv] at h
      split
      · left; rfl
      · rename_i hd
        rw [if_neg hd] at h
        simp at h
    · rename_i hv
      rw [if_neg hv] at h
      split
      · right; rfl
      · rename_i hne
        rw [if_neg hne] at h
        exact absurd h hne
  · intro h
    unfold socket_hostname_to_address
    rw [if_pos h]
  · intro h
    unfold socket_address_to_hostname
    rw [if_pos h]
  · intro code h0 h1
    unfold ERRNO_WINAPI_OFFSET ERRNO_ADDRINFO_OFFSET
    omega

theorem winapi_error_codes_witness :
    socket_hostname_to_address { result := 11001, last_error := 11001 } 0 0 =
      (0, ERRNO_WINAPI_OFFSET + 11001) ∧
    (socket_open 2 { result := 18446744073709551615, last_error := 10024 }
      { result := 0, last_error := 0 } { result := 0, last_error := 0 } 0).2.2 =
      ERRNO_WINAPI_OFFSET + 10024 :=
  ⟨(winapi_error_codes 2 { result := 18446744073709551615, last_error := 10024 }
      { result := 0, last_error := 0 } { result := 0, last_error := 0 }
      { result := 0, last_error := 0 } { result := 11001, last_error := 11001 }
      false 6 0 0).2.2.2.2.2.2.2.2.2.2.2.1 (by decide),
    by decide⟩

/-- C28: for an Array with `0 <= count <= allocated` and `allocated` a positive
multiple of 16, a successful `array_append` changes `allocated` if and only if
`count = allocated` before the call, and then adds exactly 16 to it.  After
`array_create(1, 24, true)`, which gives `allocated = 16`, `k` appends succeed for
every `k <= 17` and leave `count = k`, with `allocated = 16` for `k <= 16` and
`allocated = 32` for `k = 17`: the capacity grows once, at the 17th append. -/
theorem array_append_growth (a : Array) (h : Heap) (env : Option (Nat → Int)) (ok : Bool)
    (p : Int) (a' : Array) (h' : Heap) (hb : count_in_bounds a) (hpos : 0 < a.allocated)
    (hdiv : 16 ∣ a.allocated) (hr : array_append a h env ok = (some p, a', h')) :
    (a'.allocated ≠ a.allocated ↔ a.count = a.allocated) ∧
    (a.count = a.allocated → a'.allocated = a.allocated + 16) ∧
    (array_create 1 24 true true).2.allocated = 16 ∧
    ∀ (fill : Nat → Int) (v : List Int) (k : Nat), k ≤ 17 →
      ∃ s, run_ops ((array_create 1 24 true true).2, Heap.empty)
          (List.replicate k (.append (some fill) true v)) = some s ∧
        s.1.count = k ∧ s.1.allocated = if k ≤ 16 then 16 else 32 := by
  have hall := (array_append_allocated a h env ok p a' h' hb hpos hdiv hr).2.2
  refine ⟨?_, ?_, by decide, ?_⟩
  · rw [hall]; split <;> omega
  · intro heq; rw [hall, if_pos heq]
  · intro fill v k hk
    have h16 : (array_create 1 24 true true).2.allocated = 16 := by decide
    have h0 : (array_create 1 24 true true).2.count = 0 := by decide
    obtain ⟨s, hrun, hc, ha⟩ := run_appends fill v k
      ((array_create 1 24 true true).2, Heap.empty)
      (by unfold count_in_bounds; simp only; rw [h0, h16]; omega)
      (by simp only; rw [h16]; omega) (by simp only; rw [h16])
    simp only at hc ha
    rw [h0] at hc
    rw [h0, h16] at ha
    refine ⟨s, hrun, by omega, ?_⟩
    rw [ha]
    rcases Nat.eq_zero_or_pos k with hk0 | hk0
    · subst hk0; decide
    · have hg := GROW_ALLOCATION_pos (0 + (k : Int)) (by omega)
      split <;> omega

theorem array_append_growth_witness :
    count_in_bounds (array_create 1 24 true true).2 ∧
    ((array_append (array_create 1 24 true true).2 Heap.empty none true).2.1.allocated ≠
        (array_create 1 24 true true).2.allocated ↔
      (array_create 1 24 true true).2.count = (array_create 1 24 true true).2.allocated) :=
  ⟨⟨by decide, by decide⟩,
    (array_append_growth (array_create 1 24 true true).2 Heap.empty none true 0
      (array_append (array_create 1 24 true true).2 Heap.empty none true).2.1
      Heap.empty ⟨by decide, by decide⟩ (by decide) (by decide) rfl).1⟩

/-- C29: `event_handle_source` handles at most one merged pair in a pass.  For a
source in state `Normal` whose prio and error pairs are the same non-null function and
context, the callbacks invoked are that function once when the received mask has PRIO
or ERROR, and none otherwise, whatever the read and write callbacks and the READ and
WRITE bits are; when only the read and write pairs are merged, the callbacks invoked
are the read function once when the mask has READ or WRITE, and none otherwise, so
the prio and error callbacks are not invoked. -/
theorem merged_pair_only (callbacks : Int → Int → Registry → Registry) (r : Registry)
    (event_source : Int) (received_events : Nat) (source : EventSource)
    (hsrc : load_source r.heap event_source = source)
    (hn : source.state = EVENT_SOURCE_STATE_NORMAL) :
    ((source.prio ≠ 0 ∧ source.prio = source.error ∧
        source.prio_opaque = source.error_opaque) →
      (event_handle_source callbacks r event_source received_events).2 =
        if received_events &&& EVENT_PRIO ≠ 0 ∨ received_events &&& EVENT_ERROR ≠ 0 then
          [(source.prio, source.prio_opaque)] else []) ∧
    (¬(source.prio ≠ 0 ∧ source.prio = source.error ∧
        source.prio_opaque = source.error_opaque) →
      (source.read ≠ 0 ∧ source.read = source.write ∧
        source.read_opaque = source.write_opaque) →
      (event_handle_source callbacks r event_source received_events).2 =
        if received_events &&& EVENT_READ ≠ 0 ∨ received_events &&& EVENT_WRITE ≠ 0 then
          [(source.read, source.read_opaque)] else []) := by
  subst hsrc
  constructor
  · intro hm
    unfold event_handle_source
    simp only
    rw [if_neg (not_not.mpr hn), if_pos hm]
    by_cases hb : received_events &&& ( EVENT_PRIO ||| EVENT_ERROR) ≠ 0
    · rw [if_pos hb, if_pos ((and_or_ne_zero_iff _ _ _).mp hb)]
      rfl
    · rw [if_neg hb, if_neg (fun hc => hb ((and_or_ne_zero_iff _ _ _).mpr hc))]
  · intro hm hm'
    unfold event_handle_source
    simp only
    rw [if_neg (not_not.mpr hn), if_neg hm, if_pos hm']
    by_cases hb : received_events &&& (EVENT_READ ||| EVENT_WRITE) ≠ 0
    · rw [if_pos hb, if_pos ((and_or_ne_zero_iff _ _ _).mp hb)]
      rfl
    · rw [if_neg hb, if_neg (fun hc => hb ((and_or_ne_zero_iff _ _ _).mpr hc))]

theorem merged_pair_only_witness :
    (load_source (run_calls (event_init Registry.initial true 0).2
      [.add 5 0 10 7 9 none true 0, .modify 5 0 0 5 8 10 0, .cleanup]).heap 1).state =
      EVENT_SOURCE_STATE_NORMAL ∧
    (event_handle_source (fun _ _ x => x)
      (run_calls (event_init Registry.initial true 0).2
        [.add 5 0 10 7 9 none true 0, .modify 5 0 0 5 8 10 0, .cleanup]) 1 7).2 =
      [(7, 9)] :=
  ⟨by decide,
    (merged_pair_only (fun _ _ x => x)
      (run_calls (event_init Registry.initial true 0).2
        [.add 5 0 10 7 9 none true 0, .modify 5 0 0 5 8 10 0, .cleanup]) 1 7 _ rfl
      (by decide)).1 (by decide)⟩

/-- C30: when `event_add_source` re-adds, with the mask `events`, a source that
`event_remove_source` has put in state `Removed`, the source's events mask is exactly
`events` and its state `Readded`, the pairs of the bits of `events` are the new
function and context, and the pairs of the bits among READ, WRITE, PRIO, ERROR that
are not in `events` are not cleared: they are the pairs the source had before it was
removed. -/
theorem readd_keeps_other_pairs (r : Registry) (hv : r.Valid)
    (hu : ((sources r).map EventSource.identity).Nodup) (j : Nat) (s0 : EventSource)
    (hj : (sources r)[j]? = some s0) (events : Nat) (function opaque_ptr : Int)
    (env : Option (Nat → Int)) (ok : Bool) (hook : Int) (hhook : 0 ≤ hook) :
    (event_add_source (event_remove_source r s0.handle s0.type) s0.handle s0.type events
      function opaque_ptr env ok hook).1 = 0 ∧
    ∃ s2, (sources (event_add_source (event_remove_source r s0.handle s0.type) s0.handle
        s0.type events function opaque_ptr env ok hook).2)[j]? = some s2 ∧
      s2.handle = s0.handle ∧ s2.type = s0.type ∧
      s2.events = events ∧ s2.state = EVENT_SOURCE_STATE_READDED ∧
      (s2.read, s2.read_opaque) =
        (if events &&& EVENT_READ ≠ 0 then (function, opaque_ptr)
          else (s0.read, s0.read_opaque)) ∧
      (s2.write, s2.write_opaque) =
        (if events &&& EVENT_WRITE ≠ 0 then (function, opaque_ptr)
          else (s0.write, s0.write_opaque)) ∧
      (s2.prio, s2.prio_opaque) =
        (if events &&& EVENT_PRIO ≠ 0 then (function, opaque_ptr)
          else (s0.prio, s0.prio_opaque)) ∧
      (s2.error, s2.error_opaque) =
        (if events &&& EVENT_ERROR ≠ 0 then (function, opaque_ptr)
          else (s0.error, s0.error_opaque)) := by
  have h1 := apply_identities r (.remove s0.handle s0.type) hv hu
  simp only [RegistryCall.apply] at h1
  obtain ⟨hv1, hu1⟩ := h1
  have hjl : j < (sources r).length := by
    rcases Nat.lt_or_ge j (sources r).length with h | h
    · exact h
    · rw [List.getElem?_eq_none h] at hj; simp at hj
  have hs1 := event_remove_source_at r hv hu j s0 hj
  have hj1 : (sources (event_remove_source r s0.handle s0.type))[j]? =
      some { s0 with state := EVENT_SOURCE_STATE_REMOVED } := by
    rw [hs1, List.getElem?_set_self hjl]
  have hjl1 : j < (sources (event_remove_source r s0.handle s0.type)).length := by
    rw [hs1, List.length_set]; exact hjl
  rcases (event_add_source_spec (event_remove_source r s0.handle s0.type) hv1 s0.handle
    s0.type events function opaque_ptr env ok hook).2 with
    ⟨j', s', hj', hsh, hst, _, hc⟩ | ⟨hno, _⟩
  · obtain ⟨hjj, hss⟩ := unique_source _ hu1 j' j s' _ hj' hj1 hsh hst
    subst hjj
    rcases hc with ⟨_, _, hrc, hc⟩ | ⟨_, hneg, _⟩ | ⟨hnr, _⟩
    · refine ⟨hrc, _, by rw [hc, List.getElem?_set_self hjl1], ?_⟩
      have hi := set_functions_identity
        { s' with events := events, state := EVENT_SOURCE_STATE_READDED } events function
        opaque_ptr
      have hp := set_functions_pairs
        { s' with events := events, state := EVENT_SOURCE_STATE_READDED } events function
        opaque_ptr
      subst hss
      exact ⟨hi.1, hi.2.1, hi.2.2.1, hi.2.2.2, hp.1, hp.2.1, hp.2.2.1, hp.2.2.2⟩
    · omega
    · subst hss
      exact absurd rfl hnr
  · exact absurd ⟨rfl, rfl⟩ (hno _ (List.getElem?_mem hj1))

theorem readd_keeps_other_pairs_witness :
    ((sources (event_add_source (event_remove_source
      (run_calls (event_init Registry.initial true 0).2
        [.add 5 0 5 7 9 none true 0, .cleanup]) 5 0) 5 0 1 8 10 none true 0).2).map
      fun s => (s.events, s.state, s.read, s.write)) = [(1, 3, 8, 7)] ∧
    (event_add_source (event_remove_source
      (run_calls (event_init Registry.initial true 0).2
        [.add 5 0 5 7 9 none true 0, .cleanup]) 5 0) 5 0 1 8 10 none true 0).1 = 0 :=
  ⟨by decide,
    (readd_keeps_other_pairs
      (run_calls (event_init Registry.initial true 0).2 [.add 5 0 5 7 9 none true 0, .cleanup])
      (run_calls_identities [.add 5 0 5 7 9 none true 0, .cleanup]
        _ event_init_valid.1 (by rw [event_init_valid.2]; exact List.nodup_nil)).1
      (run_calls_identities [.add 5 0 5 7 9 none true 0, .cleanup]
        _ event_init_valid.1 (by rw [event_init_valid.2]; exact List.nodup_nil)).2
      0 _ rfl 1 8 10 none true 0 (by decide)).1⟩

end Daemonlib
